import Mathlib

/-!
# sentry: message routing core

A shallow embedding of the message queue (`message_queue.cc`), the network
server's uplink handshake, control records and client teardown (`netcom.cc`),
the engine's dispatch loop and start-up (`engine.cc`), the signal thread
(`sentry.cc`), the uplink worker with its frame upload (`netcom.cc`), the
worker life cycle (`worker.cc`), the camera reservations (`camera.cc`) and the
chassis manager with its serial line (`chmgr.cc`), with the properties proved
about them.

Conventions of the embedding:

* machine integers are `Nat` (unsigned) or `Int` (signed); bytes are `Nat`
  below 256;
* a pointer to a heap object that has a single owner is modelled by the object
  itself; a pointer that is only passed around is a `Nat` handle;
* a critical section protected by the queue mutex is one atomic operation;
* a call whose outcome the program cannot predict (thread creation, the random
  generator, a TLS read or write, a camera capture) takes its outcome as an
  argument, and so does the content of memory the program reads before
  writing it;
* a loop that the source does not bound by a counter takes fuel, and `none`
  stands for running out of it or for behaviour the language leaves undefined.
-/

namespace sentry

/-! ## message.h -/

/-- Enumerators of `message_type_en`, in declaration order. -/
abbrev MESSAGE_INVALID : Nat := 0
abbrev MESSAGE_TERMINATE : Nat := 1
abbrev MESSAGE_SEARCH_REMOTE : Nat := 2
abbrev MESSAGE_CAMERA_REQUEST : Nat := 3
abbrev MESSAGE_CAMERA_FRAME : Nat := 4
abbrev MESSAGE_SENSOR_REQUEST : Nat := 5
abbrev MESSAGE_SENSOR_DATA : Nat := 6
abbrev MESSAGE_MOVE : Nat := 7
abbrev MESSAGE_USER_UP : Nat := 8
abbrev MESSAGE_USER_DOWN : Nat := 9
abbrev MESSAGE_HEARTBEAT : Nat := 10
abbrev MESSAGE_NETCOM_CONNECT : Nat := 11
abbrev MESSAGE_NETCOM_KEY : Nat := 12
abbrev MESSAGE_NETCOM_CLIENT_ALIVE : Nat := 13
abbrev MESSAGE_NETCOM_CLIENT_DEAD : Nat := 14

/-- The constant `max_buf_size`. -/
abbrev max_buf_size : Nat := 512

/-- A message object as it lives on the heap, by the struct it was allocated
as: `message_st`, `message_move_st`, `message_sensor_st`, `message_netcom_st`.
Every variant starts with the `type` field of `message_st`. -/
inductive message where
  | st (type : Nat)
  | move (type : Nat) (direction : Nat)
  | sensor (type : Nat) (sensor : Nat) (data : Nat)
  | netcom (type : Nat) (id : Int) (client : Nat)
  deriving DecidableEq, Repr

/-- The field `msg->type`, present in every message. -/
def message.type : message → Nat
  | .st t => t
  | .move t _ => t
  | .sensor t _ _ => t
  | .netcom t _ _ => t

/-! ## message_queue.cc -/

/-- The members `msgs` and `more` of class `MessageQueue`; the head of the list
is the front of the `std::queue`. -/
structure MessageQueue where
  msgs : List message
  more : Bool
  deriving DecidableEq, Repr

namespace MessageQueue

/-- The state left by the constructor: an empty queue, `more = false`. -/
def init : MessageQueue := { msgs := [], more := false }

/-- The member `push_msg (void *msg)`: append at the back. -/
def push_msg (q : MessageQueue) (msg : message) : MessageQueue :=
  { q with msgs := q.msgs ++ [msg] }

/-- The member `push_msg (const message_type_en type)`: allocate a
`message_st` with that type and push it. -/
def push_msg_type (q : MessageQueue) (type : Nat) : MessageQueue :=
  q.push_msg (message.st type)

/-- The member `pop_msg`: the returned pointer (`none` for `NULL`) and the queue
afterwards. `more` is written only when a message was taken. -/
def pop_msg (q : MessageQueue) : Option message × MessageQueue :=
  match q.msgs with
  | [] => (none, q)
  | msg :: rest => (some msg, { msgs := rest, more := !rest.isEmpty })

end MessageQueue

/-- One call on a queue, as made by some thread. -/
inductive QueueOp where
  | push (msg : message)
  | pop
  deriving DecidableEq, Repr

/-- Run the calls of an interleaving in order; returns the final queue and what
each `pop` returned, in call order. -/
def run_queue : MessageQueue → List QueueOp → MessageQueue × List (Option message)
  | q, [] => (q, [])
  | q, QueueOp.push msg :: ops => run_queue (q.push_msg msg) ops
  | q, QueueOp.pop :: ops =>
    let r := q.pop_msg
    let rest := run_queue r.2 ops
    (rest.1, r.1 :: rest.2)

/-- The messages pushed by an interleaving, in push order. -/
def pushed : List QueueOp → List message
  | [] => []
  | QueueOp.push msg :: ops => msg :: pushed ops
  | QueueOp.pop :: ops => pushed ops

/-- The messages returned by the pops of an interleaving that returned one,
in pop order. -/
def delivered (q : MessageQueue) (ops : List QueueOp) : List message :=
  (run_queue q ops).2.filterMap id

/-! ## std::map keyed by int -/

namespace map

/-- The member `find`: the value stored under `k`, `none` for `end()`. -/
def find {β : Type} (k : Int) : List (Int × β) → Option β
  | [] => none
  | (k', v) :: rest => if k' = k then some v else find k rest

/-- Put a new element at its place in key order. -/
def place {β : Type} (k : Int) (v : β) : List (Int × β) → List (Int × β)
  | [] => [(k, v)]
  | (k', v') :: rest =>
    if k < k' then (k, v) :: (k', v') :: rest else (k', v') :: place k v rest

/-- The member `insert`: adds the pair when no element has the key, and leaves
the container as it is when one has. -/
def insert {β : Type} (k : Int) (v : β) (m : List (Int × β)) : List (Int × β) :=
  if (find k m).isSome then m else place k v m

/-- The member `erase` applied to the iterator returned by `find k`. -/
def erase {β : Type} (k : Int) : List (Int × β) → List (Int × β)
  | [] => []
  | (k', v) :: rest => if k' = k then rest else (k', v) :: erase k rest

/-- A write through the iterator returned by `find k`: the element found is
replaced by `f` of it. -/
def modify {β : Type} (k : Int) (f : β → β) : List (Int × β) → List (Int × β)
  | [] => []
  | (k', v) :: rest => if k' = k then (k', f v) :: rest else (k', v) :: modify k f rest

/-- The number of elements stored under `k`. -/
def count {β : Type} (k : Int) (m : List (Int × β)) : Nat :=
  (m.filter (fun e => decide (e.1 = k))).length

/-- The container invariant: keys strictly increasing, hence unique. -/
def WF {β : Type} (m : List (Int × β)) : Prop :=
  (m.map Prod.fst).Pairwise (fun a b => a < b)

instance {β : Type} (m : List (Int × β)) : Decidable (WF m) := by
  unfold WF
  infer_instance

end map

/-! ## netcom.cc: the uplink handshake -/

/-- The enumerator `NETCOM_SOCKET_INVALID`. -/
abbrev NETCOM_SOCKET_INVALID : Int := -1

/-- The struct `netcom_uplink_st` (the name, used for logging only, is left
out). `addr` stands for the `sockaddr_storage` value. -/
structure netcom_uplink_st where
  id : Int
  sd : Int
  addr : Nat
  key : List Nat
  deriving DecidableEq, Repr

/-- The struct `netcom_client_st` (without the name). `ssl` is the handle of
the TLS session, `uplink` the address of the uplink object. -/
structure netcom_client_st where
  sd : Int
  ssl : Nat
  otp : List Nat
  uplink : Nat
  deriving DecidableEq, Repr

/-- The state `Netcom::connect_uplink` reads and writes: the datagram server
socket, the client map, the uplink objects by address, the engine queue, and
the records written so far with `SSL_write`, each with its session handle. -/
structure Netcom where
  server_socket_dgram : Int
  clients : List (Int × netcom_client_st)
  uplinks : Nat → netcom_uplink_st
  engine_queue : MessageQueue
  ssl_written : List (Nat × List Nat)

/-- Read a `uint32_t` field at byte offset `off` of a buffer, on a
little-endian host. Bytes past the end of the list read as zero. -/
def load_u32 (buf : List Nat) (off : Nat) : Nat :=
  buf.getD off 0 + buf.getD (off + 1) 0 * 2 ^ 8 + buf.getD (off + 2) 0 * 2 ^ 16
    + buf.getD (off + 3) 0 * 2 ^ 24

/-- The bytes of a `uint32_t` in memory, on a little-endian host. -/
def store_u32 (x : Nat) : List Nat :=
  [x % 2 ^ 8, x / 2 ^ 8 % 2 ^ 8, x / 2 ^ 16 % 2 ^ 8, x / 2 ^ 24 % 2 ^ 8]

/-- The function `ntohl` on a little-endian host: reverse the four bytes. -/
def ntohl (x : Nat) : Nat :=
  x / 2 ^ 24 % 2 ^ 8 + x / 2 ^ 16 % 2 ^ 8 * 2 ^ 8 + x / 2 ^ 8 % 2 ^ 8 * 2 ^ 16
    + x % 2 ^ 8 * 2 ^ 24

/-- The function `htonl`, the same byte reversal. -/
def htonl (x : Nat) : Nat := ntohl x

/-- Conversion of a `uint32_t` to `int`. -/
def to_int (x : Nat) : Int :=
  if x % 2 ^ 32 < 2 ^ 31 then (x % 2 ^ 32 : Nat) else (x % 2 ^ 32 : Nat) - 2 ^ 32

/-- Whether `memcmp (a, b, n)` returns zero: the first `n` bytes agree. -/
def memcmp_zero (a b : List Nat) (n : Nat) : Bool :=
  (List.range n).all (fun i => a.getD i 0 == b.getD i 0)

/-- The bytes of a `message_key_st` whose type field holds
`htonl (MESSAGE_NETCOM_KEY)` and whose key field holds `key`. -/
def message_key_bytes (key : List Nat) : List Nat :=
  store_u32 (htonl MESSAGE_NETCOM_KEY) ++ key

/-- The member `Netcom::connect_uplink`. The record is in `buf`
(`message_connect_st`: type at offset 0, id at offset 4, otp at offset 8).
`rand` is what `RAND_bytes` leaves in `uplink->key`; `ssl_write_ok` is whether
`SSL_write` returned a positive value. -/
def connect_uplink (s : Netcom) (client_addr : Nat) (buf : List Nat) (_length : Int)
    (rand : List Nat) (ssl_write_ok : Bool) : Netcom :=
  let type := ntohl (load_u32 buf 0)
  if type ≠ MESSAGE_NETCOM_CONNECT then s
  else
    let client_sd := to_int (ntohl (load_u32 buf 4))
    match map.find client_sd s.clients with
    | none => s
    | some client =>
      let uplink := s.uplinks client.uplink
      if uplink.sd ≠ NETCOM_SOCKET_INVALID then s
      else if !memcmp_zero (buf.drop 8) client.otp max_buf_size then s
      else
        let uplink1 := { uplink with key := rand }
        if !ssl_write_ok then
          { s with uplinks := Function.update s.uplinks client.uplink uplink1 }
        else
          let uplink2 :=
            { uplink1 with id := client.sd, sd := s.server_socket_dgram, addr := client_addr }
          { s with
            uplinks := Function.update s.uplinks client.uplink uplink2
            ssl_written := s.ssl_written ++ [(client.ssl, message_key_bytes uplink1.key)]
            engine_queue :=
              s.engine_queue.push_msg
                (message.netcom MESSAGE_NETCOM_CLIENT_ALIVE client.sd client.uplink) }

/-! ## engine.cc: the dispatch loop -/

/-- A `NetcomUplink` worker as the engine holds it: the uplink object it was
constructed for, the message queue every worker built with `need_queue = true`
owns, and the `running` flag of `Worker`. -/
structure NetcomUplink where
  client : Nat
  queue : MessageQueue
  running : Bool
  deriving DecidableEq, Repr

/-- The expression `new NetcomUplink (get_queue (), uplink, camera)`: the
`Worker` constructor creates an empty queue, then `run ()` starts the thread
and sets `running`, or throws `RC_WORKER_THREAD_ERROR` (`none`) when
`pthread_create` fails. -/
def NetcomUplink.create (uplink : Nat) (thread_ok : Bool) : Option NetcomUplink :=
  if thread_ok then some { client := uplink, queue := MessageQueue.init, running := true }
  else none

/-- The call `worker->get_queue ()->push_msg (msg)` on a worker of the map. -/
def NetcomUplink.push_msg (w : NetcomUplink) (msg : message) : NetcomUplink :=
  { w with queue := w.queue.push_msg msg }

/-- The members of `Engine` the dispatch loop works on: the map `clients`,
the queues of `rcmgr` and `chmgr`, and the engine's own queue. -/
structure Engine where
  clients : List (Int × NetcomUplink)
  rcmgr_queue : MessageQueue
  chmgr_queue : MessageQueue
  queue : MessageQueue
  deriving DecidableEq, Repr

/-- What one pass through the `switch` of `Engine::start` leaves behind: the
engine, the local variables `loop` and `msg_forwarded`, and the types the pass
handed to `chmgr->get_queue ()->push_msg (type)`, the overload that allocates
a message of its own. -/
structure Dispatched where
  engine : Engine
  loop : Bool
  msg_forwarded : Bool
  notified : List Nat
  deriving DecidableEq, Repr

/-- The `switch (msg->type)` of `Engine::start` for a message popped from the
engine queue. `thread_ok` is the outcome of thread creation, used when the
message makes the engine construct a worker. The result is `none` when the
branch casts the message to a struct it was not allocated as: the fields it
then reads are not those of the object. -/
def dispatch (e : Engine) (thread_ok : Bool) (msg : message) : Option Dispatched :=
  if msg.type = MESSAGE_SEARCH_REMOTE then
    some { engine := { e with rcmgr_queue := e.rcmgr_queue.push_msg msg }
           loop := true, msg_forwarded := true, notified := [] }
  else if msg.type = MESSAGE_HEARTBEAT ∨ msg.type = MESSAGE_SENSOR_REQUEST
      ∨ msg.type = MESSAGE_MOVE ∨ msg.type = MESSAGE_USER_UP
      ∨ msg.type = MESSAGE_USER_DOWN then
    some { engine := { e with chmgr_queue := e.chmgr_queue.push_msg msg }
           loop := true, msg_forwarded := true, notified := [] }
  else if msg.type = MESSAGE_NETCOM_CLIENT_ALIVE then
    match msg with
    | message.netcom _ id client =>
      match NetcomUplink.create client thread_ok with
      | some client_worker =>
        some { engine :=
                 { e with
                   clients := map.insert id client_worker e.clients
                   chmgr_queue := e.chmgr_queue.push_msg_type MESSAGE_USER_UP }
               loop := true, msg_forwarded := false, notified := [MESSAGE_USER_UP] }
      | none => some { engine := e, loop := true, msg_forwarded := false, notified := [] }
    | _ => none
  else if msg.type = MESSAGE_NETCOM_CLIENT_DEAD then
    match msg with
    | message.netcom _ id _ =>
      match map.find id e.clients with
      | some _ =>
        some { engine :=
                 { e with
                   clients := map.erase id e.clients
                   chmgr_queue := e.chmgr_queue.push_msg_type MESSAGE_USER_DOWN }
               loop := true, msg_forwarded := false, notified := [MESSAGE_USER_DOWN] }
      | none => some { engine := e, loop := true, msg_forwarded := false, notified := [] }
    | _ => none
  else if msg.type = MESSAGE_CAMERA_REQUEST then
    match msg with
    | message.netcom _ id _ =>
      match map.find id e.clients with
      | some _ =>
        some { engine :=
                 { e with
                   clients := map.modify id (fun w => w.push_msg msg) e.clients }
               loop := true, msg_forwarded := true, notified := [] }
      | none => some { engine := e, loop := true, msg_forwarded := false, notified := [] }
    | _ => none
  else if msg.type = MESSAGE_SENSOR_DATA then
    match msg with
    | message.sensor type sensor data =>
      some { engine :=
               { e with
                 clients :=
                   e.clients.map (fun it =>
                     (it.1, it.2.push_msg (message.sensor type sensor data))) }
             loop := true, msg_forwarded := false, notified := [] }
    | _ => none
  else if msg.type = MESSAGE_TERMINATE then
    some { engine := e, loop := false, msg_forwarded := false, notified := [] }
  else
    some { engine := e, loop := true, msg_forwarded := false, notified := [] }

/-- The `while (loop)` of `Engine::start` over the messages it pops, each with
the outcome of thread creation for that pass: the engine when the loop has
consumed them (or has left after a pass cleared `loop`), and the types handed
to the allocating `push_msg` on the chassis queue, in order. -/
def run : Engine → List (message × Bool) → Option (Engine × List Nat)
  | e, [] => some (e, [])
  | e, (msg, thread_ok) :: rest =>
    match dispatch e thread_ok msg with
    | none => none
    | some d =>
      if d.loop then
        match run d.engine rest with
        | none => none
        | some (e', notified) => some (e', d.notified ++ notified)
      else some (d.engine, d.notified)

/-- How often `type` occurs in a list of notified types. -/
def notifications (type : Nat) (notified : List Nat) : Nat :=
  notified.count type

/-- Whether a message was allocated as the struct the `switch` of
`Engine::start` casts it to: `message_netcom_st` for the two client
notifications and the camera request, `message_sensor_st` for sensor data. -/
def well_typed (msg : message) : Bool :=
  if msg.type = MESSAGE_NETCOM_CLIENT_ALIVE ∨ msg.type = MESSAGE_NETCOM_CLIENT_DEAD
      ∨ msg.type = MESSAGE_CAMERA_REQUEST then
    match msg with
    | message.netcom _ _ _ => true
    | _ => false
  else if msg.type = MESSAGE_SENSOR_DATA then
    match msg with
    | message.sensor _ _ _ => true
    | _ => false
  else true

/-- Whether a message is not a `MESSAGE_NETCOM_CLIENT_ALIVE` whose worker is
constructed while `clients` already has an element for its id. -/
def alive_id_fresh (e : Engine) (msg : message) (thread_ok : Bool) : Bool :=
  match msg with
  | message.netcom type id _ =>
    !(decide (type = MESSAGE_NETCOM_CLIENT_ALIVE) && thread_ok)
      || (map.find id e.clients).isNone
  | _ => true

/-- Whether `alive_id_fresh` holds of every message the dispatch loop handles
along its run over `inputs`, in the engine state that message finds. -/
def alive_ids_fresh : Engine → List (message × Bool) → Bool
  | _, [] => true
  | e, (msg, thread_ok) :: rest =>
    alive_id_fresh e msg thread_ok
    && (match dispatch e thread_ok msg with
      | some d => !d.loop || alive_ids_fresh d.engine rest
      | none => true)

/-! ## Sample states -/

/-- The bytes of a `message_connect_st` as a client sends it: type and id in
network byte order, then the password. -/
def connect_record (id : Nat) (otp : List Nat) : List Nat :=
  store_u32 (htonl MESSAGE_NETCOM_CONNECT) ++ store_u32 (htonl id) ++ otp

/-- A server with one control session, id 7, whose uplink (at address 100) is
not bound yet. -/
def netcom_sample : Netcom :=
  { server_socket_dgram := 4
    clients := [(7, { sd := 7, ssl := 1, otp := List.replicate 512 171, uplink := 100 })]
    uplinks := fun _ => { id := 0, sd := NETCOM_SOCKET_INVALID, addr := 0, key := [] }
    engine_queue := MessageQueue.init
    ssl_written := [] }

/-- An engine whose map holds a worker for client 7, built for the uplink
object at address 1. -/
def engine_sample : Engine :=
  { clients := [(7, { client := 1, queue := MessageQueue.init, running := true })]
    rcmgr_queue := MessageQueue.init
    chmgr_queue := MessageQueue.init
    queue := MessageQueue.init }

/-- An engine with an empty map. -/
def engine_empty : Engine :=
  { clients := []
    rcmgr_queue := MessageQueue.init
    chmgr_queue := MessageQueue.init
    queue := MessageQueue.init }

/-! ## netcom.cc: control records and the server loop -/

/-- The member `Netcom::proc_control_message` for a record in `buf`
(`message_st`: type at offset 0; `message_move_st`: direction at offset 4).
`uninit` is the value found in the `client` field of the `message_netcom_st`
the function allocates, a field it does not write. -/
def proc_control_message (s : Netcom) (client : netcom_client_st) (buf : List Nat)
    (_length : Int) (uninit : Nat) : Netcom :=
  let type := ntohl (load_u32 buf 0)
  if type = MESSAGE_TERMINATE ∨ type = MESSAGE_SEARCH_REMOTE
      ∨ type = MESSAGE_SENSOR_REQUEST ∨ type = MESSAGE_HEARTBEAT then
    { s with engine_queue := s.engine_queue.push_msg_type type }
  else if type = MESSAGE_CAMERA_REQUEST then
    { s with
      engine_queue :=
        s.engine_queue.push_msg (message.netcom MESSAGE_CAMERA_REQUEST client.sd uninit) }
  else if type = MESSAGE_MOVE then
    { s with
      engine_queue :=
        s.engine_queue.push_msg (message.move MESSAGE_MOVE (ntohl (load_u32 buf 4))) }
  else s

/-- The server together with what `Netcom::loop` keeps beside it: the local
`fd_set read_fds` as the list of descriptors set in it, and the sessions freed
with `SSL_free` and the descriptors closed with `close` so far. -/
structure NetcomLoop where
  netcom : Netcom
  read_fds : List Int
  ssl_freed : List Nat
  closed : List Int

/-- The function `FD_CLR` on a descriptor set. -/
def FD_CLR (fd : Int) (set : List Int) : List Int :=
  set.filter (fun x => decide (x ≠ fd))

/-- The last branch of the `for` of `Netcom::loop`: descriptor `i` is readable
and is neither server socket. `length` is what `SSL_read` returned and `buf`
the receive buffer after it; `uninit` is as in `proc_control_message`. -/
def client_readable (l : NetcomLoop) (i : Int) (length : Int) (buf : List Nat)
    (uninit : Nat) : NetcomLoop :=
  match map.find i l.netcom.clients with
  | none => l
  | some client =>
    if length > 0 then
      { l with netcom := proc_control_message l.netcom client buf length uninit }
    else
      { netcom :=
          { l.netcom with
            engine_queue :=
              l.netcom.engine_queue.push_msg
                (message.netcom MESSAGE_NETCOM_CLIENT_DEAD client.sd uninit)
            clients := map.erase i l.netcom.clients }
        read_fds := FD_CLR client.sd l.read_fds
        ssl_freed := l.ssl_freed ++ [client.ssl]
        closed := l.closed ++ [client.sd] }

/-! ## sentry.cc: the signal thread -/

/-- The signal number `SIGINT` of the platform. -/
abbrev SIGINT : Int := 2

/-- One turn of the `while` of `signal_thread` in which `sigwait` delivered
`signal`: the engine queue afterwards. -/
def signal_thread (engine_queue : MessageQueue) (signal : Int) : MessageQueue :=
  if SIGINT = signal then engine_queue.push_msg_type MESSAGE_TERMINATE else engine_queue

/-! ## netcom.cc: the uplink worker -/

/-- The function `htons` on a little-endian host: exchange the two bytes. -/
def htons (x : Nat) : Nat :=
  x % 2 ^ 8 * 2 ^ 8 + x / 2 ^ 8 % 2 ^ 8

/-- The function `ntohs`, the same exchange. -/
def ntohs (x : Nat) : Nat := htons x

/-- Conversion of an `int` to `uint16_t`. -/
def to_u16 (x : Int) : Nat := (x % 2 ^ 16).toNat

/-- The encryption loop of `NetcomUplink::upload_frame` from key index `k` on:
each byte is combined with `key[k]` by exclusive or, and `k` goes back to 0
when it reaches `max_buf_size`. -/
def encrypt_from (key : List Nat) : Nat → List Nat → List Nat
  | _, [] => []
  | k, b :: rest =>
    (b ^^^ key.getD k 0) :: encrypt_from key (if k + 1 ≥ max_buf_size then 0 else k + 1) rest

/-- The encryption loop as `upload_frame` runs it: `int k = 0` on entry. -/
def encrypt (key : List Nat) (buf : List Nat) : List Nat :=
  encrypt_from key 0 buf

/-- The function `memcpy (dst, src, n)` on byte lists. -/
def memcpy (dst src : List Nat) (n : Nat) : List Nat :=
  src.take n ++ dst.drop n

/-- The value of `sizeof (message_frame_st)`: a header of 16 bytes (4 + 4 + 2 + 2
+ 2 + 2) and the 512 bytes of `frame`. -/
abbrev sizeof_message_frame_st : Nat := 528

/-- One call of `sendto` by `upload_frame`: the header fields of the
`message_frame_st` as stored (in network byte order), the bytes of its `frame`
member that lie within the transmitted length, and that length. -/
structure frame_datagram where
  type : Nat
  frame_size : Nat
  cols : Nat
  rows : Nat
  frag_size : Nat
  frag_seq : Nat
  frame : List Nat
  length : Nat
  deriving DecidableEq, Repr

/-- The `do ... while (rem_size > 0)` of `upload_frame`, with the loop
variables `rem_size`, `sent_bytes`, `frag_seq` and the content of `msg->frame`
as arguments; `fuel` bounds the number of turns. The result is the datagrams
sent, in order; it is `none` when the fuel runs out, and when `frag_size` is
negative, where `memcpy` is asked for a size beyond any object. -/
def upload_fragments (buf : List Nat) (type frame_size cols rows : Nat) :
    Nat → Int → Int → Int → List Nat → Option (List frame_datagram)
  | 0, _, _, _, _ => none
  | fuel + 1, rem_size, sent_bytes, frag_seq, frame =>
    let frag_size := if rem_size > max_buf_size then (max_buf_size : Int) else rem_size
    if frag_size < 0 then none
    else
      let frame1 := memcpy frame (buf.drop sent_bytes.toNat) frag_size.toNat
      let length := sizeof_message_frame_st - max_buf_size + frag_size.toNat
      let datagram : frame_datagram :=
        { type := type, frame_size := frame_size, cols := cols, rows := rows
          frag_size := htons (to_u16 frag_size)
          frag_seq := htons (to_u16 frag_seq)
          frame := frame1.take (length - 16)
          length := length }
      if rem_size - frag_size > 0 then
        (upload_fragments buf type frame_size cols rows fuel (rem_size - frag_size)
          (sent_bytes + frag_size) (frag_seq + 1) frame1).map (fun rest => datagram :: rest)
      else some [datagram]

/-- The member `NetcomUplink::upload_frame`. `static_buf` is the content of the
function's static vector on entry; `captured` is the image `Camera::get_image`
stores in it, or `none` when it returns without writing; `cols` and `rows` are
what the camera reports; `frame0` is the content of the freshly allocated
`msg->frame`. The result is the static vector on return and the datagrams
sent; it is `none` when the buffer has 2^32 bytes or more, which the
`unsigned int` counter of the encryption loop never reaches, and when the
fragment loop is undefined. -/
def upload_frame (static_buf : List Nat) (captured : Option (List Nat)) (key : List Nat)
    (cols rows : Int) (frame0 : List Nat) : Option (List Nat × List frame_datagram) :=
  let buf := captured.getD static_buf
  if 2 ^ 32 ≤ buf.length then none
  else
    let buf := encrypt key buf
    match upload_fragments buf (htonl MESSAGE_CAMERA_FRAME) (htonl buf.length)
        (htons (to_u16 cols)) (htons (to_u16 rows))
        (buf.length + 1) (to_int buf.length) 0 1 frame0 with
    | none => none
    | some sent => some (buf, sent)

/-- The bytes of the `frame` members of a list of datagrams, in order. -/
def payload (sent : List frame_datagram) : List Nat :=
  (sent.map (fun d => d.frame)).flatten

/-- Consecutive calls of `upload_frame` by one worker, each capturing the next
image of `images`: the datagrams of each call, in call order. -/
def upload_frames (key : List Nat) (cols rows : Int) (frame0 : List Nat) :
    List Nat → List (List Nat) → Option (List (List frame_datagram))
  | _, [] => some []
  | static_buf, image :: images =>
    match upload_frame static_buf (some image) key cols rows frame0 with
    | none => none
    | some (buf, sent) =>
      (upload_frames key cols rows frame0 buf images).map (fun rest => sent :: rest)

/-- A call made by `NetcomUplink::loop`: on the camera, on its queue, or one
of its two upload functions (`sendto_sensor` with the three fields of the
record sent). -/
inductive uplink_call where
  | reserve (id : Int)
  | release (id : Int)
  | wait_msg
  | upload_frame
  | sendto_sensor (type sensor data : Nat)
  deriving DecidableEq, Repr

/-- The member `NetcomUplink::upload_sensor`: the fields are converted to
network byte order and sent. It is `none` for a message that was not
allocated as a `message_sensor_st`. -/
def upload_sensor (msg : message) : Option uplink_call :=
  match msg with
  | message.sensor type sensor data =>
    some (uplink_call.sendto_sensor (htonl type) (htons sensor) (htons data))
  | _ => none

/-- The local variables `loop` and `stream` of `NetcomUplink::loop` after a
turn, and the calls of that turn. -/
structure uplink_turn where
  loop : Bool
  stream : Bool
  calls : List uplink_call
  deriving DecidableEq, Repr

/-- One turn of the `while (loop)` of `NetcomUplink::loop` for the worker of
client `id`: `stream` on entry, and what `pop_msg` returns in this turn. -/
def uplink_iteration (id : Int) (stream : Bool) (popped : Option message) :
    Option uplink_turn :=
  let first := if !stream then uplink_call.wait_msg else uplink_call.upload_frame
  match popped with
  | none => some { loop := true, stream := stream, calls := [first] }
  | some msg =>
    if msg.type = MESSAGE_CAMERA_REQUEST then
      some { loop := true, stream := !stream
             calls := [first, if !stream then uplink_call.reserve id
                              else uplink_call.release id] }
    else if msg.type = MESSAGE_SENSOR_DATA then
      match upload_sensor msg with
      | some sent => some { loop := true, stream := stream, calls := [first, sent] }
      | none => none
    else if msg.type = MESSAGE_TERMINATE then
      if stream then
        some { loop := false, stream := false, calls := [first, uplink_call.release id] }
      else some { loop := false, stream := stream, calls := [first] }
    else some { loop := true, stream := stream, calls := [first] }

/-- The `while (loop)` of `NetcomUplink::loop` over what `pop_msg` returns turn
by turn, from the given value of `stream`: the variables when the inputs are
used up or the loop has been left, and all calls made, in order. -/
def uplink_loop (id : Int) : Bool → List (Option message) → Option uplink_turn
  | stream, [] => some { loop := true, stream := stream, calls := [] }
  | stream, popped :: rest =>
    match uplink_iteration id stream popped with
    | none => none
    | some t =>
      if t.loop then
        match uplink_loop id t.stream rest with
        | none => none
        | some t' => some { t' with calls := t.calls ++ t'.calls }
      else some t

/-- The calls on the camera among the calls of the loop. -/
def camera_calls (calls : List uplink_call) : List uplink_call :=
  calls.filter (fun c =>
    match c with
    | uplink_call.reserve _ => true
    | uplink_call.release _ => true
    | _ => false)

/-- The list `reserve, release, reserve, ...` of length `n` for client `id`. -/
def alternating (id : Int) : Nat → List uplink_call
  | 0 => []
  | n + 1 =>
    alternating id n ++ [if n % 2 = 0 then uplink_call.reserve id else uplink_call.release id]

/-- Whether a message the uplink loop hands to `upload_sensor` was allocated
as a `message_sensor_st`. -/
def uplink_typed (msg : message) : Bool :=
  if msg.type = MESSAGE_CAMERA_REQUEST then true
  else if msg.type = MESSAGE_SENSOR_DATA then
    match msg with
    | message.sensor _ _ _ => true
    | _ => false
  else true

/-! ## framework.h: return codes -/

/-- Modelled from the spec: the enumeration `return_code_en` of `framework.h`,
a file that is not among the sources. Listed are the enumerators the sources
name; as enumerators of one enumeration they are distinct values. -/
inductive return_code_en where
  | RC_OK
  | RC_MAIN_LOGFILE_ERROR
  | RC_MAIN_SIGNAL_ERROR
  | RC_WORKER_THREAD_ERROR
  | RC_CHMGR_PORT_ERROR
  | RC_CHMGR_THREAD_ERROR
  | RC_CHMGR_WRITE_ERROR
  | RC_CHMGR_READ_ERROR
  | RC_NETCOM_SSL_ERROR
  | RC_NETCOM_INVALID_CERTIFICATE
  | RC_NETCOM_INVALID_KEY
  | RC_NETCOM_KEY_CERT_MISMATCH
  | RC_NETCOM_CLIENT_CA_ERR
  | RC_NETCOM_SOCKET_ERROR
  deriving DecidableEq, Repr

/-! ## message_queue.cc: waiting -/

/-- The member `MessageQueue::wait_msg`: `some` of the queue when the call
returns (at once through `more`, or past the `while (msgs.empty ())`), `none`
when the caller stays blocked on the condition variable. -/
def MessageQueue.wait_msg (q : MessageQueue) : Option MessageQueue :=
  if q.more then some q
  else if q.msgs.isEmpty then none
  else some q

/-! ## worker.cc -/

/-- The members `queue` (`none` for `NULL`) and `running` of class `Worker`,
and how often the worker has called `pthread_create` with success,
`pthread_cancel` and `pthread_join`. -/
structure Worker where
  queue : Option MessageQueue
  running : Bool
  created : Nat
  cancelled : Nat
  joined : Nat
  deriving DecidableEq, Repr

/-- The constructor `Worker (name, need_queue)`. -/
def Worker.init (need_queue : Bool) : Worker :=
  { queue := if need_queue then some MessageQueue.init else none
    running := false, created := 0, cancelled := 0, joined := 0 }

/-- The member `Worker::run`; `create_ok` is whether `pthread_create` returns
zero when it is called. The second component is the code thrown, if any. -/
def Worker.run (w : Worker) (create_ok : Bool) : Worker × Option return_code_en :=
  if !w.running then
    if !create_ok then (w, some return_code_en.RC_WORKER_THREAD_ERROR)
    else ({ w with running := true, created := w.created + 1 }, none)
  else (w, none)

/-- The member `Worker::terminate`. -/
def Worker.terminate (w : Worker) : Worker :=
  if w.running then
    match w.queue with
    | some queue =>
      { w with
        queue := some (queue.push_msg_type MESSAGE_TERMINATE)
        joined := w.joined + 1, running := false }
    | none =>
      { w with cancelled := w.cancelled + 1, joined := w.joined + 1, running := false }
  else w

/-! ## camera.cc -/

/-- The state of class `Camera` that `reserve` and `release` work on:
`device->isOpened ()` and the vector `clients`. -/
structure Camera where
  opened : Bool
  clients : List Int
  deriving DecidableEq, Repr

/-- The state the constructor leaves: the device created and not opened, no
clients. -/
def Camera.init : Camera := { opened := false, clients := [] }

/-- The member `Camera::reserve`; `open_ok` is whether the device is open
after `device->open ()`, when that is called. -/
def Camera.reserve (cam : Camera) (client_id : Int) (open_ok : Bool) : Camera :=
  if !cam.opened then
    if !open_ok then cam
    else { opened := true, clients := cam.clients ++ [client_id] }
  else { cam with clients := cam.clients ++ [client_id] }

/-- The member `Camera::release`: the first element equal to `client_id` is
erased, and the device is released when that leaves no client. -/
def Camera.release (cam : Camera) (client_id : Int) : Camera :=
  if client_id ∈ cam.clients then
    if (cam.clients.erase client_id).isEmpty then
      { opened := false, clients := cam.clients.erase client_id }
    else { cam with clients := cam.clients.erase client_id }
  else cam

/-- A call on the camera. -/
inductive CameraOp where
  | reserve (client_id : Int) (open_ok : Bool)
  | release (client_id : Int)
  deriving DecidableEq, Repr

/-- The camera after a sequence of calls. -/
def run_camera : Camera → List CameraOp → Camera
  | cam, [] => cam
  | cam, CameraOp.reserve client_id open_ok :: ops =>
    run_camera (cam.reserve client_id open_ok) ops
  | cam, CameraOp.release client_id :: ops => run_camera (cam.release client_id) ops

/-! ## chmgr.cc -/

/-- The constant `ChassisManager::port_invalid`. -/
abbrev port_invalid : Int := -1

/-- The character `':'` that ends a frame on the serial line. -/
abbrev delimiter : Nat := 58

/-- The enumerator `STOP` of `move_direction_en`. -/
abbrev STOP : Nat := 0

/-- The members `num_users`, `port` and `recv_running` of class
`ChassisManager`, and the bytes written to the serial device so far. -/
structure ChassisManager where
  num_users : Int
  port : Int
  recv_running : Bool
  written : List Nat
  deriving DecidableEq, Repr

/-- What the system calls of one run of `open_serial_port` return: the
descriptor from `open` (-1 for failure), and whether `fcntl` with `F_SETFL`,
`tcgetattr`, `tcsetattr` and `pthread_create` succeed. -/
structure serial_open where
  open_fd : Int
  fcntl_ok : Bool
  tcgetattr_ok : Bool
  tcsetattr_ok : Bool
  thread_ok : Bool
  deriving DecidableEq, Repr

/-- The member `ChassisManager::close_serial_port`. -/
def ChassisManager.close_serial_port (c : ChassisManager) : ChassisManager :=
  if port_invalid = c.port then c
  else { c with recv_running := false, port := port_invalid }

/-- The member `ChassisManager::open_serial_port`; the second component is the
code thrown, if any. -/
def ChassisManager.open_serial_port (c : ChassisManager) (o : serial_open) :
    ChassisManager × Option return_code_en :=
  if port_invalid ≠ c.port then (c, none)
  else
    let c1 := { c with port := o.open_fd }
    if port_invalid = c1.port then (c1, some return_code_en.RC_CHMGR_PORT_ERROR)
    else if !o.fcntl_ok then (c1.close_serial_port, some return_code_en.RC_CHMGR_PORT_ERROR)
    else if !o.tcgetattr_ok then
      (c1.close_serial_port, some return_code_en.RC_CHMGR_PORT_ERROR)
    else if !o.tcsetattr_ok then
      (c1.close_serial_port, some return_code_en.RC_CHMGR_PORT_ERROR)
    else if !o.thread_ok then (c1, some return_code_en.RC_CHMGR_THREAD_ERROR)
    else ({ c1 with recv_running := true }, none)

/-- The writes of `send_data`, one byte per call of `write`: `write_ok i` is
whether the call number `i` of this `send_data` succeeds. Returns the bytes
the device has received and whether all writes succeeded. -/
def write_bytes (write_ok : Nat → Bool) : List Nat → Nat → List Nat → List Nat × Bool
  | [], _, written => (written, true)
  | b :: rest, i, written =>
    if write_ok i then write_bytes write_ok rest (i + 1) (written ++ [b])
    else (written, false)

/-- The member `ChassisManager::send_data (buf, len)`, where `buf` holds at
least `len` bytes; `o` gives the outcome of the calls of `open_serial_port`
should the port be closed. The second component is the code thrown, if
any. -/
def ChassisManager.send_data (c : ChassisManager) (o : serial_open)
    (write_ok : Nat → Bool) (buf : List Nat) (len : Int) :
    ChassisManager × Option return_code_en :=
  let opened :=
    if port_invalid = c.port then c.open_serial_port o else (c, none)
  match opened.2 with
  | some _ => (opened.1, some return_code_en.RC_CHMGR_WRITE_ERROR)
  | none =>
    let sent := write_bytes write_ok (buf.take len.toNat ++ [delimiter]) 0 opened.1.written
    ({ opened.1 with written := sent.1 },
      if sent.2 then none else some return_code_en.RC_CHMGR_WRITE_ERROR)

/-- What `read_data` leaves: the code thrown, if any, the value of
`read_bytes`, the buffer, and what remains unread on the line. -/
structure serial_read where
  thrown : Option return_code_en
  read_bytes : Nat
  buf : List Nat
  line : List (Option Nat)
  deriving DecidableEq, Repr

/-- The `do ... while (c != ':')` of `read_data` over the line, on which each
`read` delivers the next byte or fails (`none`, the call returning -1).
`n` is `read_bytes`. The result is `none` when the line ends before a
delimiter has come: the thread stays blocked in `read`. -/
def read_loop : List (Option Nat) → Nat → Int → List Nat → Option serial_read
  | [], _, _, _ => none
  | none :: line, n, _, buf =>
    some { thrown := some return_code_en.RC_CHMGR_READ_ERROR
           read_bytes := n, buf := buf, line := line }
  | some c :: line, n, maxlen, buf =>
    if (n : Int) < maxlen then
      if c ≠ delimiter then read_loop line (n + 1) maxlen (buf.set n c)
      else some { thrown := none, read_bytes := n + 1, buf := buf.set n c, line := line }
    else
      if c ≠ delimiter then read_loop line n maxlen buf
      else some { thrown := none, read_bytes := n, buf := buf, line := line }

/-- The member `ChassisManager::read_data (buf, maxlen)`; `buf` is the content
of the caller's buffer on entry. -/
def ChassisManager.read_data (c : ChassisManager) (o : serial_open)
    (line : List (Option Nat)) (buf : List Nat) (maxlen : Int) :
    Option (ChassisManager × serial_read) :=
  let opened :=
    if port_invalid = c.port then c.open_serial_port o else (c, none)
  match opened.2 with
  | some _ =>
    some (opened.1, { thrown := some return_code_en.RC_CHMGR_READ_ERROR
                      read_bytes := 0, buf := buf, line := line })
  | none =>
    match read_loop line 0 maxlen buf with
    | none => none
    | some r => some (opened.1, r)

/-- Read a `uint16_t` field at byte offset `off` of a buffer, on a
little-endian host. -/
def load_u16 (buf : List Nat) (off : Nat) : Nat :=
  buf.getD off 0 + buf.getD (off + 1) 0 * 2 ^ 8

/-- The bytes of a `uint16_t` in memory, on a little-endian host. -/
def store_u16 (x : Nat) : List Nat :=
  [x % 2 ^ 8, x / 2 ^ 8 % 2 ^ 8]

/-- The value of `sizeof (message_sensor_st)`: 4 + 2 + 2. -/
abbrev sizeof_message_sensor_st : Nat := 8

/-- One turn of the `while (true)` of `ChassisManager::receive_thread`: a
`message_sensor_st` is allocated (`uninit` is what its eight bytes hold), is
overwritten by `read_data` and, unless that threw, pushed to the engine queue
as it then is. The result is the chassis manager, the engine queue and the
rest of the line, or `none` when the thread stays blocked. -/
def receive_thread_turn (c : ChassisManager) (o : serial_open) (engine_queue : MessageQueue)
    (line : List (Option Nat)) (uninit : List Nat) :
    Option (ChassisManager × MessageQueue × List (Option Nat)) :=
  match c.read_data o line uninit sizeof_message_sensor_st with
  | none => none
  | some (c1, r) =>
    match r.thrown with
    | some _ => some (c1, engine_queue, r.line)
    | none =>
      some (c1,
        engine_queue.push_msg
          (message.sensor (load_u32 r.buf 0) (load_u16 r.buf 4) (load_u16 r.buf 6)),
        r.line)

/-- The first bytes of a message object in memory, on a little-endian host:
all of a `message_st`, `message_move_st` or `message_sensor_st`, and the
fields `type` and `id` of a `message_netcom_st`. -/
def object_bytes : message → List Nat
  | message.st type => store_u32 type
  | message.move type direction => store_u32 type ++ store_u32 direction
  | message.sensor type sensor data => store_u32 type ++ store_u16 sensor ++ store_u16 data
  | message.netcom type id _ => store_u32 type ++ store_u32 (id % 2 ^ 32).toNat

/-- A call of `send_data` by the loop of the chassis manager with the bytes it
passes: from `send_stop_chassis`, or to forward a message. -/
inductive chassis_call where
  | send_stop_chassis (payload : List Nat)
  | forward (payload : List Nat)
  deriving DecidableEq, Repr

/-- The member `ChassisManager::send_stop_chassis`: a `message_move_st` with
type `MESSAGE_MOVE` and direction `STOP` is passed to `send_data`, and what
that throws is caught. -/
def ChassisManager.send_stop_chassis (c : ChassisManager) (o : serial_open)
    (write_ok : Nat → Bool) : ChassisManager × chassis_call :=
  ((c.send_data o write_ok (object_bytes (message.move MESSAGE_MOVE STOP)) 8).1,
    chassis_call.send_stop_chassis (object_bytes (message.move MESSAGE_MOVE STOP)))

/-- The chassis manager and the local variable `loop` after one turn of
`ChassisManager::loop`, and the calls of `send_data` made in it. -/
structure chassis_turn where
  chmgr : ChassisManager
  loop : Bool
  calls : List chassis_call
  deriving DecidableEq, Repr

/-- The `switch (msg->type)` of `ChassisManager::loop` for a popped message;
`o` and `write_ok` give the outcome of the system calls of the one
`send_data` the turn may make. The result is `none` when `send_data` is
given more bytes than the message object has, and when `num_users++` would
leave the range of `int`. -/
def chassis_iteration (c : ChassisManager) (o : serial_open) (write_ok : Nat → Bool)
    (msg : message) : Option chassis_turn :=
  if msg.type = MESSAGE_MOVE ∨ msg.type = MESSAGE_HEARTBEAT
      ∨ msg.type = MESSAGE_SENSOR_REQUEST then
    let len : Nat := if msg.type = MESSAGE_MOVE then 8 else 4
    if (object_bytes msg).length < len then none
    else
      some { chmgr := (c.send_data o write_ok (object_bytes msg) len).1
             loop := true
             calls := [chassis_call.forward ((object_bytes msg).take len)] }
  else if msg.type = MESSAGE_USER_UP then
    if c.num_users + 1 ≥ 2 ^ 31 then none
    else some { chmgr := { c with num_users := c.num_users + 1 }, loop := true, calls := [] }
  else if msg.type = MESSAGE_USER_DOWN then
    if c.num_users > 0 then
      if 0 = c.num_users - 1 then
        let stopped :=
          ({ c with num_users := c.num_users - 1 } : ChassisManager).send_stop_chassis o write_ok
        some { chmgr := stopped.1, loop := true, calls := [stopped.2] }
      else
        some { chmgr := { c with num_users := c.num_users - 1 }, loop := true, calls := [] }
    else some { chmgr := c, loop := true, calls := [] }
  else if msg.type = MESSAGE_TERMINATE then
    let stopped := c.send_stop_chassis o write_ok
    some { chmgr := stopped.1, loop := false, calls := [stopped.2] }
  else some { chmgr := c, loop := true, calls := [] }

/-- The `while (loop)` of `ChassisManager::loop` over the messages it pops,
each with the outcome of the system calls of its turn: the state when the
messages are used up or the loop has been left, and all calls of `send_data`
in order. -/
def chassis_loop : ChassisManager → List (message × serial_open × (Nat → Bool)) →
    Option chassis_turn
  | c, [] => some { chmgr := c, loop := true, calls := [] }
  | c, (msg, o, write_ok) :: rest =>
    match chassis_iteration c o write_ok msg with
    | none => none
    | some t =>
      if t.loop then
        match chassis_loop t.chmgr rest with
        | none => none
        | some t' => some { t' with calls := t.calls ++ t'.calls }
      else some t

/-- How many of the calls come from `send_stop_chassis`. -/
def stop_commands (calls : List chassis_call) : Nat :=
  (calls.filter (fun call =>
    match call with
    | chassis_call.send_stop_chassis _ => true
    | chassis_call.forward _ => false)).length

/-- The members as the constructor of `ChassisManager` sets them before it
tries the serial port. -/
def ChassisManager.init : ChassisManager :=
  { num_users := 0, port := port_invalid, recv_running := false, written := [] }

/-- The constructor of `ChassisManager`: the members are reset, what
`open_serial_port` throws is caught and logged, and `run ()` starts the worker
thread. The configuration object it builds first comes from `framework`,
which is not among the sources, and is taken to be built without a throw.
The result is the object and its `Worker` part, and the code the constructor
throws, if any. -/
def ChassisManager.create (o : serial_open) (create_ok : Bool) :
    ChassisManager × Worker × Option return_code_en :=
  let opened := ChassisManager.init.open_serial_port o
  let started := (Worker.init true).run create_ok
  (opened.1, started.1, started.2)

/-- The `try` block at the head of `Engine::start`: the four objects are
constructed in order and the first code thrown is caught and returned.
`camera`, `rcmgr` and `netcom` are the codes the constructors of `Camera`,
`RemoteControlManager` and `Netcom` throw, if any. The result is `none` when
all four are constructed. -/
def start_objects (camera rcmgr : Option return_code_en) (o : serial_open)
    (chmgr_create_ok : Bool) (netcom : Option return_code_en) : Option return_code_en :=
  match camera with
  | some rc => some rc
  | none =>
    match rcmgr with
    | some rc => some rc
    | none =>
      match (ChassisManager.create o chmgr_create_ok).2.2 with
      | some rc => some rc
      | none => netcom

/-- The member `Engine::start` over the messages its loop pops: on the left
the code returned from the `catch` when a constructor threw, on the right what
the dispatch loop makes of the messages when all four objects were
constructed. -/
def start (e : Engine) (camera rcmgr : Option return_code_en) (o : serial_open)
    (chmgr_create_ok : Bool) (netcom : Option return_code_en)
    (inputs : List (message × Bool)) : return_code_en ⊕ Option (Engine × List Nat) :=
  match start_objects camera rcmgr o chmgr_create_ok netcom with
  | some rc => Sum.inl rc
  | none => Sum.inr (run e inputs)

/-- A message that `ChassisManager::loop` can pass to `send_data` with
`message_length (msg)` bytes: one tagged `MESSAGE_MOVE` was allocated with
the direction field. -/
def chassis_typed : message → Bool
  | message.st type => decide (type ≠ MESSAGE_MOVE)
  | _ => true

/-- A chassis manager as its constructor leaves it when the serial port
opened as descriptor 3 and the receive thread was started. -/
def chmgr_sample : ChassisManager :=
  { num_users := 0, port := 3, recv_running := true, written := [] }

/-- Outcome of the system calls of `open_serial_port` when all succeed and
`open` returns descriptor 3. -/
def serial_open_ok : serial_open :=
  { open_fd := 3, fcntl_ok := true, tcgetattr_ok := true, tcsetattr_ok := true
    thread_ok := true }

/-- Outcome of the system calls of `open_serial_port` when `open` fails. -/
def serial_open_fails : serial_open :=
  { open_fd := -1, fcntl_ok := true, tcgetattr_ok := true, tcsetattr_ok := true
    thread_ok := true }

/-! ## Counting rules the loops are compared with -/

/-- The number of `MESSAGE_CAMERA_REQUEST` among the messages an uplink loop
is handed before the first `MESSAGE_TERMINATE`; a turn in which `pop_msg`
returned nothing counts for nothing. -/
def camera_requests : List (Option message) → Nat
  | [] => 0
  | none :: rest => camera_requests rest
  | some msg :: rest =>
    if msg.type = MESSAGE_TERMINATE then 0
    else if msg.type = MESSAGE_CAMERA_REQUEST then camera_requests rest + 1
    else camera_requests rest

/-- Whether a `MESSAGE_TERMINATE` is among the messages. -/
def terminated : List (Option message) → Bool
  | [] => false
  | none :: rest => terminated rest
  | some msg :: rest => if msg.type = MESSAGE_TERMINATE then true else terminated rest

set_option maxRecDepth 100000

/-! ## The message queue -/

/-- What the pops of an interleaving have returned, followed by what is still
queued, is the initial content followed by what has been pushed. -/
theorem run_queue_split (ops : List QueueOp) (q : MessageQueue) :
    (run_queue q ops).2.filterMap id ++ (run_queue q ops).1.msgs = q.msgs ++ pushed ops := by
  induction ops generalizing q with
  | nil => simp [run_queue, pushed]
  | cons op ops ih =>
    cases op with
    | push msg =>
      simp only [run_queue, pushed]
      rw [ih]
      simp [MessageQueue.push_msg]
    | pop =>
      simp only [run_queue, pushed]
      rcases hq : q.msgs with _ | ⟨m, t⟩
      · have hp : q.pop_msg = (none, q) := by simp [MessageQueue.pop_msg, hq]
        rw [hp]
        simp only [List.filterMap_cons_none, id]
        rw [ih, hq]
      · have hp : q.pop_msg = (some m, { msgs := t, more := !t.isEmpty }) := by
          simp [MessageQueue.pop_msg, hq]
        rw [hp]
        have h := ih { msgs := t, more := !t.isEmpty }
        simp only [List.filterMap_cons, id, List.cons_append, h]

theorem pop_msg_none_iff (q : MessageQueue) : q.pop_msg.1 = none ↔ q.msgs = [] := by
  rcases hq : q.msgs with _ | ⟨m, t⟩ <;> simp [MessageQueue.pop_msg, hq]

theorem pop_msg_none_same (q : MessageQueue) (h : q.pop_msg.1 = none) : q.pop_msg.2 = q := by
  rcases hq : q.msgs with _ | ⟨m, t⟩
  · simp [MessageQueue.pop_msg, hq]
  · simp [MessageQueue.pop_msg, hq] at h

/-- C1. For every interleaving `ops` of `push_msg` and `pop_msg` calls on a
queue that starts empty: the i-th pop that returned a message returned the
i-th message pushed; the next pop returns `NULL` exactly when as many messages
have been delivered as have been pushed; and a pop that returns `NULL` leaves
the queue as it was. -/
theorem message_queue_fifo (ops : List QueueOp) :
    (∀ (i : Nat) (msg : message),
        (delivered MessageQueue.init ops)[i]? = some msg → (pushed ops)[i]? = some msg)
    ∧ ((run_queue MessageQueue.init ops).1.pop_msg.1 = none ↔
        (delivered MessageQueue.init ops).length = (pushed ops).length)
    ∧ ((run_queue MessageQueue.init ops).1.pop_msg.1 = none →
        (run_queue MessageQueue.init ops).1.pop_msg.2 = (run_queue MessageQueue.init ops).1) := by
  have hs := run_queue_split ops MessageQueue.init
  have h0 : MessageQueue.init.msgs = [] := rfl
  rw [h0, List.nil_append] at hs
  change delivered MessageQueue.init ops ++ _ = _ at hs
  refine ⟨?_, ?_, pop_msg_none_same _⟩
  · intro i msg hi
    rw [← hs]
    have hlt : i < (delivered MessageQueue.init ops).length := by
      by_contra hc
      rw [List.getElem?_eq_none (by omega)] at hi
      cases hi
    rw [List.getElem?_append_left hlt]
    exact hi
  · rw [pop_msg_none_iff]
    have hl := congrArg List.length hs
    rw [List.length_append] at hl
    constructor
    · intro h
      rw [h] at hl
      simpa using hl
    · intro h
      apply List.eq_nil_of_length_eq_zero
      omega

/-! ## The uplink handshake -/

theorem memcmp_zero_iff (a b : List Nat) (n : Nat) :
    memcmp_zero a b n = true ↔ ∀ i, i < n → a.getD i 0 = b.getD i 0 := by
  simp [memcmp_zero]

theorem getD_drop (buf : List Nat) (k i : Nat) : (buf.drop k).getD i 0 = buf.getD (k + i) 0 := by
  simp [List.getD_eq_getElem?_getD, List.getElem?_drop]

/-- A record naming a session whose uplink is bound changes nothing. -/
theorem connect_uplink_bound (s : Netcom) (client_addr : Nat) (buf : List Nat)
    (length : Int) (rand : List Nat) (ssl_write_ok : Bool) (client : netcom_client_st)
    (hfind : map.find (to_int (ntohl (load_u32 buf 4))) s.clients = some client)
    (hbound : (s.uplinks client.uplink).sd ≠ NETCOM_SOCKET_INVALID) :
    connect_uplink s client_addr buf length rand ssl_write_ok = s := by
  unfold connect_uplink
  by_cases htype : ntohl (load_u32 buf 0) ≠ MESSAGE_NETCOM_CONNECT
  · simp only [htype, ne_eq, not_false_eq_true, if_true]
  · simp only [htype, if_false, hfind, hbound, ne_eq, not_false_eq_true, if_true]

/-- The state an accepted handshake leaves. -/
theorem connect_uplink_success (s : Netcom) (client_addr : Nat) (buf : List Nat)
    (length : Int) (rand : List Nat) (client : netcom_client_st)
    (htype : ntohl (load_u32 buf 0) = MESSAGE_NETCOM_CONNECT)
    (hfind : map.find (to_int (ntohl (load_u32 buf 4))) s.clients = some client)
    (hunbound : (s.uplinks client.uplink).sd = NETCOM_SOCKET_INVALID)
    (hotp : ∀ i, i < 512 → buf.getD (8 + i) 0 = client.otp.getD i 0) :
    connect_uplink s client_addr buf length rand true =
      { s with
        uplinks := Function.update s.uplinks client.uplink
          { id := client.sd, sd := s.server_socket_dgram, addr := client_addr, key := rand }
        ssl_written := s.ssl_written ++ [(client.ssl, message_key_bytes rand)]
        engine_queue := s.engine_queue.push_msg
          (message.netcom MESSAGE_NETCOM_CLIENT_ALIVE client.sd client.uplink) } := by
  have hm : memcmp_zero (buf.drop 8) client.otp max_buf_size = true := by
    rw [memcmp_zero_iff]
    intro i hi
    rw [getD_drop]
    exact hotp i hi
  unfold connect_uplink
  simp [htype, hfind, hunbound, hm]

/-- C2. A `NetcomConnect` record whose id names no control session, or names
one whose uplink is already bound (whatever the password), or carries a
password that differs from the stored one in some byte, is turned down with no
state change at all: passwords, keys, peer addresses and bound markers stay,
nothing is written to a control channel and nothing is pushed to the engine
queue. -/
theorem connect_uplink_rejected (s : Netcom) (client_addr : Nat) (buf : List Nat)
    (length : Int) (rand : List Nat) (ssl_write_ok : Bool)
    (h : map.find (to_int (ntohl (load_u32 buf 4))) s.clients = none
      ∨ (∃ client, map.find (to_int (ntohl (load_u32 buf 4))) s.clients = some client
          ∧ (s.uplinks client.uplink).sd ≠ NETCOM_SOCKET_INVALID)
      ∨ (∃ client, map.find (to_int (ntohl (load_u32 buf 4))) s.clients = some client
          ∧ ∃ i, i < 512 ∧ buf.getD (8 + i) 0 ≠ client.otp.getD i 0)) :
    connect_uplink s client_addr buf length rand ssl_write_ok = s := by
  rcases h with h | ⟨client, hf, hb⟩ | ⟨client, hf, i, hi, hne⟩
  · unfold connect_uplink
    by_cases htype : ntohl (load_u32 buf 0) ≠ MESSAGE_NETCOM_CONNECT
    · simp only [htype, ne_eq, not_false_eq_true, if_true]
    · simp only [htype, if_false, h]
  · exact connect_uplink_bound s client_addr buf length rand ssl_write_ok client hf hb
  · have hm : memcmp_zero (buf.drop 8) client.otp max_buf_size = false := by
      rw [Bool.eq_false_iff]
      intro hc
      rw [memcmp_zero_iff] at hc
      exact hne (by rw [← getD_drop]; exact hc i hi)
    unfold connect_uplink
    by_cases htype : ntohl (load_u32 buf 0) ≠ MESSAGE_NETCOM_CONNECT
    · simp only [htype, ne_eq, not_false_eq_true, if_true]
    · simp only [htype, if_false, hf, hm, Bool.not_false, if_true]
      split <;> rfl

theorem connect_uplink_rejected_witness :
    connect_uplink netcom_sample 9 (connect_record 7 (List.replicate 512 170)) 520
      (List.replicate 512 1) true = netcom_sample :=
  connect_uplink_rejected netcom_sample 9 (connect_record 7 (List.replicate 512 170)) 520
    (List.replicate 512 1) true
    (Or.inr (Or.inr ⟨{ sd := 7, ssl := 1, otp := List.replicate 512 171, uplink := 100 },
      by decide, 0, by decide, by decide⟩))

namespace map

theorem find_eq_none_iff {β : Type} (k : Int) (m : List (Int × β)) :
    find k m = none ↔ k ∉ m.map Prod.fst := by
  induction m with
  | nil => simp [find]
  | cons hd tl ih =>
    obtain ⟨k', v⟩ := hd
    by_cases h : k' = k
    · simp [find, h]
    · have h' : ¬ k = k' := fun hc => h hc.symm
      simp [find, h, h', ih]

theorem find_place_self {β : Type} (k : Int) (v : β) (m : List (Int × β))
    (h : find k m = none) : find k (place k v m) = some v := by
  induction m with
  | nil => simp [place, find]
  | cons hd tl ih =>
    obtain ⟨k', v'⟩ := hd
    by_cases hk : k' = k
    · simp [find, hk] at h
    · simp only [find, hk, if_false] at h
      by_cases hlt : k < k'
      · simp [place, hlt, find]
      · simp [place, hlt, find, hk, ih h]

theorem find_place_ne {β : Type} (k k' : Int) (v : β) (m : List (Int × β))
    (h : k' ≠ k) : find k' (place k v m) = find k' m := by
  induction m with
  | nil => simp [place, find, h.symm]
  | cons hd tl ih =>
    obtain ⟨k1, v1⟩ := hd
    by_cases hlt : k < k1
    · simp [place, hlt, find, h.symm]
    · by_cases h1 : k1 = k'
      · subst h1
        simp [place, hlt, find]
      · simp [place, hlt, find, h1, ih]

theorem find_insert_self {β : Type} (k : Int) (v : β) (m : List (Int × β))
    (h : find k m = none) : find k (insert k v m) = some v := by
  simp [insert, h, find_place_self]

theorem find_insert_ne {β : Type} (k k' : Int) (v : β) (m : List (Int × β))
    (h : k' ≠ k) : find k' (insert k v m) = find k' m := by
  unfold insert
  split
  · rfl
  · exact find_place_ne k k' v m h

theorem insert_of_find_some {β : Type} (k : Int) (v w : β) (m : List (Int × β))
    (h : find k m = some w) : insert k v m = m := by
  simp [insert, h]

theorem length_place {β : Type} (k : Int) (v : β) (m : List (Int × β)) :
    (place k v m).length = m.length + 1 := by
  induction m with
  | nil => simp [place]
  | cons hd tl ih =>
    obtain ⟨k', v'⟩ := hd
    by_cases hlt : k < k'
    · simp [place, hlt]
    · simp [place, hlt, ih]

theorem length_insert_of_find_none {β : Type} (k : Int) (v : β) (m : List (Int × β))
    (h : find k m = none) : (insert k v m).length = m.length + 1 := by
  simp [insert, h, length_place]

theorem find_erase_ne {β : Type} (k k' : Int) (m : List (Int × β)) (h : k' ≠ k) :
    find k' (erase k m) = find k' m := by
  induction m with
  | nil => simp [erase]
  | cons hd tl ih =>
    obtain ⟨k1, v1⟩ := hd
    by_cases h1 : k1 = k
    · have h2 : ¬ k1 = k' := fun hc => h (hc.symm.trans h1)
      simp [erase, h1, find, h.symm]
    · by_cases h2 : k1 = k'
      · subst h2
        simp [erase, h1, find]
      · simp [erase, h1, find, h2, ih]

theorem keys_place {β : Type} (k : Int) (v : β) (m : List (Int × β)) :
    ∀ x, x ∈ (place k v m).map Prod.fst ↔ x = k ∨ x ∈ m.map Prod.fst := by
  induction m with
  | nil => simp [place]
  | cons hd tl ih =>
    obtain ⟨k', v'⟩ := hd
    intro x
    by_cases hlt : k < k'
    · simp [place, hlt]
    · simp only [place, hlt, if_false, List.map_cons, List.mem_cons, ih x]
      tauto

theorem WF_place {β : Type} (k : Int) (v : β) (m : List (Int × β))
    (hwf : WF m) (h : find k m = none) : WF (place k v m) := by
  induction m with
  | nil => simp [WF, place]
  | cons hd tl ih =>
    obtain ⟨k', v'⟩ := hd
    have hk : ¬ k' = k := by
      intro hc
      simp [find, hc] at h
    simp only [find, hk, if_false] at h
    unfold WF at hwf ih ⊢
    simp only [List.map_cons, List.pairwise_cons] at hwf
    by_cases hlt : k < k'
    · simp only [place, hlt, if_true, List.map_cons, List.pairwise_cons]
      refine ⟨?_, hwf⟩
      intro x hx
      rcases List.mem_cons.mp hx with hx | hx
      · rw [hx]; exact hlt
      · exact lt_trans hlt (hwf.1 x hx)
    · simp only [place, hlt, if_false, List.map_cons, List.pairwise_cons]
      refine ⟨?_, ih hwf.2 h⟩
      intro x hx
      rcases (keys_place k v tl x).mp hx with hx | hx
      · rw [hx]; omega
      · exact hwf.1 x hx

theorem WF_insert {β : Type} (k : Int) (v : β) (m : List (Int × β))
    (hwf : WF m) : WF (insert k v m) := by
  unfold insert
  split
  · exact hwf
  · rename_i h
    apply WF_place k v m hwf
    simpa using h

theorem keys_erase_subset {β : Type} (k : Int) (m : List (Int × β)) :
    ∀ x, x ∈ (erase k m).map Prod.fst → x ∈ m.map Prod.fst := by
  induction m with
  | nil => simp [erase]
  | cons hd tl ih =>
    obtain ⟨k1, v1⟩ := hd
    intro x hx
    by_cases h1 : k1 = k
    · simp only [erase, h1, if_true] at hx
      simp [hx]
    · simp only [erase, h1, if_false, List.map_cons, List.mem_cons] at hx
      rcases hx with hx | hx
      · simp [hx]
      · simp [ih x hx]

theorem WF_erase {β : Type} (k : Int) (m : List (Int × β)) (hwf : WF m) :
    WF (erase k m) := by
  induction m with
  | nil => simp [erase, WF]
  | cons hd tl ih =>
    obtain ⟨k1, v1⟩ := hd
    unfold WF at hwf ih ⊢
    simp only [List.map_cons, List.pairwise_cons] at hwf
    by_cases h1 : k1 = k
    · simp only [erase, h1, if_true]
      exact hwf.2
    · simp only [erase, h1, if_false, List.map_cons, List.pairwise_cons]
      exact ⟨fun x hx => hwf.1 x (keys_erase_subset k tl x hx), ih hwf.2⟩

theorem find_erase_self {β : Type} (k : Int) (m : List (Int × β)) (hwf : WF m) :
    find k (erase k m) = none := by
  induction m with
  | nil => simp [erase, find]
  | cons hd tl ih =>
    obtain ⟨k1, v1⟩ := hd
    unfold WF at hwf ih
    simp only [List.map_cons, List.pairwise_cons] at hwf
    by_cases h1 : k1 = k
    · simp only [erase, h1, if_true]
      rw [find_eq_none_iff]
      intro hc
      have := hwf.1 k hc
      omega
    · simp only [erase, h1, if_false, find]
      exact ih hwf.2

theorem length_erase_of_find_some {β : Type} (k : Int) (w : β) (m : List (Int × β))
    (h : find k m = some w) : (erase k m).length + 1 = m.length := by
  induction m with
  | nil => simp [find] at h
  | cons hd tl ih =>
    obtain ⟨k1, v1⟩ := hd
    by_cases h1 : k1 = k
    · simp [erase, h1]
    · simp only [find, h1, if_false] at h
      simp [erase, h1, ih h]

theorem find_modify {β : Type} (k k' : Int) (f : β → β) (m : List (Int × β)) :
    find k' (modify k f m) = if k' = k then (find k m).map f else find k' m := by
  induction m with
  | nil => simp [modify, find]
  | cons hd tl ih =>
    obtain ⟨k1, v1⟩ := hd
    by_cases h1 : k1 = k
    · by_cases h2 : k' = k
      · simp [modify, h1, find, h2]
      · have h3 : ¬ k = k' := fun hc => h2 hc.symm
        simp [modify, h1, find, h2, h3]
    · by_cases h2 : k' = k
      · subst h2
        simp only [modify, h1, if_false, find, if_true]
        simpa using ih
      · by_cases h3 : k1 = k'
        · simp [modify, h1, find, h2, h3]
        · simp only [modify, h1, if_false, find, h3, h2]
          rw [ih]
          simp [h2]

theorem keys_modify {β : Type} (k : Int) (f : β → β) (m : List (Int × β)) :
    (modify k f m).map Prod.fst = m.map Prod.fst := by
  induction m with
  | nil => simp [modify]
  | cons hd tl ih =>
    obtain ⟨k1, v1⟩ := hd
    by_cases h1 : k1 = k
    · simp [modify, h1]
    · simp [modify, h1, ih]

theorem WF_modify {β : Type} (k : Int) (f : β → β) (m : List (Int × β)) (hwf : WF m) :
    WF (modify k f m) := by
  unfold WF
  rw [keys_modify]
  exact hwf

theorem find_map_values {β : Type} (k : Int) (g : β → β) (m : List (Int × β)) :
    find k (m.map (fun it => (it.1, g it.2))) = (find k m).map g := by
  induction m with
  | nil => simp [find]
  | cons hd tl ih =>
    obtain ⟨k1, v1⟩ := hd
    by_cases h1 : k1 = k
    · simp [find, h1]
    · simp [find, h1, ih]

theorem keys_map_values {β : Type} (g : β → β) (m : List (Int × β)) :
    (m.map (fun it => (it.1, g it.2))).map Prod.fst = m.map Prod.fst := by
  simp [List.map_map, Function.comp_def]

theorem WF_map_values {β : Type} (g : β → β) (m : List (Int × β)) (hwf : WF m) :
    WF (m.map (fun it => (it.1, g it.2))) := by
  unfold WF
  rw [keys_map_values]
  exact hwf

theorem count_le_one {β : Type} (k : Int) (m : List (Int × β)) (hwf : WF m) :
    count k m ≤ 1 := by
  induction m with
  | nil => simp [count]
  | cons hd tl ih =>
    obtain ⟨k1, v1⟩ := hd
    unfold WF at hwf ih
    simp only [List.map_cons, List.pairwise_cons] at hwf
    by_cases h1 : k1 = k
    · have hnone : ∀ e ∈ tl, ¬ e.1 = k := by
        intro e he hc
        have hmem : k ∈ tl.map Prod.fst := List.mem_map.mpr ⟨e, he, hc⟩
        have := hwf.1 k hmem
        omega
      have hf : tl.filter (fun e => decide (e.1 = k)) = [] := by
        rw [List.filter_eq_nil_iff]
        intro e he
        simpa using hnone e he
      simp [count, h1, hf]
    · have := ih hwf.2
      simp only [count] at this ⊢
      simpa [List.filter_cons, h1] using this

theorem length_modify {β : Type} (k : Int) (f : β → β) (m : List (Int × β)) :
    (modify k f m).length = m.length := by
  have h := congrArg List.length (keys_modify k f m)
  simpa using h

theorem length_insert_le {β : Type} (k : Int) (v : β) (m : List (Int × β)) :
    (insert k v m).length ≤ m.length + 1 := by
  unfold insert
  split
  · omega
  · rw [length_place]

end map

/-! ## The dispatch loop -/

theorem dispatch_alive_eq (e : Engine) (thread_ok : Bool) (id : Int) (client : Nat) :
    dispatch e thread_ok (message.netcom MESSAGE_NETCOM_CLIENT_ALIVE id client) =
      match NetcomUplink.create client thread_ok with
      | some client_worker =>
        some { engine :=
                 { e with
                   clients := map.insert id client_worker e.clients
                   chmgr_queue := e.chmgr_queue.push_msg_type MESSAGE_USER_UP }
               loop := true, msg_forwarded := false, notified := [MESSAGE_USER_UP] }
      | none => some { engine := e, loop := true, msg_forwarded := false, notified := [] } := by
  simp [dispatch, message.type]

theorem dispatch_camera_eq (e : Engine) (thread_ok : Bool) (id : Int) (client : Nat) :
    dispatch e thread_ok (message.netcom MESSAGE_CAMERA_REQUEST id client) =
      match map.find id e.clients with
      | some _ =>
        some { engine :=
                 { e with
                   clients :=
                     map.modify id
                       (fun w => w.push_msg (message.netcom MESSAGE_CAMERA_REQUEST id client))
                       e.clients }
               loop := true, msg_forwarded := true, notified := [] }
      | none => some { engine := e, loop := true, msg_forwarded := false, notified := [] } := by
  simp [dispatch, message.type]

theorem dispatch_sensor_eq (e : Engine) (thread_ok : Bool) (sensor data : Nat) :
    dispatch e thread_ok (message.sensor MESSAGE_SENSOR_DATA sensor data) =
      some { engine :=
               { e with
                 clients :=
                   e.clients.map (fun it =>
                     (it.1, it.2.push_msg (message.sensor MESSAGE_SENSOR_DATA sensor data))) }
             loop := true, msg_forwarded := false, notified := [] } := by
  simp [dispatch, message.type]

/-- What a pass of the dispatch switch can do to the client map and which
notifications it sends with it. -/
theorem dispatch_effect (e : Engine) (thread_ok : Bool) (msg : message) (d : Dispatched)
    (h : dispatch e thread_ok msg = some d) :
    (d.engine.clients = e.clients ∧ d.notified = [])
    ∨ (∃ id client w, msg = message.netcom MESSAGE_NETCOM_CLIENT_ALIVE id client
        ∧ thread_ok = true
        ∧ d.engine.clients = map.insert id w e.clients ∧ d.notified = [MESSAGE_USER_UP])
    ∨ (∃ id w, map.find id e.clients = some w
        ∧ d.engine.clients = map.erase id e.clients ∧ d.notified = [MESSAGE_USER_DOWN])
    ∨ (∃ id f, d.engine.clients = map.modify id f e.clients ∧ d.notified = [])
    ∨ (∃ g : NetcomUplink → NetcomUplink,
        d.engine.clients = e.clients.map (fun it => (it.1, g it.2)) ∧ d.notified = []) := by
  unfold dispatch at h
  split_ifs at h with h1 h2 h3 h4 h5 h6 h7
  · cases h; exact Or.inl ⟨rfl, rfl⟩
  · cases h; exact Or.inl ⟨rfl, rfl⟩
  · cases msg with
    | netcom type id client =>
      simp only [message.type] at h3
      subst h3
      cases thread_ok with
      | true =>
        simp only [NetcomUplink.create, if_true, Option.some.injEq] at h
        subst h
        exact Or.inr (Or.inl ⟨id, client, _, rfl, rfl, rfl, rfl⟩)
      | false =>
        simp only [NetcomUplink.create, Bool.false_eq_true, if_false, Option.some.injEq] at h
        subst h
        exact Or.inl ⟨rfl, rfl⟩
    | st _ => simp at h
    | move _ _ => simp at h
    | sensor _ _ _ => simp at h
  · cases msg with
    | netcom type id client =>
      simp only at h
      rcases hf : map.find id e.clients with _ | w
      · simp only [hf, Option.some.injEq] at h
        subst h
        exact Or.inl ⟨rfl, rfl⟩
      · simp only [hf, Option.some.injEq] at h
        subst h
        exact Or.inr (Or.inr (Or.inl ⟨id, w, hf, rfl, rfl⟩))
    | st _ => simp at h
    | move _ _ => simp at h
    | sensor _ _ _ => simp at h
  · cases msg with
    | netcom type id client =>
      simp only at h
      rcases hf : map.find id e.clients with _ | w
      · simp only [hf, Option.some.injEq] at h
        subst h
        exact Or.inl ⟨rfl, rfl⟩
      · simp only [hf, Option.some.injEq] at h
        subst h
        exact Or.inr (Or.inr (Or.inr (Or.inl ⟨id, _, rfl, rfl⟩)))
    | st _ => simp at h
    | move _ _ => simp at h
    | sensor _ _ _ => simp at h
  · cases msg with
    | sensor type sensor data =>
      simp only [Option.some.injEq] at h
      subst h
      exact Or.inr (Or.inr (Or.inr (Or.inr
        ⟨fun w => w.push_msg (message.sensor type sensor data), rfl, rfl⟩)))
    | st _ => simp at h
    | move _ _ => simp at h
    | netcom _ _ _ => simp at h
  · cases h; exact Or.inl ⟨rfl, rfl⟩
  · cases h; exact Or.inl ⟨rfl, rfl⟩

theorem dispatch_WF (e : Engine) (thread_ok : Bool) (msg : message) (d : Dispatched)
    (h : dispatch e thread_ok msg = some d) (hwf : map.WF e.clients) :
    map.WF d.engine.clients := by
  rcases dispatch_effect e thread_ok msg d h with
    ⟨hc, _⟩ | ⟨id, client, w, _, _, hc, _⟩ | ⟨id, w, _, hc, _⟩ | ⟨id, f, hc, _⟩ | ⟨g, hc, _⟩
  · rw [hc]; exact hwf
  · rw [hc]; exact map.WF_insert id w e.clients hwf
  · rw [hc]; exact map.WF_erase id e.clients hwf
  · rw [hc]; exact map.WF_modify id f e.clients hwf
  · rw [hc]; exact map.WF_map_values g e.clients hwf

theorem dispatch_defined (e : Engine) (thread_ok : Bool) (msg : message)
    (h : well_typed msg = true) : ∃ d, dispatch e thread_ok msg = some d := by
  unfold well_typed at h
  unfold dispatch
  cases msg with
  | st type =>
    simp only [message.type] at h ⊢
    split_ifs at h ⊢ <;> first | exact ⟨_, rfl⟩ | simp_all
  | move type direction =>
    simp only [message.type] at h ⊢
    split_ifs at h ⊢ <;> first | exact ⟨_, rfl⟩ | simp_all
  | sensor type sensor data =>
    simp only [message.type] at h ⊢
    split_ifs at h ⊢ <;> first | exact ⟨_, rfl⟩ | simp_all
  | netcom type id client =>
    simp only [message.type] at h ⊢
    split_ifs at h ⊢
    all_goals first
      | exact ⟨_, rfl⟩
      | (cases thread_ok <;> exact ⟨_, rfl⟩)
      | (cases map.find id e.clients <;> exact ⟨_, rfl⟩)
      | simp_all

theorem run_defined (inputs : List (message × Bool)) :
    ∀ e : Engine, (∀ p ∈ inputs, well_typed p.1 = true) → ∃ r, run e inputs = some r := by
  induction inputs with
  | nil => intro e _; exact ⟨_, rfl⟩
  | cons p rest ih =>
    intro e hty
    obtain ⟨msg, thread_ok⟩ := p
    obtain ⟨d, hd⟩ := dispatch_defined e thread_ok msg (hty (msg, thread_ok) (by simp))
    obtain ⟨r, hr⟩ := ih d.engine (fun p hp => hty p (List.mem_cons_of_mem _ hp))
    unfold run
    simp only [hd]
    by_cases hl : d.loop = true
    · simp only [hl, if_true, hr]
      exact ⟨_, rfl⟩
    · simp only [hl]
      exact ⟨_, rfl⟩

theorem run_WF (inputs : List (message × Bool)) :
    ∀ (e : Engine) (r : Engine × List Nat), run e inputs = some r → map.WF e.clients →
      map.WF r.1.clients := by
  induction inputs with
  | nil =>
    intro e r h hwf
    simp only [run, Option.some.injEq] at h
    subst h
    exact hwf
  | cons p rest ih =>
    intro e r h hwf
    obtain ⟨msg, thread_ok⟩ := p
    unfold run at h
    rcases hd : dispatch e thread_ok msg with _ | d
    · simp [hd] at h
    · simp only [hd] at h
      have hwf1 := dispatch_WF e thread_ok msg d hd hwf
      by_cases hl : d.loop = true
      · simp only [hl, if_true] at h
        rcases hr : run d.engine rest with _ | r1
        · simp [hr] at h
        · simp only [hr, Option.some.injEq] at h
          subst h
          exact ih d.engine r1 hr hwf1
      · simp only [hl, Bool.false_eq_true, if_false, Option.some.injEq] at h
        subst h
        exact hwf1

theorem notifications_append (type : Nat) (a b : List Nat) :
    notifications type (a ++ b) = notifications type a + notifications type b := by
  simp [notifications, List.count_append]

theorem dispatch_account (e : Engine) (thread_ok : Bool) (msg : message) (d : Dispatched)
    (h : dispatch e thread_ok msg = some d) :
    d.engine.clients.length + notifications MESSAGE_USER_DOWN d.notified
        ≤ e.clients.length + notifications MESSAGE_USER_UP d.notified
    ∧ (alive_id_fresh e msg thread_ok = true →
      d.engine.clients.length + notifications MESSAGE_USER_DOWN d.notified
        = e.clients.length + notifications MESSAGE_USER_UP d.notified) := by
  rcases dispatch_effect e thread_ok msg d h with
    ⟨hc, hn⟩ | ⟨id, client, w, hm, hok, hc, hn⟩ | ⟨id, w, hf, hc, hn⟩ | ⟨id, f, hc, hn⟩
      | ⟨g, hc, hn⟩
  · rw [hc, hn]
    simp [notifications]
  · rw [hc, hn]
    constructor
    · have := map.length_insert_le id w e.clients
      simp [notifications]
      omega
    · intro hfresh
      subst hm hok
      simp only [alive_id_fresh, decide_True, Bool.and_self, Bool.not_true, Bool.false_or,
        Option.isNone_iff_eq_none] at hfresh
      rw [map.length_insert_of_find_none id w e.clients hfresh]
      simp [notifications]
  · rw [hc, hn]
    have := map.length_erase_of_find_some id w e.clients hf
    simp [notifications]
    omega
  · rw [hc, hn, map.length_modify]
    simp [notifications]
  · rw [hc, hn]
    simp [notifications]

theorem run_account (inputs : List (message × Bool)) :
    ∀ (e : Engine) (r : Engine × List Nat), run e inputs = some r →
      r.1.clients.length + notifications MESSAGE_USER_DOWN r.2
          ≤ e.clients.length + notifications MESSAGE_USER_UP r.2
      ∧ (alive_ids_fresh e inputs = true →
          r.1.clients.length + notifications MESSAGE_USER_DOWN r.2
            = e.clients.length + notifications MESSAGE_USER_UP r.2) := by
  induction inputs with
  | nil =>
    intro e r h
    simp only [run, Option.some.injEq] at h
    subst h
    simp [notifications]
  | cons p rest ih =>
    intro e r h
    obtain ⟨msg, thread_ok⟩ := p
    unfold run at h
    rcases hd : dispatch e thread_ok msg with _ | d
    · simp [hd] at h
    · simp only [hd] at h
      obtain ⟨hle, heq⟩ := dispatch_account e thread_ok msg d hd
      by_cases hl : d.loop = true
      · simp only [hl, if_true] at h
        rcases hr : run d.engine rest with _ | r1
        · simp [hr] at h
        · simp only [hr, Option.some.injEq] at h
          subst h
          obtain ⟨hle1, heq1⟩ := ih d.engine r1 hr
          simp only [notifications_append]
          constructor
          · omega
          · intro hfresh
            unfold alive_ids_fresh at hfresh
            simp only [hd, hl, Bool.not_true, Bool.false_or, Bool.and_eq_true] at hfresh
            have h1 := heq hfresh.1
            have h2 := heq1 hfresh.2
            omega
      · simp only [hl, Bool.false_eq_true, if_false, Option.some.injEq] at h
        subst h
        constructor
        · exact hle
        · intro hfresh
          unfold alive_ids_fresh at hfresh
          simp only [hd, Bool.and_eq_true] at hfresh
          exact heq hfresh.1

/-- C4. A message whose tag is `SearchRemote` is pushed, as it is, onto the
queue of the input-controller manager and onto no other queue; a message
whose tag is `Heartbeat`, `SensorRequest`, `Move`, `UserUp` or `UserDown` is
pushed, as it is, onto the queue of the chassis manager and onto no other
queue. In both cases the client map is unchanged, the message is not deleted,
the engine sends no notification of its own, and the loop goes on. -/
theorem dispatch_forwards (e : Engine) (thread_ok : Bool) (msg : message) :
    (msg.type = MESSAGE_SEARCH_REMOTE →
      ∃ d, dispatch e thread_ok msg = some d
        ∧ d.engine.rcmgr_queue.msgs = e.rcmgr_queue.msgs ++ [msg]
        ∧ d.engine.chmgr_queue = e.chmgr_queue
        ∧ d.engine.clients = e.clients
        ∧ d.engine.queue = e.queue
        ∧ d.msg_forwarded = true ∧ d.notified = [] ∧ d.loop = true)
    ∧ (msg.type = MESSAGE_HEARTBEAT ∨ msg.type = MESSAGE_SENSOR_REQUEST
        ∨ msg.type = MESSAGE_MOVE ∨ msg.type = MESSAGE_USER_UP
        ∨ msg.type = MESSAGE_USER_DOWN →
      ∃ d, dispatch e thread_ok msg = some d
        ∧ d.engine.chmgr_queue.msgs = e.chmgr_queue.msgs ++ [msg]
        ∧ d.engine.rcmgr_queue = e.rcmgr_queue
        ∧ d.engine.clients = e.clients
        ∧ d.engine.queue = e.queue
        ∧ d.msg_forwarded = true ∧ d.notified = [] ∧ d.loop = true) := by
  constructor
  · intro h
    refine ⟨_, by simp only [dispatch, h, if_true]; rfl, ?_⟩
    simp [MessageQueue.push_msg]
  · intro h
    have h2 : ¬ msg.type = MESSAGE_SEARCH_REMOTE := by
      rcases h with h | h | h | h | h <;> simp [h]
    refine ⟨_, by simp only [dispatch, h2, h, if_true, if_false]; rfl, ?_⟩
    simp [MessageQueue.push_msg]

/-- C5, counterexample. The map holds a worker for client 7, built for the
uplink at address 1. A `NetcomClientAlive` for id 7 and the uplink at address
2 arrives and the new worker is constructed; after the pass the map still
maps 7 to the old worker, not to the new one. -/
theorem dispatch_alive_registered_id_keeps_worker :
    ∃ d client_worker,
      dispatch engine_sample true (message.netcom MESSAGE_NETCOM_CLIENT_ALIVE 7 2) = some d
      ∧ NetcomUplink.create 2 true = some client_worker
      ∧ map.find 7 d.engine.clients
          = some { client := 1, queue := MessageQueue.init, running := true }
      ∧ map.find 7 d.engine.clients ≠ some client_worker :=
  ⟨_, _, rfl, rfl, by decide, by decide⟩

/-- C5, amended. For a `NetcomClientAlive` with id `id` whose worker is
constructed, dispatched while the map has no element for `id`: afterwards the
map maps `id` to the worker just constructed for the uplink the message
carries, every other id is mapped as before, and exactly one `UserUp`, sent by
the engine itself, is appended to the chassis queue. When construction fails
the engine is unchanged and nothing is pushed, whatever the map holds. -/
theorem dispatch_client_alive (e : Engine) (id : Int) (client : Nat) :
    (map.find id e.clients = none →
      ∃ d client_worker,
        dispatch e true (message.netcom MESSAGE_NETCOM_CLIENT_ALIVE id client) = some d
        ∧ NetcomUplink.create client true = some client_worker
        ∧ client_worker.client = client
        ∧ map.find id d.engine.clients = some client_worker
        ∧ (∀ other, other ≠ id → map.find other d.engine.clients = map.find other e.clients)
        ∧ d.engine.chmgr_queue.msgs = e.chmgr_queue.msgs ++ [message.st MESSAGE_USER_UP]
        ∧ d.notified = [MESSAGE_USER_UP]
        ∧ d.engine.rcmgr_queue = e.rcmgr_queue ∧ d.engine.queue = e.queue
        ∧ d.loop = true)
    ∧ (NetcomUplink.create client false = none
        ∧ dispatch e false (message.netcom MESSAGE_NETCOM_CLIENT_ALIVE id client) =
          some { engine := e, loop := true, msg_forwarded := false, notified := [] }) := by
  constructor
  · intro h
    refine ⟨_, _, dispatch_alive_eq e true id client, rfl, rfl, ?_, ?_, ?_⟩
    · exact map.find_insert_self id _ e.clients h
    · intro other ho
      exact map.find_insert_ne id other _ e.clients ho
    · simp [MessageQueue.push_msg_type, MessageQueue.push_msg]
  · exact ⟨rfl, dispatch_alive_eq e false id client⟩

/-- C7, counterexample. From an empty map the engine dispatches two
`NetcomClientAlive` messages for id 7, both workers being constructed: the map
then has one element while the engine has sent two `UserUp` and no `UserDown`
notifications. -/
theorem repeated_alive_breaks_user_count :
    (run engine_empty
        [(message.netcom MESSAGE_NETCOM_CLIENT_ALIVE 7 1, true),
         (message.netcom MESSAGE_NETCOM_CLIENT_ALIVE 7 2, true)]).map
      (fun r => (r.1.clients.length, notifications MESSAGE_USER_UP r.2,
        notifications MESSAGE_USER_DOWN r.2))
    = some (1, 2, 0) := by
  decide

/-- C7, amended. After any sequence of messages dispatched from an empty map
in which no `NetcomClientAlive` whose worker was constructed named an id the
map already held when it was dispatched, the number of elements of the map
equals the number of `UserUp` notifications minus the number of `UserDown`
notifications the engine itself sent to the chassis manager. Forwarded
`UserUp` and `UserDown` messages are not counted. -/
theorem registry_size_and_user_count (e : Engine) (inputs : List (message × Bool))
    (hempty : e.clients = []) (hty : ∀ p ∈ inputs, well_typed p.1 = true)
    (hfresh : alive_ids_fresh e inputs = true) :
    ∃ r, run e inputs = some r
      ∧ r.1.clients.length + notifications MESSAGE_USER_DOWN r.2
          = notifications MESSAGE_USER_UP r.2 := by
  obtain ⟨r, hr⟩ := run_defined inputs e hty
  obtain ⟨_, heq⟩ := run_account inputs e r hr
  rw [hempty] at heq
  simp only [List.length_nil, Nat.zero_add] at heq
  exact ⟨r, hr, heq hfresh⟩

theorem registry_size_and_user_count_witness :
    ∃ r, run engine_empty
          [(message.netcom MESSAGE_NETCOM_CLIENT_ALIVE 7 1, true),
           (message.st MESSAGE_USER_UP, true),
           (message.netcom MESSAGE_NETCOM_CLIENT_ALIVE 9 5, false),
           (message.netcom MESSAGE_NETCOM_CLIENT_DEAD 7 0, true),
           (message.netcom MESSAGE_NETCOM_CLIENT_ALIVE 7 2, true)] = some r
      ∧ r.1.clients.length + notifications MESSAGE_USER_DOWN r.2
          = notifications MESSAGE_USER_UP r.2 :=
  registry_size_and_user_count engine_empty
    [(message.netcom MESSAGE_NETCOM_CLIENT_ALIVE 7 1, true),
     (message.st MESSAGE_USER_UP, true),
     (message.netcom MESSAGE_NETCOM_CLIENT_ALIVE 9 5, false),
     (message.netcom MESSAGE_NETCOM_CLIENT_DEAD 7 0, true),
     (message.netcom MESSAGE_NETCOM_CLIENT_ALIVE 7 2, true)] rfl (by decide) (by decide)

/-- C8. After any sequence of messages dispatched by the engine (client
notifications for any ids in any order, with any repetitions and any outcome
of worker construction, and any other messages in between), starting from a
map with unique keys, the map has at most one element for every id. -/
theorem registry_at_most_one_entry (e : Engine) (inputs : List (message × Bool))
    (hwf : map.WF e.clients) (hty : ∀ p ∈ inputs, well_typed p.1 = true) :
    ∃ r, run e inputs = some r ∧ ∀ id, map.count id r.1.clients ≤ 1 := by
  obtain ⟨r, hr⟩ := run_defined inputs e hty
  exact ⟨r, hr, fun id => map.count_le_one id r.1.clients (run_WF inputs e r hr hwf)⟩


theorem registry_at_most_one_entry_witness :
    map.WF engine_sample.clients
    ∧ ∃ r, run engine_sample
          [(message.netcom MESSAGE_NETCOM_CLIENT_ALIVE 7 2, true),
           (message.netcom MESSAGE_NETCOM_CLIENT_ALIVE 7 3, true),
           (message.netcom MESSAGE_NETCOM_CLIENT_DEAD 7 0, false),
           (message.netcom MESSAGE_NETCOM_CLIENT_ALIVE 7 4, true)] = some r
        ∧ ∀ id, map.count id r.1.clients ≤ 1 :=
  ⟨by decide,
    registry_at_most_one_entry engine_sample
      [(message.netcom MESSAGE_NETCOM_CLIENT_ALIVE 7 2, true),
       (message.netcom MESSAGE_NETCOM_CLIENT_ALIVE 7 3, true),
       (message.netcom MESSAGE_NETCOM_CLIENT_DEAD 7 0, false),
       (message.netcom MESSAGE_NETCOM_CLIENT_ALIVE 7 4, true)] (by decide) (by decide)⟩

/-- C9. For a `CameraRequest` carrying id `id`: when the map has a worker for
`id`, the pass appends that same message to that worker's queue, touches no
other worker and no other queue, and does not delete the message; when the
map has none, the message is not forwarded (so it is deleted) and the map and
all queues are as before. -/
theorem dispatch_camera_request (e : Engine) (thread_ok : Bool) (id : Int) (client : Nat) :
    (∀ w, map.find id e.clients = some w →
      ∃ d, dispatch e thread_ok (message.netcom MESSAGE_CAMERA_REQUEST id client) = some d
        ∧ map.find id d.engine.clients =
            some { w with queue :=
              { msgs := w.queue.msgs ++ [message.netcom MESSAGE_CAMERA_REQUEST id client]
                more := w.queue.more } }
        ∧ (∀ other, other ≠ id → map.find other d.engine.clients = map.find other e.clients)
        ∧ d.engine.clients.map Prod.fst = e.clients.map Prod.fst
        ∧ d.engine.rcmgr_queue = e.rcmgr_queue
        ∧ d.engine.chmgr_queue = e.chmgr_queue
        ∧ d.engine.queue = e.queue
        ∧ d.msg_forwarded = true ∧ d.notified = [] ∧ d.loop = true)
    ∧ (map.find id e.clients = none →
        dispatch e thread_ok (message.netcom MESSAGE_CAMERA_REQUEST id client) =
          some { engine := e, loop := true, msg_forwarded := false, notified := [] }) := by
  constructor
  · intro w h
    refine ⟨_, by rw [dispatch_camera_eq, h], ?_, ?_, ?_, ?_⟩
    · show map.find id (map.modify id _ e.clients) = _
      rw [map.find_modify, if_pos rfl, h]
      rfl
    · intro other ho
      show map.find other (map.modify id _ e.clients) = _
      rw [map.find_modify, if_neg ho]
    · exact map.keys_modify id _ e.clients
    · exact ⟨rfl, rfl, rfl, rfl, rfl, rfl⟩
  · intro h
    rw [dispatch_camera_eq, h]

/-- C10. For a `SensorData` message and any client map: the pass appends to
the queue of every worker in the map exactly one message with the original's
tag, sensor and data; ids and workers of the map are the same as before; the
queues of the input-controller manager, the chassis manager and the engine are
unchanged; and with an empty map the engine is unchanged altogether. -/
theorem dispatch_sensor_data (e : Engine) (thread_ok : Bool) (sensor data : Nat) :
    ∃ d, dispatch e thread_ok (message.sensor MESSAGE_SENSOR_DATA sensor data) = some d
      ∧ (∀ id, map.find id d.engine.clients =
          (map.find id e.clients).map (fun w =>
            { w with queue :=
              { msgs := w.queue.msgs ++ [message.sensor MESSAGE_SENSOR_DATA sensor data]
                more := w.queue.more } }))
      ∧ d.engine.clients.map Prod.fst = e.clients.map Prod.fst
      ∧ d.engine.clients.map (fun it => it.2.client) = e.clients.map (fun it => it.2.client)
      ∧ d.engine.rcmgr_queue = e.rcmgr_queue
      ∧ d.engine.chmgr_queue = e.chmgr_queue
      ∧ d.engine.queue = e.queue
      ∧ d.msg_forwarded = false ∧ d.notified = [] ∧ d.loop = true
      ∧ (e.clients = [] → d.engine = e) := by
  refine ⟨_, dispatch_sensor_eq e thread_ok sensor data, ?_, ?_, ?_, rfl, rfl, rfl, rfl, rfl, rfl, ?_⟩
  · intro id
    exact map.find_map_values id
      (fun w => w.push_msg (message.sensor MESSAGE_SENSOR_DATA sensor data)) e.clients
  · exact map.keys_map_values
      (fun w => w.push_msg (message.sensor MESSAGE_SENSOR_DATA sensor data)) e.clients
  · simp [List.map_map, Function.comp_def, NetcomUplink.push_msg]
  · intro h
    cases e
    simp_all

/-! ## Control records and the server loop -/

/-- What `proc_control_message` appends to the engine queue, by the decoded
type of the record; nothing else of the server changes. -/
theorem proc_control_message_eq (s : Netcom) (client : netcom_client_st) (buf : List Nat)
    (length : Int) (uninit : Nat) :
    proc_control_message s client buf length uninit =
      { s with
        engine_queue :=
          { msgs := s.engine_queue.msgs ++
              (if ntohl (load_u32 buf 0) = MESSAGE_TERMINATE
                  ∨ ntohl (load_u32 buf 0) = MESSAGE_SEARCH_REMOTE
                  ∨ ntohl (load_u32 buf 0) = MESSAGE_SENSOR_REQUEST
                  ∨ ntohl (load_u32 buf 0) = MESSAGE_HEARTBEAT then
                [message.st (ntohl (load_u32 buf 0))]
              else if ntohl (load_u32 buf 0) = MESSAGE_CAMERA_REQUEST then
                [message.netcom MESSAGE_CAMERA_REQUEST client.sd uninit]
              else if ntohl (load_u32 buf 0) = MESSAGE_MOVE then
                [message.move MESSAGE_MOVE (ntohl (load_u32 buf 4))]
              else [])
            more := s.engine_queue.more } } := by
  unfold proc_control_message
  simp only
  split_ifs <;> simp [MessageQueue.push_msg_type, MessageQueue.push_msg]

/-- C11. For a control record from the client with id `client.sd`, with the
type decoded by `ntohl`: a `Terminate`, `SearchRemote`, `SensorRequest` or
`Heartbeat` record appends to the engine queue exactly one `message_st` with
that type; a `CameraRequest` record appends exactly one `CameraRequest`
message carrying `client.sd`; a `Move` record appends exactly one `Move`
message whose direction is `ntohl` of the direction field of the record. In
every case nothing else of the server changes. -/
theorem proc_control_message_forwards (s : Netcom) (client : netcom_client_st)
    (buf : List Nat) (length : Int) (uninit : Nat) :
    (ntohl (load_u32 buf 0) = MESSAGE_TERMINATE ∨ ntohl (load_u32 buf 0) = MESSAGE_SEARCH_REMOTE
        ∨ ntohl (load_u32 buf 0) = MESSAGE_SENSOR_REQUEST
        ∨ ntohl (load_u32 buf 0) = MESSAGE_HEARTBEAT →
      (proc_control_message s client buf length uninit).engine_queue.msgs =
        s.engine_queue.msgs ++ [message.st (ntohl (load_u32 buf 0))])
    ∧ (ntohl (load_u32 buf 0) = MESSAGE_CAMERA_REQUEST →
      (proc_control_message s client buf length uninit).engine_queue.msgs =
        s.engine_queue.msgs ++ [message.netcom MESSAGE_CAMERA_REQUEST client.sd uninit])
    ∧ (ntohl (load_u32 buf 0) = MESSAGE_MOVE →
      (proc_control_message s client buf length uninit).engine_queue.msgs =
        s.engine_queue.msgs ++ [message.move MESSAGE_MOVE (ntohl (load_u32 buf 4))])
    ∧ (proc_control_message s client buf length uninit).clients = s.clients
    ∧ (proc_control_message s client buf length uninit).uplinks = s.uplinks
    ∧ (proc_control_message s client buf length uninit).ssl_written = s.ssl_written
    ∧ (proc_control_message s client buf length uninit).server_socket_dgram
        = s.server_socket_dgram := by
  rw [proc_control_message_eq]
  refine ⟨?_, ?_, ?_, rfl, rfl, rfl, rfl⟩
  · intro h
    simp only [h, if_true]
  · intro h
    simp only [h]
    rfl
  · intro h
    simp only [h]
    rfl

/-- A record whose type is none of the six handled ones leaves the server as
it is. -/
theorem proc_control_message_other (s : Netcom) (client : netcom_client_st)
    (buf : List Nat) (length : Int) (uninit : Nat)
    (h : ntohl (load_u32 buf 0) ≠ MESSAGE_TERMINATE
      ∧ ntohl (load_u32 buf 0) ≠ MESSAGE_SEARCH_REMOTE
      ∧ ntohl (load_u32 buf 0) ≠ MESSAGE_SENSOR_REQUEST
      ∧ ntohl (load_u32 buf 0) ≠ MESSAGE_HEARTBEAT
      ∧ ntohl (load_u32 buf 0) ≠ MESSAGE_CAMERA_REQUEST
      ∧ ntohl (load_u32 buf 0) ≠ MESSAGE_MOVE) :
    proc_control_message s client buf length uninit = s := by
  obtain ⟨h1, h2, h3, h4, h5, h6⟩ := h
  unfold proc_control_message
  simp [h1, h2, h3, h4, h5, h6]

/-- C12, counterexample. The client with id 7 sends a record of four bytes
whose type decodes to 99. Afterwards the client is still in the client map,
its descriptor is still watched, no session was freed, no descriptor closed,
and the engine queue is empty: no `NetcomClientDead` was pushed. -/
theorem unknown_tag_keeps_session :
    ntohl (load_u32 (store_u32 (htonl 99)) 0) = 99
    ∧ map.find 7
        (client_readable ⟨netcom_sample, [3, 4, 7], [], []⟩ 7 4
          (store_u32 (htonl 99)) 0).netcom.clients
        = map.find 7 netcom_sample.clients
    ∧ (map.find 7 netcom_sample.clients).isSome = true
    ∧ (client_readable ⟨netcom_sample, [3, 4, 7], [], []⟩ 7 4
          (store_u32 (htonl 99)) 0).netcom.engine_queue.msgs = []
    ∧ (client_readable ⟨netcom_sample, [3, 4, 7], [], []⟩ 7 4
          (store_u32 (htonl 99)) 0).read_fds = [3, 4, 7]
    ∧ (client_readable ⟨netcom_sample, [3, 4, 7], [], []⟩ 7 4
          (store_u32 (htonl 99)) 0).ssl_freed = []
    ∧ (client_readable ⟨netcom_sample, [3, 4, 7], [], []⟩ 7 4
          (store_u32 (htonl 99)) 0).closed = [] := by
  decide

/-- C12, amended. A control record (a read of positive length) whose type is
none of `Terminate`, `SearchRemote`, `SensorRequest`, `Heartbeat`,
`CameraRequest`, `Move` is dropped and nothing else happens: the client map,
the watched descriptors, the TLS sessions, the open descriptors and the
engine queue are all as before. -/
theorem client_readable_unknown_tag (l : NetcomLoop) (i : Int) (length : Int)
    (buf : List Nat) (uninit : Nat) (hlen : length > 0)
    (h : ntohl (load_u32 buf 0) ≠ MESSAGE_TERMINATE
      ∧ ntohl (load_u32 buf 0) ≠ MESSAGE_SEARCH_REMOTE
      ∧ ntohl (load_u32 buf 0) ≠ MESSAGE_SENSOR_REQUEST
      ∧ ntohl (load_u32 buf 0) ≠ MESSAGE_HEARTBEAT
      ∧ ntohl (load_u32 buf 0) ≠ MESSAGE_CAMERA_REQUEST
      ∧ ntohl (load_u32 buf 0) ≠ MESSAGE_MOVE) :
    client_readable l i length buf uninit = l := by
  unfold client_readable
  rcases hf : map.find i l.netcom.clients with _ | client
  · rfl
  · simp only [hlen, if_true]
    rw [proc_control_message_other l.netcom client buf length uninit h]

theorem client_readable_unknown_tag_witness :
    client_readable ⟨netcom_sample, [3, 4, 7], [], []⟩ 7 4 (store_u32 (htonl 99)) 0
      = ⟨netcom_sample, [3, 4, 7], [], []⟩ :=
  client_readable_unknown_tag ⟨netcom_sample, [3, 4, 7], [], []⟩ 7 4
    (store_u32 (htonl 99)) 0 (by decide) (by decide)

theorem mem_FD_CLR (fd x : Int) (set : List Int) :
    x ∈ FD_CLR fd set ↔ x ∈ set ∧ x ≠ fd := by
  simp [FD_CLR]

/-- C13. When the read on the control channel of the client found under
descriptor `i` returns zero or less, the loop pushes exactly one
`NetcomClientDead` with that client's id to the engine queue, frees its TLS
session, closes and stops watching its descriptor, and removes it from the
client map, so that any later handshake record naming `i` changes nothing
(it finds no client); the other clients, their watched descriptors and all
uplink objects are as before. The map has unique keys and the client is
stored under its own descriptor, as `Netcom::loop` inserts it. -/
theorem client_readable_hangup (l : NetcomLoop) (i : Int) (length : Int) (buf : List Nat)
    (uninit : Nat) (client : netcom_client_st)
    (hfind : map.find i l.netcom.clients = some client) (hlen : length ≤ 0)
    (hkey : client.sd = i) (hwf : map.WF l.netcom.clients) :
    (client_readable l i length buf uninit).netcom.engine_queue.msgs =
        l.netcom.engine_queue.msgs
          ++ [message.netcom MESSAGE_NETCOM_CLIENT_DEAD client.sd uninit]
    ∧ map.find i (client_readable l i length buf uninit).netcom.clients = none
    ∧ (∀ j, j ≠ i → map.find j (client_readable l i length buf uninit).netcom.clients
        = map.find j l.netcom.clients)
    ∧ (client_readable l i length buf uninit).netcom.uplinks = l.netcom.uplinks
    ∧ (client_readable l i length buf uninit).netcom.ssl_written = l.netcom.ssl_written
    ∧ client.sd ∉ (client_readable l i length buf uninit).read_fds
    ∧ (∀ fd, fd ≠ client.sd →
        (fd ∈ (client_readable l i length buf uninit).read_fds ↔ fd ∈ l.read_fds))
    ∧ (client_readable l i length buf uninit).ssl_freed = l.ssl_freed ++ [client.ssl]
    ∧ (client_readable l i length buf uninit).closed = l.closed ++ [client.sd]
    ∧ (∀ (addr : Nat) (buf2 : List Nat) (length2 : Int) (rand : List Nat) (ok : Bool),
        to_int (ntohl (load_u32 buf2 4)) = client.sd →
        connect_uplink (client_readable l i length buf uninit).netcom addr buf2 length2 rand ok
          = (client_readable l i length buf uninit).netcom) := by
  have hnot : ¬ length > 0 := by omega
  have heq : client_readable l i length buf uninit =
      { netcom :=
          { l.netcom with
            engine_queue :=
              l.netcom.engine_queue.push_msg
                (message.netcom MESSAGE_NETCOM_CLIENT_DEAD client.sd uninit)
            clients := map.erase i l.netcom.clients }
        read_fds := FD_CLR client.sd l.read_fds
        ssl_freed := l.ssl_freed ++ [client.ssl]
        closed := l.closed ++ [client.sd] } := by
    unfold client_readable
    simp only [hfind, hnot, if_false]
  rw [heq]
  have hgone : map.find i (map.erase i l.netcom.clients) = none :=
    map.find_erase_self i l.netcom.clients hwf
  refine ⟨rfl, hgone, ?_, rfl, rfl, ?_, ?_, rfl, rfl, ?_⟩
  · intro j hj
    exact map.find_erase_ne i j l.netcom.clients hj
  · simp [mem_FD_CLR]
  · intro fd hfd
    simp [mem_FD_CLR, hfd]
  · intro addr buf2 length2 rand ok hid
    unfold connect_uplink
    by_cases htype : ntohl (load_u32 buf2 0) ≠ MESSAGE_NETCOM_CONNECT
    · simp only [htype, ne_eq, not_false_eq_true, if_true]
    · simp only [htype, if_false, hid, hkey, hgone]

theorem client_readable_hangup_witness :
    (client_readable ⟨netcom_sample, [3, 4, 7], [], []⟩ 7 0 [] 0).netcom.engine_queue.msgs =
        [] ++ [message.netcom MESSAGE_NETCOM_CLIENT_DEAD 7 0]
    ∧ map.find 7 (client_readable ⟨netcom_sample, [3, 4, 7], [], []⟩ 7 0 [] 0).netcom.clients
        = none :=
  have h := client_readable_hangup ⟨netcom_sample, [3, 4, 7], [], []⟩ 7 0 [] 0
    { sd := 7, ssl := 1, otp := List.replicate 512 171, uplink := 100 }
    (by decide) (by decide) (by decide) (by decide)
  ⟨h.1, h.2.1⟩

/-- C14, counterexample. The client with id 7 sends a record whose type is
`Terminate`. `proc_control_message` pushes a `message_st` of type `Terminate`
to the engine queue, the same message the signal thread pushes on `SIGINT`,
and the dispatch switch clears `loop` on it. -/
theorem client_terminate_stops_engine :
    (proc_control_message netcom_sample
        { sd := 7, ssl := 1, otp := List.replicate 512 171, uplink := 100 }
        (store_u32 (htonl MESSAGE_TERMINATE)) 4 0).engine_queue.msgs
      = [message.st MESSAGE_TERMINATE]
    ∧ (signal_thread MessageQueue.init SIGINT).msgs = [message.st MESSAGE_TERMINATE]
    ∧ (dispatch engine_sample true (message.st MESSAGE_TERMINATE)).map (fun d => d.loop)
      = some false := by
  decide

/-- C14, amended. For every control record a client can send, each message
`proc_control_message` appends to the engine queue is one the dispatch switch
handles, and it clears `loop` exactly when the type of the record is
`Terminate`. In that case the message appended is the `message_st` of type
`Terminate` that the signal thread pushes on `SIGINT`; so the signal is not
the only way from outside to make the dispatch loop leave, and among the
control records of a client the `Terminate` record is the only one that
does. -/
theorem control_record_stops_engine_iff (s : Netcom) (client : netcom_client_st)
    (buf : List Nat) (length : Int) (uninit : Nat) (e : Engine) (thread_ok : Bool) :
    (∀ msg, msg ∈ (proc_control_message s client buf length uninit).engine_queue.msgs.drop
          s.engine_queue.msgs.length →
        ∃ d, dispatch e thread_ok msg = some d
          ∧ (d.loop = false ↔ ntohl (load_u32 buf 0) = MESSAGE_TERMINATE))
    ∧ (ntohl (load_u32 buf 0) = MESSAGE_TERMINATE →
        (proc_control_message s client buf length uninit).engine_queue
          = signal_thread s.engine_queue SIGINT) := by
  rw [proc_control_message_eq]
  constructor
  · intro msg hmsg
    simp only [List.drop_left] at hmsg
    split_ifs at hmsg with h1 h2 h3
    · simp only [List.mem_singleton] at hmsg
      subst hmsg
      rcases h1 with h | h | h | h <;> rw [h] <;> exact ⟨_, rfl, by simp⟩
    · simp only [List.mem_singleton] at hmsg
      subst hmsg
      rw [dispatch_camera_eq]
      rw [h2]
      cases map.find client.sd e.clients <;> exact ⟨_, rfl, by simp⟩
    · simp only [List.mem_singleton] at hmsg
      subst hmsg
      rw [h3]
      exact ⟨_, rfl, by simp⟩
    · simp at hmsg
  · intro h
    simp [h, signal_thread, MessageQueue.push_msg_type, MessageQueue.push_msg]

/-! ## The uplink worker: encryption -/

theorem encrypt_from_length (key : List Nat) (buf : List Nat) :
    ∀ k, (encrypt_from key k buf).length = buf.length := by
  induction buf with
  | nil => intro k; rfl
  | cons b rest ih => intro k; simp [encrypt_from, ih]

theorem encrypt_from_twice (key : List Nat) (buf : List Nat) :
    ∀ k, encrypt_from key k (encrypt_from key k buf) = buf := by
  induction buf with
  | nil => intro k; rfl
  | cons b rest ih =>
    intro k
    simp only [encrypt_from, ih, Nat.xor_cancel_right]

theorem encrypt_from_getElem (key : List Nat) (buf : List Nat) :
    ∀ k i, k < max_buf_size →
      (encrypt_from key k buf)[i]? =
        buf[i]?.map (fun b => b ^^^ key.getD ((k + i) % max_buf_size) 0) := by
  induction buf with
  | nil => intro k i _; simp [encrypt_from]
  | cons b rest ih =>
    intro k i hk
    cases i with
    | zero =>
      simp [encrypt_from, Nat.mod_eq_of_lt hk]
    | succ i =>
      simp only [encrypt_from, List.getElem?_cons_succ]
      by_cases hw : k + 1 ≥ max_buf_size
      · have hk1 : k + 1 = max_buf_size := by omega
        simp only [hw, if_true]
        rw [ih 0 i (by decide)]
        have : (k + (i + 1)) % max_buf_size = (0 + i) % max_buf_size := by
          have : k + (i + 1) = i + max_buf_size := by omega
          rw [this, Nat.add_mod_right, Nat.zero_add]
        rw [this]
      · simp only [hw, if_false]
        rw [ih (k + 1) i (by omega)]
        have : k + 1 + i = k + (i + 1) := by omega
        rw [this]

/-! ## The uplink worker: fragments -/

theorem to_u16_natCast (x : Nat) : to_u16 (x : Int) = x % 2 ^ 16 := by
  unfold to_u16
  omega

theorem ntohs_htons (x : Nat) (h : x < 2 ^ 16) : ntohs (htons x) = x := by
  unfold ntohs htons
  norm_num at h ⊢
  have h1 : x / 256 % 256 = x / 256 := by omega
  rw [h1]
  have h2 : (x % 256 * 256 + x / 256) % 256 = x / 256 := by omega
  have h3 : (x % 256 * 256 + x / 256) / 256 = x % 256 := by omega
  rw [h2, h3]
  omega

/-- One turn of the fragment loop that is not the last: 512 bytes go out. -/
theorem upload_fragments_full (buf : List Nat) (type frame_size cols rows : Nat)
    (fuel r s q : Nat) (frame : List Nat) (hr : 512 < r) :
    upload_fragments buf type frame_size cols rows (fuel + 1) (r : Int) (s : Int) (q : Int) frame
      = (upload_fragments buf type frame_size cols rows fuel ((r - 512 : Nat) : Int)
          ((s + 512 : Nat) : Int) ((q + 1 : Nat) : Int)
          (memcpy frame (buf.drop s) 512)).map
        (fun rest =>
          { type := type, frame_size := frame_size, cols := cols, rows := rows
            frag_size := htons 512
            frag_seq := htons (q % 2 ^ 16)
            frame := (memcpy frame (buf.drop s) 512).take 512
            length := 528 } :: rest) := by
  have h1 : ((r : Int) > (max_buf_size : Int)) := by
    show ((512 : Nat) : Int) < (r : Int)
    omega
  have h2 : (r : Int) - 512 = ((r - 512 : Nat) : Int) := by omega
  have h3 : (r : Int) - 512 > 0 := by omega
  have h4 : (s : Int) + 512 = ((s + 512 : Nat) : Int) := by omega
  have h5 : (q : Int) + 1 = ((q + 1 : Nat) : Int) := by omega
  have h6 : to_u16 (512 : Int) = 512 := by decide
  rw [upload_fragments]
  simp only [h1, if_true]
  have h7 : ¬ ((max_buf_size : Nat) : Int) < 0 := by omega
  simp only [h7, if_false]
  have h8 : (((max_buf_size : Nat) : Int)).toNat = 512 := by rfl
  have h9 : ((max_buf_size : Nat) : Int) = 512 := by rfl
  have h3' : ((r - 512 : Nat) : Int) > 0 := by omega
  simp only [h8, h9, h2, h3', if_true, h4, h5, Int.toNat_ofNat, to_u16_natCast, h6]
  rfl

/-- The last turn of the fragment loop: what remains goes out. -/
theorem upload_fragments_last (buf : List Nat) (type frame_size cols rows : Nat)
    (fuel r s q : Nat) (frame : List Nat) (hr : r ≤ 512) :
    upload_fragments buf type frame_size cols rows (fuel + 1) (r : Int) (s : Int) (q : Int) frame
      = some
          [{ type := type, frame_size := frame_size, cols := cols, rows := rows
             frag_size := htons r
             frag_seq := htons (q % 2 ^ 16)
             frame := (memcpy frame (buf.drop s) r).take r
             length := 16 + r }] := by
  have h1 : ¬ ((r : Int) > (max_buf_size : Int)) := by
    show ¬ ((512 : Nat) : Int) < (r : Int)
    omega
  have h2 : ¬ (r : Int) < 0 := by omega
  have h3 : ¬ (r : Int) - (r : Int) > 0 := by omega
  have h4 : r % 2 ^ 16 = r := by
    apply Nat.mod_eq_of_lt
    norm_num
    omega
  rw [upload_fragments]
  simp only [h1, if_false, h2, h3, Int.toNat_ofNat, to_u16_natCast, h4]
  have h5 : sizeof_message_frame_st - max_buf_size + r = 16 + r := by
    show 528 - 512 + r = 16 + r
    omega
  rw [h5]
  simp

theorem memcpy_take (dst src : List Nat) (n : Nat) (h : n ≤ src.length) :
    (memcpy dst src n).take n = src.take n := by
  unfold memcpy
  rw [List.take_append_of_le_length (by simp; omega)]
  simp

theorem htons_512 : ntohs (htons 512) = 512 := ntohs_htons 512 (by norm_num)

/-- The fragment loop from `r` remaining bytes, `s` sent bytes and sequence
number `q`, with fuel for all its turns. -/
theorem upload_fragments_spec (buf : List Nat) (type frame_size cols rows : Nat) :
    ∀ (fuel r s q : Nat) (frame : List Nat), r ≤ 512 * fuel → 1 ≤ fuel →
      s + r = buf.length →
      ∃ sent, upload_fragments buf type frame_size cols rows fuel (r : Int) (s : Int) (q : Int)
            frame = some sent
        ∧ sent.length = (if r = 0 then 1 else (r + 511) / 512)
        ∧ payload sent = buf.drop s
        ∧ sent.map (fun d => d.frag_seq)
            = (List.range' q sent.length).map (fun j => htons (j % 2 ^ 16))
        ∧ (∀ d ∈ sent, ntohs d.frag_size ≤ 512 ∧ d.length = 16 + ntohs d.frag_size
            ∧ d.frame.length = ntohs d.frag_size)
        ∧ (∀ d ∈ sent.dropLast, ntohs d.frag_size = 512) := by
  intro fuel
  induction fuel with
  | zero => intro r s q frame _ h1; omega
  | succ fuel ih =>
    intro r s q frame hfuel _ hlen
    have hdrop : (buf.drop s).length = r := by
      rw [List.length_drop]; omega
    by_cases hr : 512 < r
    · obtain ⟨rest, hrest, hl, hp, hq, hall, hinit⟩ :=
        ih (r - 512) (s + 512) (q + 1) (memcpy frame (buf.drop s) 512)
          (by omega) (by omega) (by omega)
      rw [upload_fragments_full buf type frame_size cols rows fuel r s q frame hr, hrest]
      refine ⟨_, rfl, ?_, ?_, ?_, ?_, ?_⟩
      · have h0 : ¬ r = 0 := by omega
        have h1 : ¬ r - 512 = 0 := by omega
        rw [List.length_cons, hl, if_neg h0, if_neg h1]
        omega
      · have hframe : (memcpy frame (buf.drop s) 512).take 512 = (buf.drop s).take 512 :=
          memcpy_take frame (buf.drop s) 512 (by omega)
        simp only [payload, List.map_cons, List.flatten_cons] at hp ⊢
        rw [hp, hframe, ← List.drop_drop, List.take_append_drop]
      · simp only [List.map_cons, List.length_cons, List.range'_succ, hq]
      · intro d hd
        rcases List.mem_cons.mp hd with hd | hd
        · subst hd
          have hframe : (memcpy frame (buf.drop s) 512).take 512 = (buf.drop s).take 512 :=
            memcpy_take frame (buf.drop s) 512 (by omega)
          refine ⟨?_, ?_, ?_⟩
          · show ntohs (htons 512) ≤ 512
            rw [htons_512]
          · show 528 = 16 + ntohs (htons 512)
            rw [htons_512]
          · show ((memcpy frame (buf.drop s) 512).take 512).length = ntohs (htons 512)
            rw [hframe, htons_512, List.length_take, hdrop]
            exact Nat.min_eq_left (by omega)
        · exact hall d hd
      · intro d hd
        have hne : rest ≠ [] := by
          intro hc
          rw [hc] at hl
          have h1 : ¬ r - 512 = 0 := by omega
          rw [List.length_nil, if_neg h1] at hl
          omega
        rw [List.dropLast_cons_of_ne_nil hne] at hd
        rcases List.mem_cons.mp hd with hd | hd
        · subst hd
          exact htons_512
        · exact hinit d hd
    · have hr' : r ≤ 512 := by omega
      rw [upload_fragments_last buf type frame_size cols rows fuel r s q frame hr']
      have hframe : (memcpy frame (buf.drop s) r).take r = buf.drop s := by
        rw [memcpy_take frame (buf.drop s) r (by omega)]
        exact List.take_of_length_le (by omega)
      have hdec : ntohs (htons r) = r := ntohs_htons r (by norm_num; omega)
      refine ⟨_, rfl, ?_, ?_, ?_, ?_, ?_⟩
      · simp only [List.length_singleton]
        split_ifs <;> omega
      · simp [payload, hframe]
      · simp [List.range'_succ]
      · intro d hd
        simp only [List.mem_singleton] at hd
        subst hd
        refine ⟨?_, ?_, ?_⟩
        · show ntohs (htons r) ≤ 512
          omega
        · show 16 + r = 16 + ntohs (htons r)
          omega
        · show ((memcpy frame (buf.drop s) r).take r).length = ntohs (htons r)
          rw [hframe, hdrop, hdec]
      · intro d hd
        simp at hd

/-- More fuel does not change what the fragment loop sends. -/
theorem upload_fragments_fuel (buf : List Nat) (type frame_size cols rows : Nat) :
    ∀ (fuel r s q : Nat) (frame : List Nat) (sent : List frame_datagram),
      upload_fragments buf type frame_size cols rows fuel (r : Int) (s : Int) (q : Int) frame
        = some sent →
      upload_fragments buf type frame_size cols rows (fuel + 1) (r : Int) (s : Int) (q : Int)
        frame = some sent := by
  intro fuel
  induction fuel with
  | zero =>
    intro r s q frame sent h
    simp [upload_fragments] at h
  | succ fuel ih =>
    intro r s q frame sent h
    by_cases hr : 512 < r
    · rw [upload_fragments_full buf type frame_size cols rows fuel r s q frame hr] at h
      rw [upload_fragments_full buf type frame_size cols rows (fuel + 1) r s q frame hr]
      rcases hrec : upload_fragments buf type frame_size cols rows fuel ((r - 512 : Nat) : Int)
          ((s + 512 : Nat) : Int) ((q + 1 : Nat) : Int) (memcpy frame (buf.drop s) 512)
        with _ | rest
      · rw [hrec] at h
        simp at h
      · rw [hrec] at h
        rw [ih _ _ _ _ rest hrec]
        exact h
    · have hr' : r ≤ 512 := by omega
      rw [upload_fragments_last buf type frame_size cols rows fuel r s q frame hr'] at h
      rw [upload_fragments_last buf type frame_size cols rows (fuel + 1) r s q frame hr']
      exact h

theorem upload_fragments_fuel_le (buf : List Nat) (type frame_size cols rows : Nat)
    (fuel fuel' r s q : Nat) (frame : List Nat)
    (sent : List frame_datagram) (hle : fuel ≤ fuel')
    (h : upload_fragments buf type frame_size cols rows fuel (r : Int) (s : Int) (q : Int) frame
      = some sent) :
    upload_fragments buf type frame_size cols rows fuel' (r : Int) (s : Int) (q : Int) frame
      = some sent := by
  induction fuel' with
  | zero =>
    have : fuel = 0 := by omega
    subst this
    exact h
  | succ n ih =>
    by_cases hn : fuel ≤ n
    · exact upload_fragments_fuel buf type frame_size cols rows n r s q frame sent (ih hn)
    · have : fuel = n + 1 := by omega
      subst this
      exact h

theorem to_int_of_lt (x : Nat) (h : x < 2 ^ 31) : to_int x = (x : Int) := by
  unfold to_int
  have h1 : x % 2 ^ 32 = x := Nat.mod_eq_of_lt (by omega)
  rw [h1, if_pos h]

/-- What one call of `upload_frame` sends for a frame shorter than 2^31 bytes. -/
theorem upload_frame_spec (static_buf : List Nat) (captured : Option (List Nat))
    (key : List Nat) (cols rows : Int) (frame0 : List Nat)
    (hN : (captured.getD static_buf).length < 2 ^ 31) :
    ∃ sent,
      upload_frame static_buf captured key cols rows frame0
        = some (encrypt key (captured.getD static_buf), sent)
      ∧ sent.length = (if (captured.getD static_buf).length = 0 then 1
          else ((captured.getD static_buf).length + 511) / 512)
      ∧ payload sent = encrypt key (captured.getD static_buf)
      ∧ sent.map (fun d => d.frag_seq)
          = (List.range' 1 sent.length).map (fun j => htons (j % 2 ^ 16))
      ∧ (∀ d ∈ sent, ntohs d.frag_size ≤ 512 ∧ d.length = 16 + ntohs d.frag_size
          ∧ d.frame.length = ntohs d.frag_size)
      ∧ (∀ d ∈ sent.dropLast, ntohs d.frag_size = 512)
      ∧ (∀ fuel, sent.length ≤ fuel →
          upload_fragments (encrypt key (captured.getD static_buf))
            (htonl MESSAGE_CAMERA_FRAME)
            (htonl (encrypt key (captured.getD static_buf)).length)
            (htons (to_u16 cols)) (htons (to_u16 rows)) fuel
            (to_int (encrypt key (captured.getD static_buf)).length) 0 1 frame0
          = some sent) := by
  have hlen : (encrypt key (captured.getD static_buf)).length
      = (captured.getD static_buf).length := encrypt_from_length key _ 0
  have hint : to_int (encrypt key (captured.getD static_buf)).length
      = (((captured.getD static_buf).length : Nat) : Int) := by
    rw [hlen, to_int_of_lt _ hN]
  obtain ⟨sent, hsent, hl, hp, hq, hall, hinit⟩ :=
    upload_fragments_spec (encrypt key (captured.getD static_buf))
      (htonl MESSAGE_CAMERA_FRAME)
      (htonl (encrypt key (captured.getD static_buf)).length)
      (htons (to_u16 cols)) (htons (to_u16 rows))
      ((captured.getD static_buf).length + 1) (captured.getD static_buf).length 0 1 frame0
      (by omega) (by omega) (by rw [hlen]; omega)
  obtain ⟨sent0, hsent0, hl0, _⟩ :=
    upload_fragments_spec (encrypt key (captured.getD static_buf))
      (htonl MESSAGE_CAMERA_FRAME)
      (htonl (encrypt key (captured.getD static_buf)).length)
      (htons (to_u16 cols)) (htons (to_u16 rows))
      (if (captured.getD static_buf).length = 0 then 1
        else ((captured.getD static_buf).length + 511) / 512)
      (captured.getD static_buf).length 0 1 frame0
      (by split_ifs <;> omega) (by split_ifs <;> omega) (by rw [hlen]; omega)
  have hsame : sent0 = sent := by
    have h := upload_fragments_fuel_le _ _ _ _ _ _
      ((captured.getD static_buf).length + 1) _ _ _ _ sent0 (by split_ifs <;> omega) hsent0
    rw [hsent] at h
    exact (Option.some.inj h).symm
  subst hsame
  refine ⟨sent0, ?_, hl, ?_, hq, hall, hinit, ?_⟩
  · unfold upload_frame
    have h32 : ¬ 2 ^ 32 ≤ (captured.getD static_buf).length := by omega
    have hfuel : (encrypt key (captured.getD static_buf)).length + 1
        = (captured.getD static_buf).length + 1 := by rw [hlen]
    simp only [h32, if_false]
    rw [hint, hfuel]
    simp only [Nat.cast_zero, Nat.cast_one] at hsent
    rw [hsent]
  · simpa using hp
  · intro fuel hfuel
    rw [hint]
    have h := upload_fragments_fuel_le _ _ _ _ _ _ fuel _ _ _ _ sent0
      (by rw [← hl]; exact hfuel) hsent0
    simpa using h

/-- C15. For every frame of at most 65535 * 512 bytes, `upload_frame` sends
fragments whose sequence numbers, read with `ntohs`, are 1, 2, ..., k in the
order sent; each fragment carries as many bytes of `frame` as its `frag_size`
says; and these bytes, put together in that order, are exactly the encrypted
frame. -/
theorem upload_frame_fragments_reassemble (static_buf : List Nat)
    (captured : Option (List Nat)) (key : List Nat) (cols rows : Int) (frame0 : List Nat)
    (hN : (captured.getD static_buf).length ≤ 65535 * 512) :
    ∃ sent,
      upload_frame static_buf captured key cols rows frame0
        = some (encrypt key (captured.getD static_buf), sent)
      ∧ sent.map (fun d => ntohs d.frag_seq) = List.range' 1 sent.length
      ∧ (∀ d ∈ sent, d.frame.length = ntohs d.frag_size)
      ∧ payload sent = encrypt key (captured.getD static_buf)
      ∧ (payload sent).length = (captured.getD static_buf).length := by
  obtain ⟨sent, hsent, hl, hp, hq, hall, _, _⟩ :=
    upload_frame_spec static_buf captured key cols rows frame0 (by omega)
  refine ⟨sent, hsent, ?_, fun d hd => (hall d hd).2.2, hp, ?_⟩
  · have hk : sent.length ≤ 65535 := by
      rw [hl]
      split_ifs <;> omega
    have hmap : sent.map (fun d => ntohs d.frag_seq)
        = (sent.map (fun d => d.frag_seq)).map ntohs := by
      rw [List.map_map]
      rfl
    rw [hmap, hq, List.map_map]
    have hid : ∀ j ∈ List.range' 1 sent.length,
        (ntohs ∘ fun j => htons (j % 2 ^ 16)) j = j := by
      intro j hj
      rw [List.mem_range'_1] at hj
      have hj' : j % 2 ^ 16 = j := Nat.mod_eq_of_lt (by norm_num; omega)
      show ntohs (htons (j % 2 ^ 16)) = j
      rw [hj']
      exact ntohs_htons j (by norm_num; omega)
    rw [List.map_congr_left hid, List.map_id']
  · rw [hp]
    exact encrypt_from_length key _ 0

theorem upload_frame_fragments_reassemble_witness :
    ∃ sent,
      upload_frame [] (some (List.replicate 1030 7)) (List.replicate 512 1) 640 480
          (List.replicate 512 0)
        = some (encrypt (List.replicate 512 1) (List.replicate 1030 7), sent)
      ∧ sent.map (fun d => ntohs d.frag_seq) = List.range' 1 sent.length
      ∧ (∀ d ∈ sent, d.frame.length = ntohs d.frag_size)
      ∧ payload sent = encrypt (List.replicate 512 1) (List.replicate 1030 7)
      ∧ (payload sent).length = (List.replicate 1030 7).length :=
  upload_frame_fragments_reassemble [] (some (List.replicate 1030 7)) (List.replicate 512 1)
    640 480 (List.replicate 512 0) (by decide)

/-- C16, counterexample. For an empty frame (`get_image` left the empty static
vector as it was) `upload_frame` sends one datagram, with `frag_size` 0 and a
length of 16 bytes, while the rounded-up quotient of 0 by 512 is 0. -/
theorem empty_frame_sends_one_datagram :
    (upload_frame [] none (List.replicate 512 1) 640 480 (List.replicate 512 0)).map
        (fun r => r.2.map (fun d => (ntohs d.frag_size, ntohs d.frag_seq, d.length)))
      = some [(0, 1, 16)]
    ∧ (0 + 511) / 512 = 0 := by
  decide

/-- C16, amended. For a frame of `N` bytes, `N` below 2^31, one call of
`upload_frame` sends one datagram when `N = 0` and the rounded-up quotient of
`N` by 512 otherwise. -/
theorem upload_frame_datagram_count (static_buf : List Nat) (captured : Option (List Nat))
    (key : List Nat) (cols rows : Int) (frame0 : List Nat)
    (hN : (captured.getD static_buf).length < 2 ^ 31) :
    ∃ sent,
      upload_frame static_buf captured key cols rows frame0
        = some (encrypt key (captured.getD static_buf), sent)
      ∧ sent.length = (if (captured.getD static_buf).length = 0 then 1
          else ((captured.getD static_buf).length + 511) / 512) := by
  obtain ⟨sent, hsent, hl, _⟩ :=
    upload_frame_spec static_buf captured key cols rows frame0 hN
  exact ⟨sent, hsent, hl⟩

theorem upload_frame_datagram_count_witness :
    ∃ sent,
      upload_frame [] (some (List.replicate 1030 7)) (List.replicate 512 1) 640 480
          (List.replicate 512 0)
        = some (encrypt (List.replicate 512 1) (List.replicate 1030 7), sent)
      ∧ sent.length = (if (List.replicate 1030 7).length = 0 then 1
          else ((List.replicate 1030 7).length + 511) / 512) :=
  upload_frame_datagram_count [] (some (List.replicate 1030 7)) (List.replicate 512 1)
    640 480 (List.replicate 512 0) (by decide)

/-- Every datagram the fragment loop sends stores, as its `frag_size`, an
`int` between 0 and 512, and is sent with 16 bytes more than that. -/
theorem upload_fragments_frag_size (buf : List Nat) (type frame_size cols rows : Nat) :
    ∀ (fuel : Nat) (rem_size sent_bytes frag_seq : Int) (frame : List Nat)
      (sent : List frame_datagram),
      upload_fragments buf type frame_size cols rows fuel rem_size sent_bytes frag_seq frame
        = some sent →
      ∀ d ∈ sent, ∃ k : Int, 0 ≤ k ∧ k ≤ 512 ∧ d.frag_size = htons (to_u16 k)
        ∧ d.length = 16 + k.toNat := by
  intro fuel
  induction fuel with
  | zero =>
    intro rem_size sent_bytes frag_seq frame sent h
    simp [upload_fragments] at h
  | succ fuel ih =>
    intro rem_size sent_bytes frag_seq frame sent h
    unfold upload_fragments at h
    by_cases hneg : (if rem_size > (max_buf_size : Int) then (max_buf_size : Int)
        else rem_size) < 0
    · simp only [hneg, if_true] at h
      cases h
    · simp only [hneg, if_false] at h
      have hk : 0 ≤ (if rem_size > (max_buf_size : Int) then (max_buf_size : Int)
            else rem_size)
          ∧ (if rem_size > (max_buf_size : Int) then (max_buf_size : Int)
            else rem_size) ≤ 512 := by
        constructor
        · omega
        · by_cases hgt : rem_size > (max_buf_size : Int)
          · rw [if_pos hgt]
            decide
          · rw [if_neg hgt]
            have : ((max_buf_size : Nat) : Int) = 512 := by decide
            omega
      have hhead : ∀ d : frame_datagram,
          d.frag_size = htons (to_u16 (if rem_size > (max_buf_size : Int)
            then (max_buf_size : Int) else rem_size)) →
          d.length = sizeof_message_frame_st - max_buf_size
            + (if rem_size > (max_buf_size : Int) then (max_buf_size : Int)
                else rem_size).toNat →
          ∃ k : Int, 0 ≤ k ∧ k ≤ 512 ∧ d.frag_size = htons (to_u16 k)
            ∧ d.length = 16 + k.toNat :=
        fun d h1 h2 => ⟨_, hk.1, hk.2, h1, h2⟩
      by_cases hmore : rem_size - (if rem_size > (max_buf_size : Int)
          then (max_buf_size : Int) else rem_size) > 0
      · simp only [hmore, if_true] at h
        cases hrec : upload_fragments buf type frame_size cols rows fuel
            (rem_size - (if rem_size > (max_buf_size : Int) then (max_buf_size : Int)
              else rem_size))
            (sent_bytes + (if rem_size > (max_buf_size : Int) then (max_buf_size : Int)
              else rem_size))
            (frag_seq + 1)
            (memcpy frame (buf.drop sent_bytes.toNat)
              (if rem_size > (max_buf_size : Int) then (max_buf_size : Int)
                else rem_size).toNat) with
        | none =>
          rw [hrec] at h
          cases h
        | some tail =>
          rw [hrec] at h
          simp only [Option.map_some', Option.some.injEq] at h
          subst h
          intro d hd
          rcases List.mem_cons.mp hd with hd | hd
          · subst hd
            exact hhead _ rfl rfl
          · exact ih _ _ _ _ _ hrec d hd
      · simp only [hmore, if_false, Option.some.injEq] at h
        subst h
        intro d hd
        rw [List.mem_singleton] at hd
        subst hd
        exact hhead _ rfl rfl

/-- A frame of 2^31 bytes or more: `upload_frame` has no defined result. From
2^31 up to 2^32 the size read into `int rem_size` is negative, and so is the
`frag_size` the loop hands to `memcpy`. -/
theorem upload_frame_large (static_buf : List Nat) (captured : Option (List Nat))
    (key : List Nat) (cols rows : Int) (frame0 : List Nat)
    (hN : 2 ^ 31 ≤ (captured.getD static_buf).length) :
    upload_frame static_buf captured key cols rows frame0 = none
    ∧ ((captured.getD static_buf).length < 2 ^ 32 →
        to_int (captured.getD static_buf).length < 0) := by
  have hneg : (captured.getD static_buf).length < 2 ^ 32 →
      to_int (captured.getD static_buf).length < 0 := by
    intro h32
    unfold to_int
    have h1 : (captured.getD static_buf).length % 2 ^ 32 = (captured.getD static_buf).length :=
      Nat.mod_eq_of_lt h32
    have h2 : ¬ (captured.getD static_buf).length < 2 ^ 31 := by omega
    rw [h1, if_neg h2]
    have h3 : (((captured.getD static_buf).length : Nat) : Int) < 2 ^ 32 := by
      exact_mod_cast h32
    omega
  refine ⟨?_, hneg⟩
  unfold upload_frame
  by_cases h32 : 2 ^ 32 ≤ (captured.getD static_buf).length
  · simp only [h32, if_true]
  · have hlen : (encrypt key (captured.getD static_buf)).length
        = (captured.getD static_buf).length := encrypt_from_length key _ 0
    have hlt := hneg (by omega)
    have hle : ¬ to_int (captured.getD static_buf).length > (max_buf_size : Int) := by
      have : (0 : Int) ≤ (max_buf_size : Int) := by decide
      omega
    simp only [h32, if_false, hlen, upload_fragments, hle, hlt, if_true]

/-- C17, counterexample. For a frame of 2^31 bytes the size read into
`int rem_size` is -2^31, the first `frag_size` is that negative number, not
one between 0 and 512, and `upload_frame` has no defined result. -/
theorem large_frame_has_negative_frag_size :
    to_int (List.replicate (2 ^ 31) 0).length = -2 ^ 31
    ∧ upload_frame [] (some (List.replicate (2 ^ 31) 0)) (List.replicate 512 1) 640 480
        (List.replicate 512 0) = none := by
  constructor
  · rw [List.length_replicate]
    decide
  · exact (upload_frame_large [] (some (List.replicate (2 ^ 31) 0)) (List.replicate 512 1)
      640 480 (List.replicate 512 0)
      (by rw [Option.getD_some, List.length_replicate])).1

/-- C17, amended. For a frame of `N` bytes, `N` below 2^31, the fragment loop
of `upload_frame` ends (with fuel for as many turns as it sends datagrams, and
with any more, it returns the same datagrams) and is defined; every datagram
has a `frag_size` of at most 512, a transmitted length of 16 plus `frag_size`,
and carries `frag_size` bytes of `frame`; every datagram but the last has
`frag_size` 512; and the `int` whose low 16 bits each datagram stores as its
`frag_size` lies between 0 and 512. -/
theorem upload_frame_fragment_bounds (static_buf : List Nat) (captured : Option (List Nat))
    (key : List Nat) (cols rows : Int) (frame0 : List Nat)
    (hN : (captured.getD static_buf).length < 2 ^ 31) :
    ∃ sent,
      upload_frame static_buf captured key cols rows frame0
        = some (encrypt key (captured.getD static_buf), sent)
      ∧ (∀ fuel, sent.length ≤ fuel →
          upload_fragments (encrypt key (captured.getD static_buf))
            (htonl MESSAGE_CAMERA_FRAME)
            (htonl (encrypt key (captured.getD static_buf)).length)
            (htons (to_u16 cols)) (htons (to_u16 rows)) fuel
            (to_int (encrypt key (captured.getD static_buf)).length) 0 1 frame0
          = some sent)
      ∧ (∀ d ∈ sent, 0 ≤ ntohs d.frag_size ∧ ntohs d.frag_size ≤ 512
          ∧ d.length = 16 + ntohs d.frag_size
          ∧ d.frame.length = ntohs d.frag_size)
      ∧ (∀ d ∈ sent.dropLast, ntohs d.frag_size = 512)
      ∧ (∀ d ∈ sent, ∃ k : Int, 0 ≤ k ∧ k ≤ 512 ∧ d.frag_size = htons (to_u16 k)
          ∧ d.length = 16 + k.toNat) := by
  obtain ⟨sent, hsent, _, _, _, hall, hinit, hfuel⟩ :=
    upload_frame_spec static_buf captured key cols rows frame0 hN
  exact ⟨sent, hsent, hfuel,
    fun d hd => ⟨Nat.zero_le _, (hall d hd).1, (hall d hd).2.1, (hall d hd).2.2⟩, hinit,
    upload_fragments_frag_size _ _ _ _ _ _ _ _ _ _ sent (hfuel sent.length (le_refl _))⟩

theorem upload_frame_fragment_bounds_witness :
    ∃ sent,
      upload_frame [] (some (List.replicate 1030 7)) (List.replicate 512 1) 640 480
          (List.replicate 512 0)
        = some (encrypt (List.replicate 512 1) (List.replicate 1030 7), sent)
      ∧ (∀ d ∈ sent, 0 ≤ ntohs d.frag_size ∧ ntohs d.frag_size ≤ 512
          ∧ d.length = 16 + ntohs d.frag_size
          ∧ d.frame.length = ntohs d.frag_size)
      ∧ (∀ d ∈ sent.dropLast, ntohs d.frag_size = 512) :=
  have h := upload_frame_fragment_bounds [] (some (List.replicate 1030 7))
    (List.replicate 512 1) 640 480 (List.replicate 512 0) (by decide)
  h.elim (fun sent hs => ⟨sent, hs.1, hs.2.2.1, hs.2.2.2.1⟩)

/-- C18. For every byte sequence and every key, the encryption of
`upload_frame` combines byte `i` with `key[i mod 512]` by exclusive or, keeps
the length, and applied twice gives the sequence back. -/
theorem encrypt_twice (key : List Nat) (buf : List Nat) :
    encrypt key (encrypt key buf) = buf
    ∧ (encrypt key buf).length = buf.length
    ∧ (∀ i, (encrypt key buf)[i]? =
        buf[i]?.map (fun b => b ^^^ key.getD (i % max_buf_size) 0)) := by
  refine ⟨encrypt_from_twice key buf 0, encrypt_from_length key buf 0, ?_⟩
  intro i
  have h := encrypt_from_getElem key buf 0 i (by decide)
  rw [Nat.zero_add] at h
  exact h

/-- C19, counterexample. A worker uploads two frames of one byte each, both
bytes 0, with a key that starts 5, 6. The bytes sent are 5 and 5: the second
frame starts at key index 0 again. With a phase carried over from the first
frame, the two bytes together would be encrypted to 5, 6. -/
theorem key_phase_restarts_each_frame :
    (upload_frames (5 :: 6 :: List.replicate 510 0) 640 480 (List.replicate 512 0) []
        [[0], [0]]).map (fun sent => (sent.map payload).flatten)
      = some [5, 5]
    ∧ encrypt (5 :: 6 :: List.replicate 510 0) ([0] ++ [0]) = [5, 6] := by
  decide

/-- C19, amended. The key phase is reset with every frame: for consecutive
frames uploaded by one worker, each shorter than 2^31 bytes, the bytes sent
for a frame are that frame encrypted from key index 0, so byte `i` of every
frame is combined with `key[i mod 512]`, whatever was uploaded before it. -/
theorem upload_frames_phase (key : List Nat) (cols rows : Int) (frame0 : List Nat)
    (static_buf : List Nat) (images : List (List Nat))
    (hN : ∀ image ∈ images, image.length < 2 ^ 31) :
    ∃ sent,
      upload_frames key cols rows frame0 static_buf images = some sent
      ∧ sent.map payload = images.map (encrypt key)
      ∧ (∀ image ∈ images, ∀ i, (encrypt key image)[i]? =
          image[i]?.map (fun b => b ^^^ key.getD (i % max_buf_size) 0)) := by
  induction images generalizing static_buf with
  | nil => exact ⟨[], rfl, rfl, fun image h => by simp at h⟩
  | cons image images ih =>
    obtain ⟨first, hfirst, _, hp, _⟩ :=
      upload_frame_spec static_buf (some image) key cols rows frame0
        (hN image (List.mem_cons_self _ _))
    obtain ⟨rest, hrest, hpay, _⟩ :=
      ih (encrypt key image) (fun im him => hN im (List.mem_cons_of_mem _ him))
    refine ⟨first :: rest, ?_, ?_, ?_⟩
    · simp only [Option.getD_some] at hfirst
      simp only [upload_frames, hfirst, hrest, Option.map_some']
    · simp only [Option.getD_some] at hp
      simp only [List.map_cons, hp, hpay]
    · intro im _ i
      have h := encrypt_from_getElem key im 0 i (by decide)
      rw [Nat.zero_add] at h
      exact h

theorem upload_frames_phase_witness :
    ∃ sent,
      upload_frames (5 :: 6 :: List.replicate 510 0) 640 480 (List.replicate 512 0) []
          [[0], [0, 0, 9]] = some sent
      ∧ sent.map payload = [[0], [0, 0, 9]].map (encrypt (5 :: 6 :: List.replicate 510 0))
      ∧ (∀ image ∈ [[0], [0, 0, 9]], ∀ i,
          (encrypt (5 :: 6 :: List.replicate 510 0) image)[i]? =
            image[i]?.map (fun b =>
              b ^^^ (5 :: 6 :: List.replicate 510 0).getD (i % max_buf_size) 0)) :=
  upload_frames_phase (5 :: 6 :: List.replicate 510 0) 640 480 (List.replicate 512 0) []
    [[0], [0, 0, 9]] (by decide)
/-! ## The uplink worker: the loop -/

theorem camera_calls_append (a b : List uplink_call) :
    camera_calls (a ++ b) = camera_calls a ++ camera_calls b := by
  simp [camera_calls]

/-- What one turn of the uplink loop does to `stream` and which camera call it
makes: none, or the one that goes with flipping `stream`. -/
theorem uplink_iteration_effect (id : Int) (stream : Bool) (popped : Option message)
    (t : uplink_turn) (h : uplink_iteration id stream popped = some t) :
    ((t.stream = stream ∧ camera_calls t.calls = [])
      ∨ (t.stream = !stream
          ∧ camera_calls t.calls
            = [if stream then uplink_call.release id else uplink_call.reserve id]))
    ∧ (t.loop = false → t.stream = false) := by
  cases popped with
  | none =>
    cases stream <;>
    · simp only [uplink_iteration, Option.some.injEq] at h
      subst h
      exact ⟨Or.inl ⟨rfl, rfl⟩, by simp⟩
  | some msg =>
    by_cases h1 : msg.type = MESSAGE_CAMERA_REQUEST
    · cases stream <;>
      · simp only [uplink_iteration, h1, if_true, Option.some.injEq] at h
        subst h
        exact ⟨Or.inr ⟨rfl, rfl⟩, by simp⟩
    · by_cases h2 : msg.type = MESSAGE_SENSOR_DATA
      · cases msg with
        | sensor type sensor data =>
          simp only [message.type] at h2
          subst h2
          cases stream <;>
          · simp [uplink_iteration, message.type, upload_sensor] at h
            subst h
            exact ⟨Or.inl ⟨rfl, rfl⟩, by simp⟩
        | st _ => simp [uplink_iteration, h1, h2, upload_sensor] at h
        | move _ _ => simp [uplink_iteration, h1, h2, upload_sensor] at h
        | netcom _ _ _ => simp [uplink_iteration, h1, h2, upload_sensor] at h
      · by_cases h3 : msg.type = MESSAGE_TERMINATE
        · cases stream with
          | true =>
            simp [uplink_iteration, h3] at h
            subst h
            exact ⟨Or.inr ⟨rfl, rfl⟩, by simp⟩
          | false =>
            simp [uplink_iteration, h3] at h
            subst h
            exact ⟨Or.inl ⟨rfl, rfl⟩, by simp⟩
        · cases stream <;>
          · simp only [uplink_iteration, h1, h2, h3, if_false, Option.some.injEq] at h
            subst h
            exact ⟨Or.inl ⟨rfl, rfl⟩, by simp⟩

theorem uplink_iteration_defined (id : Int) (stream : Bool) (popped : Option message)
    (h : popped.all uplink_typed = true) :
    ∃ t, uplink_iteration id stream popped = some t := by
  cases popped with
  | none => exact ⟨_, rfl⟩
  | some msg =>
    have hm : uplink_typed msg = true := by simpa using h
    by_cases h1 : msg.type = MESSAGE_CAMERA_REQUEST
    · simp [uplink_iteration, h1]
    · by_cases h2 : msg.type = MESSAGE_SENSOR_DATA
      · cases msg with
        | sensor type sensor data =>
          simp only [message.type] at h2
          subst h2
          simp [uplink_iteration, message.type, upload_sensor]
        | st _ => simp [uplink_typed, h1, h2] at hm
        | move _ _ => simp [uplink_typed, h1, h2] at hm
        | netcom _ _ _ => simp [uplink_typed, h1, h2] at hm
      · by_cases h3 : msg.type = MESSAGE_TERMINATE
        · cases stream <;> simp [uplink_iteration, h3]
        · simp [uplink_iteration, h1, h2, h3]

/-- Along the uplink loop the camera calls continue the list `reserve,
release, reserve, ...`: when `m` calls have been made and `stream` is set
exactly for odd `m`, the calls of the rest of the run extend the list. -/
theorem uplink_loop_alternates (id : Int) (inputs : List (Option message)) :
    ∀ (stream : Bool) (m : Nat) (t : uplink_turn),
      (stream = true ↔ m % 2 = 1) →
      uplink_loop id stream inputs = some t →
      ∃ n, alternating id m ++ camera_calls t.calls = alternating id n
        ∧ (t.stream = true ↔ n % 2 = 1)
        ∧ (t.loop = false → t.stream = false) := by
  induction inputs with
  | nil =>
    intro stream m t hpar h
    simp only [uplink_loop, Option.some.injEq] at h
    subst h
    exact ⟨m, by simp [camera_calls], hpar, by simp⟩
  | cons popped rest ih =>
    intro stream m t hpar h
    unfold uplink_loop at h
    rcases hstep : uplink_iteration id stream popped with _ | t1
    · simp [hstep] at h
    · simp only [hstep] at h
      obtain ⟨heff, hexit⟩ := uplink_iteration_effect id stream popped t1 hstep
      have hone : ∃ m1, alternating id m ++ camera_calls t1.calls = alternating id m1
          ∧ (t1.stream = true ↔ m1 % 2 = 1) := by
        rcases heff with ⟨hs, hc⟩ | ⟨hs, hc⟩
        · exact ⟨m, by rw [hc, List.append_nil], by rw [hs]; exact hpar⟩
        · refine ⟨m + 1, ?_, ?_⟩
          · rw [hc]
            show _ = alternating id m ++ _
            congr 2
            cases stream with
            | true =>
              have : m % 2 = 1 := hpar.mp rfl
              have h0 : ¬ m % 2 = 0 := by omega
              simp [h0]
            | false =>
              have h1 : ¬ m % 2 = 1 := fun hc => by simpa using hpar.mpr hc
              have h0 : m % 2 = 0 := by omega
              simp [h0]
          · rw [hs]
            cases stream with
            | true =>
              have : m % 2 = 1 := hpar.mp rfl
              simp
              omega
            | false =>
              have h1 : ¬ m % 2 = 1 := fun hc => by simpa using hpar.mpr hc
              simp
              omega
      obtain ⟨m1, hm1, hpar1⟩ := hone
      by_cases hl : t1.loop = true
      · simp only [hl, if_true] at h
        rcases hrest : uplink_loop id t1.stream rest with _ | t2
        · simp [hrest] at h
        · simp only [hrest, Option.some.injEq] at h
          subst h
          obtain ⟨n, hn, hparn, hexitn⟩ := ih t1.stream m1 t2 hpar1 hrest
          refine ⟨n, ?_, hparn, hexitn⟩
          show alternating id m ++ camera_calls (t1.calls ++ t2.calls) = _
          rw [camera_calls_append, ← List.append_assoc, hm1, hn]
      · simp only [hl, Bool.false_eq_true, if_false, Option.some.injEq] at h
        subst h
        exact ⟨m1, hm1, hpar1, hexit⟩

theorem uplink_loop_defined (id : Int) (inputs : List (Option message)) :
    ∀ stream : Bool, (∀ popped ∈ inputs, popped.all uplink_typed = true) →
      ∃ t, uplink_loop id stream inputs = some t := by
  induction inputs with
  | nil => intro stream _; exact ⟨_, rfl⟩
  | cons popped rest ih =>
    intro stream hty
    obtain ⟨t1, ht1⟩ := uplink_iteration_defined id stream popped
      (hty popped (List.mem_cons_self _ _))
    obtain ⟨t2, ht2⟩ := ih t1.stream (fun p hp => hty p (List.mem_cons_of_mem _ hp))
    unfold uplink_loop
    simp only [ht1]
    by_cases hl : t1.loop = true
    · simp only [hl, if_true, ht2]
      exact ⟨_, rfl⟩
    · simp only [hl]
      exact ⟨_, rfl⟩

theorem alternating_counts (id : Int) (n : Nat) :
    (alternating id n).count (uplink_call.reserve id) = (n + 1) / 2
    ∧ (alternating id n).count (uplink_call.release id) = n / 2 := by
  induction n with
  | zero => simp [alternating]
  | succ n ih =>
    obtain ⟨h1, h2⟩ := ih
    by_cases hp : n % 2 = 0
    · simp only [alternating, hp, if_true, List.count_append, h1, h2]
      simp
      omega
    · simp only [alternating, hp, if_false, List.count_append, h1, h2]
      simp
      omega

theorem uplink_iteration_request (id : Int) (stream : Bool) (msg : message)
    (hm : msg.type = MESSAGE_CAMERA_REQUEST) :
    ∃ t, uplink_iteration id stream (some msg) = some t
      ∧ t.stream = !stream ∧ t.loop = true
      ∧ camera_calls t.calls
          = [if stream then uplink_call.release id else uplink_call.reserve id] := by
  cases stream with
  | true =>
    refine ⟨{ loop := true, stream := false
              calls := [uplink_call.upload_frame, uplink_call.release id] }, ?_,
      rfl, rfl, rfl⟩
    simp [uplink_iteration, hm]
  | false =>
    refine ⟨{ loop := true, stream := true
              calls := [uplink_call.wait_msg, uplink_call.reserve id] }, ?_,
      rfl, rfl, rfl⟩
    simp [uplink_iteration, hm]

theorem uplink_iteration_other (id : Int) (stream : Bool) (msg : message) (t : uplink_turn)
    (h1 : msg.type ≠ MESSAGE_CAMERA_REQUEST) (h2 : msg.type ≠ MESSAGE_TERMINATE)
    (h : uplink_iteration id stream (some msg) = some t) :
    t.stream = stream ∧ t.loop = true ∧ camera_calls t.calls = [] := by
  by_cases h3 : msg.type = MESSAGE_SENSOR_DATA
  · cases msg with
    | sensor type sensor data =>
      simp only [message.type] at h3
      subst h3
      cases stream <;>
      · simp [uplink_iteration, message.type, upload_sensor] at h
        subst h
        exact ⟨rfl, rfl, rfl⟩
    | st _ => simp [uplink_iteration, h1, h3, upload_sensor] at h
    | move _ _ => simp [uplink_iteration, h1, h3, upload_sensor] at h
    | netcom _ _ _ => simp [uplink_iteration, h1, h3, upload_sensor] at h
  · cases stream <;>
    · simp only [uplink_iteration, h1, h2, h3, if_false, Option.some.injEq] at h
      subst h
      exact ⟨rfl, rfl, rfl⟩

theorem uplink_iteration_terminate (id : Int) (stream : Bool) (msg : message)
    (hm : msg.type = MESSAGE_TERMINATE) :
    ∃ t, uplink_iteration id stream (some msg) = some t
      ∧ t.stream = false ∧ t.loop = false
      ∧ camera_calls t.calls = (if stream then [uplink_call.release id] else []) := by
  cases stream with
  | true =>
    refine ⟨{ loop := false, stream := false
              calls := [uplink_call.upload_frame, uplink_call.release id] }, ?_,
      rfl, rfl, rfl⟩
    simp [uplink_iteration, hm]
  | false =>
    refine ⟨{ loop := false, stream := false, calls := [uplink_call.wait_msg] }, ?_,
      rfl, rfl, rfl⟩
    simp [uplink_iteration, hm]

theorem alternating_succ (id : Int) (stream : Bool) (m : Nat)
    (hpar : stream = true ↔ m % 2 = 1) :
    alternating id m ++ [if stream then uplink_call.release id else uplink_call.reserve id]
      = alternating id (m + 1) := by
  show _ = alternating id m ++ _
  congr 2
  cases stream with
  | true =>
    have : m % 2 = 1 := hpar.mp rfl
    have h0 : ¬ m % 2 = 0 := by omega
    simp [h0]
  | false =>
    have h1 : ¬ m % 2 = 1 := fun hc => by simpa using hpar.mpr hc
    have h0 : m % 2 = 0 := by omega
    simp [h0]

/-- The uplink loop against the count of the messages: from a state in which
`m` camera calls have been made and `stream` is set exactly for odd `m`, the
loop is defined on typed messages, leaves exactly when a `MESSAGE_TERMINATE`
is among them, and its camera calls continue the list `reserve, release, ...`
by one call for each `MESSAGE_CAMERA_REQUEST` before the first
`MESSAGE_TERMINATE`, and one more for that `MESSAGE_TERMINATE` when `stream`
is then set. -/
theorem uplink_loop_counts (id : Int) (inputs : List (Option message)) :
    ∀ (stream : Bool) (m : Nat),
      (stream = true ↔ m % 2 = 1) →
      (∀ popped ∈ inputs, popped.all uplink_typed = true) →
      ∃ t, uplink_loop id stream inputs = some t
        ∧ alternating id m ++ camera_calls t.calls
            = alternating id (m + camera_requests inputs
                + (if terminated inputs = true ∧ (m + camera_requests inputs) % 2 = 1
                    then 1 else 0))
        ∧ t.loop = !terminated inputs
        ∧ (t.stream = true ↔
            terminated inputs = false ∧ (m + camera_requests inputs) % 2 = 1) := by
  induction inputs with
  | nil =>
    intro stream m hpar _
    refine ⟨_, rfl, ?_, rfl, ?_⟩
    · simp [camera_calls, camera_requests, terminated]
    · simpa [camera_requests, terminated] using hpar
  | cons popped rest ih =>
    intro stream m hpar hty
    have hrest : ∀ p ∈ rest, p.all uplink_typed = true :=
      fun p hp => hty p (List.mem_cons_of_mem _ hp)
    have keep : ∀ t1, uplink_iteration id stream popped = some t1 →
        t1.stream = stream → t1.loop = true → camera_calls t1.calls = [] →
        camera_requests (popped :: rest) = camera_requests rest →
        terminated (popped :: rest) = terminated rest →
        ∃ t, uplink_loop id stream (popped :: rest) = some t
          ∧ alternating id m ++ camera_calls t.calls
              = alternating id (m + camera_requests (popped :: rest)
                  + (if terminated (popped :: rest) = true
                        ∧ (m + camera_requests (popped :: rest)) % 2 = 1
                      then 1 else 0))
          ∧ t.loop = !terminated (popped :: rest)
          ∧ (t.stream = true ↔
              terminated (popped :: rest) = false
                ∧ (m + camera_requests (popped :: rest)) % 2 = 1) := by
      intro t1 ht1 hs hl hc hcr hterm
      obtain ⟨t2, ht2, hcalls, hloop, hstream⟩ := ih stream m hpar hrest
      rw [← hs] at ht2
      refine ⟨{ t2 with calls := t1.calls ++ t2.calls }, ?_, ?_, ?_, ?_⟩
      · simp [uplink_loop, ht1, hl, ht2]
      · rw [hcr, hterm]
        show alternating id m ++ camera_calls (t1.calls ++ t2.calls) = _
        rw [camera_calls_append, hc, List.nil_append]
        exact hcalls
      · rw [hterm]
        exact hloop
      · rw [hcr, hterm]
        exact hstream
    cases popped with
    | none =>
      exact keep { loop := true, stream := stream
                   calls := [if !stream then uplink_call.wait_msg
                             else uplink_call.upload_frame] }
        rfl rfl rfl (by cases stream <;> rfl) rfl rfl
    | some msg =>
      by_cases h3 : msg.type = MESSAGE_TERMINATE
      · obtain ⟨t1, ht1, hs, hl, hc⟩ := uplink_iteration_terminate id stream msg h3
        have hcr : camera_requests (some msg :: rest) = 0 := by
          simp [camera_requests, h3]
        have hterm : terminated (some msg :: rest) = true := by
          simp [terminated, h3]
        refine ⟨t1, ?_, ?_, ?_, ?_⟩
        · simp [uplink_loop, ht1, hl]
        · rw [hcr, hterm, hc]
          cases stream with
          | true =>
            have hm : m % 2 = 1 := hpar.mp rfl
            have := alternating_succ id true m hpar
            simp only [if_true] at this
            simp [hm, this]
          | false =>
            have hm : ¬ m % 2 = 1 := fun hc => by simpa using hpar.mpr hc
            simp [hm]
        · rw [hterm, hl]
          rfl
        · rw [hterm, hs]
          simp
      · by_cases h1 : msg.type = MESSAGE_CAMERA_REQUEST
        · obtain ⟨t1, ht1, hs, hl, hc⟩ := uplink_iteration_request id stream msg h1
          have hcr : camera_requests (some msg :: rest) = camera_requests rest + 1 := by
            simp [camera_requests, h1]
          have hterm : terminated (some msg :: rest) = terminated rest := by
            simp [terminated, h3]
          have hpar1 : ((!stream) = true ↔ (m + 1) % 2 = 1) := by
            cases stream with
            | true =>
              have hm : m % 2 = 1 := hpar.mp rfl
              simp
              omega
            | false =>
              have hm : ¬ m % 2 = 1 := fun hc => by simpa using hpar.mpr hc
              simp
              omega
          obtain ⟨t2, ht2, hcalls, hloop, hstream⟩ := ih (!stream) (m + 1) hpar1 hrest
          rw [← hs] at ht2
          have hidx : m + (camera_requests rest + 1) = m + 1 + camera_requests rest := by
            omega
          refine ⟨{ t2 with calls := t1.calls ++ t2.calls }, ?_, ?_, ?_, ?_⟩
          · simp [uplink_loop, ht1, hl, ht2]
          · rw [hcr, hterm, hidx]
            show alternating id m ++ camera_calls (t1.calls ++ t2.calls) = _
            rw [camera_calls_append, hc, ← List.append_assoc, alternating_succ id stream m hpar]
            exact hcalls
          · rw [hterm]
            exact hloop
          · rw [hcr, hterm, hidx]
            exact hstream
        · obtain ⟨t1, ht1⟩ := uplink_iteration_defined id stream (some msg)
            (hty _ (List.mem_cons_self _ _))
          obtain ⟨hs, hl, hc⟩ := uplink_iteration_other id stream msg t1 h1 h3 ht1
          exact keep t1 ht1 hs hl hc (by simp [camera_requests, h1, h3])
            (by simp [terminated, h3])

/-- C20. One turn of the uplink loop: a `CameraRequest` flips `stream`, with a
`reserve` when it sets it and a `release` when it clears it; a message of any
type other than `CameraRequest` and `Terminate` (so `SensorData` and every
unknown type) leaves `stream` as it is and calls the camera not at all;
`Terminate` leaves the loop with `stream` cleared, with a `release` exactly
when `stream` was set. Hence for every sequence of messages handled from the
start of the loop, the loop is defined and its camera calls are the list
`reserve, release, reserve, ...` with one call for each `CameraRequest` before
the first `Terminate` and one more, a `release`, for that `Terminate` when the
number of those requests is odd; the loop has been left exactly when a
`Terminate` was among the messages, `stream` is set exactly when none was and
the number of requests is odd, and after `Terminate` there are as many
`release` as `reserve` calls. -/
theorem uplink_loop_camera_calls (id : Int) (inputs : List (Option message))
    (hty : ∀ popped ∈ inputs, popped.all uplink_typed = true) :
    (∀ (stream : Bool) (msg : message), msg.type = MESSAGE_CAMERA_REQUEST →
      ∃ t, uplink_iteration id stream (some msg) = some t
        ∧ t.stream = !stream ∧ t.loop = true
        ∧ camera_calls t.calls
            = [if stream then uplink_call.release id else uplink_call.reserve id])
    ∧ (∀ (stream : Bool) (msg : message) (t : uplink_turn),
        msg.type ≠ MESSAGE_CAMERA_REQUEST → msg.type ≠ MESSAGE_TERMINATE →
        uplink_iteration id stream (some msg) = some t →
        t.stream = stream ∧ t.loop = true ∧ camera_calls t.calls = [])
    ∧ (∀ (stream : Bool) (msg : message), msg.type = MESSAGE_TERMINATE →
      ∃ t, uplink_iteration id stream (some msg) = some t
        ∧ t.stream = false ∧ t.loop = false
        ∧ camera_calls t.calls = (if stream then [uplink_call.release id] else []))
    ∧ (∃ t, uplink_loop id false inputs = some t
        ∧ camera_calls t.calls
            = alternating id (camera_requests inputs
                + (if terminated inputs = true ∧ camera_requests inputs % 2 = 1
                    then 1 else 0))
        ∧ t.loop = !terminated inputs
        ∧ (t.stream = true ↔ terminated inputs = false ∧ camera_requests inputs % 2 = 1)
        ∧ (terminated inputs = true →
            (camera_calls t.calls).count (uplink_call.reserve id)
              = (camera_calls t.calls).count (uplink_call.release id))) := by
  refine ⟨fun stream msg hm => uplink_iteration_request id stream msg hm,
    fun stream msg t h1 h2 h => uplink_iteration_other id stream msg t h1 h2 h,
    fun stream msg hm => uplink_iteration_terminate id stream msg hm, ?_⟩
  obtain ⟨t, ht, hcalls, hloop, hstream⟩ := uplink_loop_counts id inputs false 0 (by simp) hty
  simp only [alternating, List.nil_append, Nat.zero_add] at hcalls hstream
  refine ⟨t, ht, hcalls, hloop, hstream, ?_⟩
  intro hterm
  rw [hcalls, (alternating_counts id _).1, (alternating_counts id _).2]
  by_cases hodd : camera_requests inputs % 2 = 1
  · simp only [hterm, hodd, and_self, if_true]
    omega
  · simp only [hterm, hodd, and_false, if_false]
    omega

theorem uplink_loop_camera_calls_witness :
    uplink_loop 7 false
        [some (message.netcom MESSAGE_CAMERA_REQUEST 7 0), none,
         some (message.sensor MESSAGE_SENSOR_DATA 1 2),
         some (message.netcom MESSAGE_CAMERA_REQUEST 7 0),
         some (message.netcom MESSAGE_CAMERA_REQUEST 7 0),
         some (message.st MESSAGE_TERMINATE)]
      = some { loop := false, stream := false
               calls :=
                 [uplink_call.wait_msg, uplink_call.reserve 7, uplink_call.upload_frame,
                  uplink_call.upload_frame, uplink_call.sendto_sensor (htonl 6) (htons 1)
                    (htons 2),
                  uplink_call.upload_frame, uplink_call.release 7, uplink_call.wait_msg,
                  uplink_call.reserve 7, uplink_call.upload_frame, uplink_call.release 7] }
    ∧ ∃ t, uplink_loop 7 false
          [some (message.netcom MESSAGE_CAMERA_REQUEST 7 0), none,
           some (message.sensor MESSAGE_SENSOR_DATA 1 2),
           some (message.netcom MESSAGE_CAMERA_REQUEST 7 0),
           some (message.netcom MESSAGE_CAMERA_REQUEST 7 0),
           some (message.st MESSAGE_TERMINATE)] = some t
        ∧ camera_calls t.calls
            = [uplink_call.reserve 7, uplink_call.release 7, uplink_call.reserve 7,
               uplink_call.release 7]
        ∧ t.loop = false :=
  ⟨by decide,
    ((uplink_loop_camera_calls 7
      [some (message.netcom MESSAGE_CAMERA_REQUEST 7 0), none,
       some (message.sensor MESSAGE_SENSOR_DATA 1 2),
       some (message.netcom MESSAGE_CAMERA_REQUEST 7 0),
       some (message.netcom MESSAGE_CAMERA_REQUEST 7 0),
       some (message.st MESSAGE_TERMINATE)] (by decide)).2.2.2).elim
      (fun t ht => ⟨t, ht.1, ht.2.1.trans (by decide), ht.2.2.1.trans (by decide)⟩)⟩

/-! ## Camera reservations -/

theorem Camera.reserve_balance (cam : Camera) (client_id : Int) (open_ok : Bool)
    (h : cam.opened = true ↔ cam.clients ≠ []) :
    ((cam.reserve client_id open_ok).opened = true ↔
      (cam.reserve client_id open_ok).clients ≠ []) := by
  unfold Camera.reserve
  cases hop : cam.opened <;> cases open_ok <;> simp [hop] at h ⊢
  · exact h

theorem Camera.release_balance (cam : Camera) (client_id : Int)
    (h : cam.opened = true ↔ cam.clients ≠ []) :
    ((cam.release client_id).opened = true ↔ (cam.release client_id).clients ≠ []) := by
  unfold Camera.release
  by_cases hm : client_id ∈ cam.clients
  · by_cases he : (cam.clients.erase client_id).isEmpty = true
    · have he' : cam.clients.erase client_id = [] := by simpa using he
      simp [hm, he']
    · have he' : cam.clients.erase client_id ≠ [] := by simpa using he
      have hne : cam.clients ≠ [] := by
        intro h0
        rw [h0] at hm
        simp at hm
      simp [hm, he', h.mpr hne]
  · simp [hm, h]

theorem run_camera_balance (ops : List CameraOp) (cam : Camera)
    (h : cam.opened = true ↔ cam.clients ≠ []) :
    ((run_camera cam ops).opened = true ↔ (run_camera cam ops).clients ≠ []) := by
  induction ops generalizing cam with
  | nil => simpa [run_camera] using h
  | cons op ops ih =>
    cases op with
    | reserve client_id open_ok =>
      simpa [run_camera] using ih _ (Camera.reserve_balance cam client_id open_ok h)
    | release client_id =>
      simpa [run_camera] using ih _ (Camera.release_balance cam client_id h)

/-- C21. After any sequence of `reserve` and `release` calls on a freshly
constructed camera, whatever the open attempts did, the device is open exactly
when the client list is not empty; and a `release` for an id that is not in
the list leaves the camera as it is. -/
theorem camera_reservation_balance (ops : List CameraOp) (client_id : Int) :
    ((run_camera Camera.init ops).opened = true ↔ (run_camera Camera.init ops).clients ≠ [])
    ∧ (client_id ∉ (run_camera Camera.init ops).clients →
        (run_camera Camera.init ops).release client_id = run_camera Camera.init ops) := by
  refine ⟨run_camera_balance ops Camera.init (by simp [Camera.init]), ?_⟩
  intro h
  simp [Camera.release, h]

theorem camera_reservation_balance_witness :
    5 ∉ (run_camera Camera.init
        [CameraOp.reserve 4 false, CameraOp.reserve 4 true, CameraOp.reserve 5 true,
          CameraOp.release 5]).clients
    ∧ (run_camera Camera.init
        [CameraOp.reserve 4 false, CameraOp.reserve 4 true, CameraOp.reserve 5 true,
          CameraOp.release 5]).release 5
      = { opened := true, clients := [4] } :=
  ⟨by decide,
    ((camera_reservation_balance
      [CameraOp.reserve 4 false, CameraOp.reserve 4 true, CameraOp.reserve 5 true,
        CameraOp.release 5] 5).2 (by decide)).trans (by decide)⟩

/-! ## The sticky flag of the message queue -/

theorem run_queue_more (ops : List QueueOp) (q : MessageQueue)
    (h : q.more = true → q.msgs ≠ []) :
    ((run_queue q ops).1.more = true → (run_queue q ops).1.msgs ≠ []) := by
  induction ops generalizing q with
  | nil => simpa [run_queue] using h
  | cons op ops ih =>
    cases op with
    | push msg =>
      simp only [run_queue]
      apply ih
      intro _
      simp [MessageQueue.push_msg]
    | pop =>
      simp only [run_queue]
      apply ih
      unfold MessageQueue.pop_msg
      cases hm : q.msgs with
      | nil => simpa [hm] using h
      | cons m rest => simp

/-- C27. After any sequence of `push_msg` and `pop_msg` calls on a new queue,
`more` is set only if the queue holds a message; a `wait_msg` that returns
does so on a queue that holds a message and leaves it as it is; and the
`pop_msg` that follows, whatever was pushed in between, returns a message. -/
theorem more_only_while_nonempty (ops : List QueueOp) (later : List message) :
    ((run_queue MessageQueue.init ops).1.more = true →
      (run_queue MessageQueue.init ops).1.msgs ≠ [])
    ∧ (∀ q, (run_queue MessageQueue.init ops).1.wait_msg = some q →
        q = (run_queue MessageQueue.init ops).1 ∧ q.msgs ≠ []
        ∧ ∃ msg, (later.foldl MessageQueue.push_msg q).pop_msg.1 = some msg) := by
  have hinv := run_queue_more ops MessageQueue.init (by simp [MessageQueue.init])
  refine ⟨hinv, ?_⟩
  intro q hq
  have hq' : q = (run_queue MessageQueue.init ops).1 ∧ q.msgs ≠ [] := by
    unfold MessageQueue.wait_msg at hq
    by_cases hmore : (run_queue MessageQueue.init ops).1.more = true
    · simp [hmore] at hq
      exact ⟨hq.symm, hq ▸ hinv hmore⟩
    · by_cases hemp : (run_queue MessageQueue.init ops).1.msgs.isEmpty = true
      · simp [hmore, hemp] at hq
      · simp [hmore, hemp] at hq
        refine ⟨hq.symm, ?_⟩
        rw [← hq]
        simpa using hemp
  refine ⟨hq'.1, hq'.2, ?_⟩
  have hfold : ∀ (l : List message) (p : MessageQueue),
      (l.foldl MessageQueue.push_msg p).msgs = p.msgs ++ l := by
    intro l
    induction l with
    | nil => intro p; simp
    | cons m l ih => intro p; simp [ih, MessageQueue.push_msg]
  have hne : (later.foldl MessageQueue.push_msg q).msgs ≠ [] := by
    rw [hfold]
    simp [hq'.2]
  unfold MessageQueue.pop_msg
  cases hm : (later.foldl MessageQueue.push_msg q).msgs with
  | nil => exact absurd hm hne
  | cons m rest => exact ⟨m, rfl⟩

theorem more_only_while_nonempty_witness :
    (run_queue MessageQueue.init
        [QueueOp.push (message.st 5), QueueOp.push (message.st 10), QueueOp.pop]).1.wait_msg
      = some { msgs := [message.st 10], more := true }
    ∧ ∃ msg, (([message.st 2]).foldl MessageQueue.push_msg
        { msgs := [message.st 10], more := true }).pop_msg.1 = some msg :=
  ⟨by decide,
    ((more_only_while_nonempty
      [QueueOp.push (message.st 5), QueueOp.push (message.st 10), QueueOp.pop]
      [message.st 2]).2 { msgs := [message.st 10], more := true } (by decide)).2.2⟩

/-! ## Worker lifecycle -/

/-- C28. `run` on a running worker returns the worker as it is, throws nothing
and creates no thread; `terminate` on a running worker with a queue pushes one
`MESSAGE_TERMINATE`, joins and clears `running`, without a cancel; on a running
worker without a queue it cancels and joins and clears `running`; on a worker
that is not running, such as a terminated or a new one, it changes nothing. -/
theorem worker_run_terminate_idempotent (w : Worker) (create_ok : Bool) :
    (w.running = true → w.run create_ok = (w, none))
    ∧ ((w.run true).1.run create_ok = ((w.run true).1, none))
    ∧ (∀ queue, w.running = true → w.queue = some queue →
        w.terminate =
          { queue := some { queue with msgs := queue.msgs ++ [message.st MESSAGE_TERMINATE] }
            running := false, created := w.created, cancelled := w.cancelled
            joined := w.joined + 1 })
    ∧ (w.running = true → w.queue = none →
        w.terminate =
          { queue := none, running := false, created := w.created
            cancelled := w.cancelled + 1, joined := w.joined + 1 })
    ∧ (w.running = false → w.terminate = w)
    ∧ w.terminate.terminate = w.terminate
    ∧ (Worker.init create_ok).terminate = Worker.init create_ok := by
  refine ⟨?_, ?_, ?_, ?_, ?_, ?_, ?_⟩
  · intro h
    simp [Worker.run, h]
  · cases h : w.running <;> simp [Worker.run, h]
  · intro queue h hq
    simp [Worker.terminate, h, hq, MessageQueue.push_msg_type, MessageQueue.push_msg]
  · intro h hq
    simp [Worker.terminate, h, hq]
  · intro h
    simp [Worker.terminate, h]
  · cases h : w.running
    · simp [Worker.terminate, h]
    · cases hq : w.queue <;> simp [Worker.terminate, h, hq]
  · simp [Worker.terminate, Worker.init]

theorem worker_run_terminate_idempotent_witness :
    ((Worker.init true).run true).1.running = true
    ∧ ((Worker.init true).run true).1.run true = (((Worker.init true).run true).1, none)
    ∧ ((Worker.init true).run true).1.terminate =
        { queue := some { msgs := [message.st MESSAGE_TERMINATE], more := false }
          running := false, created := 1, cancelled := 0, joined := 1 } :=
  ⟨by decide,
    (worker_run_terminate_idempotent ((Worker.init true).run true).1 true).1 (by decide),
    ((worker_run_terminate_idempotent ((Worker.init true).run true).1 true).2.2.1
      MessageQueue.init (by decide) (by decide)).trans (by decide)⟩

/-! ## The serial line -/

theorem write_bytes_ok (write_ok : Nat → Bool) (l : List Nat) (i : Nat) (written : List Nat)
    (h : ∀ j, j < l.length → write_ok (i + j) = true) :
    write_bytes write_ok l i written = (written ++ l, true) := by
  induction l generalizing i written with
  | nil => simp [write_bytes]
  | cons b rest ih =>
    have h0 : write_ok i = true := by simpa using h 0 (by simp)
    have hrest : ∀ j, j < rest.length → write_ok (i + 1 + j) = true := by
      intro j hj
      have := h (j + 1) (by simpa using hj)
      rw [show i + 1 + j = i + (j + 1) by omega]
      exact this
    simp [write_bytes, h0, ih (i + 1) (written ++ [b]) hrest]

theorem close_serial_port_fields (c : ChassisManager) :
    c.close_serial_port.num_users = c.num_users
    ∧ c.close_serial_port.written = c.written
    ∧ c.close_serial_port.port = port_invalid := by
  unfold ChassisManager.close_serial_port
  by_cases h : c.port = port_invalid
  · simp [h]
  · have h' : ¬ port_invalid = c.port := fun e => h e.symm
    simp [h']

theorem open_serial_port_cases (c : ChassisManager) (o : serial_open) :
    (c.open_serial_port o).1.num_users = c.num_users
    ∧ (c.open_serial_port o).1.written = c.written
    ∧ (∀ rc, (c.open_serial_port o).2 = some rc →
        c.port = port_invalid
        ∧ (rc = return_code_en.RC_CHMGR_PORT_ERROR ∨ rc = return_code_en.RC_CHMGR_THREAD_ERROR)
        ∧ (rc = return_code_en.RC_CHMGR_PORT_ERROR →
            (c.open_serial_port o).1.port = port_invalid)) := by
  unfold ChassisManager.open_serial_port
  by_cases h : c.port = port_invalid
  · have h' : ¬ port_invalid ≠ c.port := fun e => e h.symm
    simp only [if_neg h']
    by_cases h1 : o.open_fd = port_invalid
    · simp [h1, h]
    · have h1' : ¬ port_invalid = o.open_fd := fun e => h1 e.symm
      simp only [if_neg h1']
      cases o.fcntl_ok <;> cases o.tcgetattr_ok <;> cases o.tcsetattr_ok <;>
        cases o.thread_ok <;>
        simp [h, (close_serial_port_fields _).1, (close_serial_port_fields _).2.1,
          (close_serial_port_fields _).2.2]
  · have h' : port_invalid ≠ c.port := fun e => h e.symm
    simp [h']

theorem send_data_keeps (c : ChassisManager) (o : serial_open) (write_ok : Nat → Bool)
    (buf : List Nat) (len : Int) :
    (c.send_data o write_ok buf len).1.num_users = c.num_users := by
  unfold ChassisManager.send_data
  by_cases h : port_invalid = c.port
  · cases ho : (c.open_serial_port o).2 <;>
      simp [h, ho, (open_serial_port_cases c o).1]
  · simp [h]

theorem send_data_open (c : ChassisManager) (o : serial_open) (write_ok : Nat → Bool)
    (payload : List Nat) (h : c.port ≠ port_invalid)
    (hw : ∀ i, i ≤ payload.length → write_ok i = true) :
    c.send_data o write_ok payload payload.length
      = ({ c with written := c.written ++ payload ++ [delimiter] }, none) := by
  have hp : ¬ port_invalid = c.port := fun e => h e.symm
  have hwb := write_bytes_ok write_ok (payload ++ [delimiter]) 0 c.written (by
    intro j hj
    have : j ≤ payload.length := by
      simp at hj
      omega
    simpa using hw j this)
  simp [ChassisManager.send_data, hp, hwb, List.append_assoc]

/-- C24. `send_data` on a closed port that `open_serial_port` cannot open
throws `RC_CHMGR_WRITE_ERROR` and the device has received nothing more; when
the port is open, or is closed and opens, and all `write` calls succeed, it
throws nothing and the device has received the bytes of the payload in order,
whatever they are, and then one `':'`. -/
theorem send_data_frames_payload (c : ChassisManager) (o : serial_open)
    (write_ok : Nat → Bool) (payload : List Nat) :
    (c.port = port_invalid → (c.open_serial_port o).2 ≠ none →
      (c.send_data o write_ok payload payload.length).2
          = some return_code_en.RC_CHMGR_WRITE_ERROR
        ∧ (c.send_data o write_ok payload payload.length).1.written = c.written)
    ∧ ((c.port ≠ port_invalid ∨ (c.open_serial_port o).2 = none) →
        (∀ i, i ≤ payload.length → write_ok i = true) →
        (c.send_data o write_ok payload payload.length).2 = none
        ∧ (c.send_data o write_ok payload payload.length).1.written
            = c.written ++ payload ++ [delimiter]
        ∧ ((c.send_data o write_ok payload payload.length).1.written.drop
            c.written.length).length = payload.length + 1) := by
  constructor
  · intro hp ho
    have hp' : port_invalid = c.port := hp.symm
    cases hr : (c.open_serial_port o).2 with
    | none => exact absurd hr ho
    | some rc => simp [ChassisManager.send_data, hp', hr, (open_serial_port_cases c o).2.1]
  · intro hp hw
    have hwb : ∀ written, write_bytes write_ok (payload ++ [delimiter]) 0 written
        = (written ++ (payload ++ [delimiter]), true) := by
      intro written
      apply write_bytes_ok
      intro j hj
      have : j ≤ payload.length := by
        simp at hj
        omega
      simpa using hw j this
    by_cases hc : c.port = port_invalid
    · have ho : (c.open_serial_port o).2 = none := by
        rcases hp with hp | hp
        · exact absurd hc hp
        · exact hp
      have hc' : port_invalid = c.port := hc.symm
      simp [ChassisManager.send_data, hc', ho, hwb, (open_serial_port_cases c o).2.1]
    · have hc' : ¬ port_invalid = c.port := fun e => hc e.symm
      simp [ChassisManager.send_data, hc', hwb]

theorem send_data_frames_payload_witness :
    chmgr_sample.port ≠ port_invalid
    ∧ (chmgr_sample.send_data serial_open_ok (fun _ => true) [7, 58, 0, 58] 4).1.written
        = [7, 58, 0, 58, 58] :=
  ⟨by decide,
    ((send_data_frames_payload chmgr_sample serial_open_ok (fun _ => true) [7, 58, 0, 58]).2
      (Or.inl (by decide)) (fun _ _ => rfl)).2.1⟩

/-! ## The loop of the chassis manager -/

theorem chassis_iteration_forward (c : ChassisManager) (o : serial_open)
    (write_ok : Nat → Bool) (msg : message)
    (h : msg.type = MESSAGE_MOVE ∨ msg.type = MESSAGE_HEARTBEAT
      ∨ msg.type = MESSAGE_SENSOR_REQUEST)
    (ht : chassis_typed msg = true) :
    ∃ len : Nat, chassis_iteration c o write_ok msg =
      some { chmgr := (c.send_data o write_ok (object_bytes msg) len).1
             loop := true
             calls := [chassis_call.forward ((object_bytes msg).take len)] } := by
  refine ⟨if msg.type = MESSAGE_MOVE then 8 else 4, ?_⟩
  have hl : ¬ (object_bytes msg).length < (if msg.type = MESSAGE_MOVE then 8 else 4) := by
    cases msg with
    | st type =>
      have hm : type ≠ MESSAGE_MOVE := by simpa [chassis_typed] using ht
      simp [object_bytes, store_u32, message.type, hm]
    | move type direction =>
      by_cases hm : type = MESSAGE_MOVE <;> simp [object_bytes, store_u32, message.type, hm]
    | sensor type sensor data =>
      by_cases hm : type = MESSAGE_MOVE <;>
        simp [object_bytes, store_u32, store_u16, message.type, hm]
    | netcom type id client =>
      by_cases hm : type = MESSAGE_MOVE <;> simp [object_bytes, store_u32, message.type, hm]
  unfold chassis_iteration
  rw [if_pos h]
  simp only [hl, if_false]

theorem chassis_iteration_user_up (c : ChassisManager) (o : serial_open)
    (write_ok : Nat → Bool) (msg : message) (h : msg.type = MESSAGE_USER_UP) :
    chassis_iteration c o write_ok msg =
      if c.num_users + 1 ≥ 2 ^ 31 then none
      else some { chmgr := { c with num_users := c.num_users + 1 }, loop := true, calls := [] } := by
  simp [chassis_iteration, h]

theorem chassis_iteration_user_down (c : ChassisManager) (o : serial_open)
    (write_ok : Nat → Bool) (msg : message) (h : msg.type = MESSAGE_USER_DOWN) :
    chassis_iteration c o write_ok msg =
      if c.num_users > 0 then
        if c.num_users = 1 then
          some { chmgr :=
                   (({ c with num_users := c.num_users - 1 } : ChassisManager).send_data o
                     write_ok (object_bytes (message.move MESSAGE_MOVE STOP)) 8).1
                 loop := true
                 calls :=
                   [chassis_call.send_stop_chassis
                     (object_bytes (message.move MESSAGE_MOVE STOP))] }
        else
          some { chmgr := { c with num_users := c.num_users - 1 }, loop := true, calls := [] }
      else some { chmgr := c, loop := true, calls := [] } := by
  have h1 : (0 = c.num_users - 1) ↔ c.num_users = 1 := by omega
  simp [chassis_iteration, h, h1, ChassisManager.send_stop_chassis]

theorem chassis_iteration_terminate (c : ChassisManager) (o : serial_open)
    (write_ok : Nat → Bool) (msg : message) (h : msg.type = MESSAGE_TERMINATE) :
    chassis_iteration c o write_ok msg =
      some { chmgr :=
               (c.send_data o write_ok (object_bytes (message.move MESSAGE_MOVE STOP)) 8).1
             loop := false
             calls :=
               [chassis_call.send_stop_chassis
                 (object_bytes (message.move MESSAGE_MOVE STOP))] } := by
  simp [chassis_iteration, h, ChassisManager.send_stop_chassis]

theorem chassis_iteration_other (c : ChassisManager) (o : serial_open)
    (write_ok : Nat → Bool) (msg : message)
    (h1 : ¬ (msg.type = MESSAGE_MOVE ∨ msg.type = MESSAGE_HEARTBEAT
      ∨ msg.type = MESSAGE_SENSOR_REQUEST))
    (h2 : msg.type ≠ MESSAGE_USER_UP) (h3 : msg.type ≠ MESSAGE_USER_DOWN)
    (h4 : msg.type ≠ MESSAGE_TERMINATE) :
    chassis_iteration c o write_ok msg = some { chmgr := c, loop := true, calls := [] } := by
  unfold chassis_iteration
  rw [if_neg h1, if_neg h2, if_neg h3, if_neg h4]

theorem chassis_iteration_effect (c : ChassisManager) (o : serial_open)
    (write_ok : Nat → Bool) (msg : message) (t : chassis_turn)
    (h : chassis_iteration c o write_ok msg = some t) :
    t.chmgr.num_users =
        (if msg.type = MESSAGE_USER_UP then c.num_users + 1
         else if msg.type = MESSAGE_USER_DOWN ∧ 0 < c.num_users then c.num_users - 1
         else c.num_users)
    ∧ stop_commands t.calls =
        (if msg.type = MESSAGE_TERMINATE ∨ (msg.type = MESSAGE_USER_DOWN ∧ c.num_users = 1)
         then 1 else 0)
    ∧ (t.loop = false ↔ msg.type = MESSAGE_TERMINATE) := by
  by_cases h1 : msg.type = MESSAGE_MOVE ∨ msg.type = MESSAGE_HEARTBEAT
      ∨ msg.type = MESSAGE_SENSOR_REQUEST
  · have hlen : ∃ len : Nat, t = { chmgr := (c.send_data o write_ok (object_bytes msg) len).1
                                   loop := true
                                   calls := [chassis_call.forward ((object_bytes msg).take len)] } := by
      unfold chassis_iteration at h
      rw [if_pos h1] at h
      refine ⟨if msg.type = MESSAGE_MOVE then 8 else 4, ?_⟩
      by_cases hl : (object_bytes msg).length < (if msg.type = MESSAGE_MOVE then 8 else 4)
      · simp [hl] at h
      · simp only [hl, if_false, Option.some.injEq] at h
        exact h.symm
    obtain ⟨len, rfl⟩ := hlen
    rcases h1 with h1 | h1 | h1 <;> simp [h1, send_data_keeps, stop_commands]
  · by_cases h2 : msg.type = MESSAGE_USER_UP
    · rw [chassis_iteration_user_up c o write_ok msg h2] at h
      by_cases hb : c.num_users + 1 ≥ 2 ^ 31
      · rw [if_pos hb] at h
        cases h
      · rw [if_neg hb] at h
        simp only [Option.some.injEq] at h
        subst h
        simp [h2, stop_commands]
    · by_cases h3 : msg.type = MESSAGE_USER_DOWN
      · rw [chassis_iteration_user_down c o write_ok msg h3] at h
        by_cases hp : c.num_users > 0
        · by_cases ho : c.num_users = 1
          · rw [if_pos hp, if_pos ho] at h
            simp only [Option.some.injEq] at h
            subst h
            simp [h3, ho, send_data_keeps, stop_commands]
          · rw [if_pos hp, if_neg ho] at h
            simp only [Option.some.injEq] at h
            subst h
            have hp' : 0 < c.num_users := hp
            simp [h3, ho, hp', stop_commands]
        · rw [if_neg hp] at h
          simp only [Option.some.injEq] at h
          subst h
          have hp' : ¬ 0 < c.num_users := hp
          have ho : c.num_users ≠ 1 := by omega
          simp [h3, hp', ho, stop_commands]
      · by_cases h4 : msg.type = MESSAGE_TERMINATE
        · rw [chassis_iteration_terminate c o write_ok msg h4] at h
          simp only [Option.some.injEq] at h
          subst h
          simp [h4, send_data_keeps, stop_commands]
        · rw [chassis_iteration_other c o write_ok msg h1 h2 h3 h4] at h
          simp only [Option.some.injEq] at h
          subst h
          simp [h2, h3, h4, stop_commands]

theorem chassis_iteration_defined (c : ChassisManager) (o : serial_open)
    (write_ok : Nat → Bool) (msg : message) (ht : chassis_typed msg = true)
    (hb : c.num_users + 1 < 2 ^ 31) :
    ∃ t, chassis_iteration c o write_ok msg = some t := by
  by_cases h1 : msg.type = MESSAGE_MOVE ∨ msg.type = MESSAGE_HEARTBEAT
      ∨ msg.type = MESSAGE_SENSOR_REQUEST
  · obtain ⟨len, hlen⟩ := chassis_iteration_forward c o write_ok msg h1 ht
    exact ⟨_, hlen⟩
  · by_cases h2 : msg.type = MESSAGE_USER_UP
    · rw [chassis_iteration_user_up c o write_ok msg h2]
      have hb' : ¬ c.num_users + 1 ≥ 2 ^ 31 := by omega
      rw [if_neg hb']
      exact ⟨_, rfl⟩
    · by_cases h3 : msg.type = MESSAGE_USER_DOWN
      · rw [chassis_iteration_user_down c o write_ok msg h3]
        by_cases hp : c.num_users > 0
        · by_cases ho : c.num_users = 1
          · rw [if_pos hp, if_pos ho]
            exact ⟨_, rfl⟩
          · rw [if_pos hp, if_neg ho]
            exact ⟨_, rfl⟩
        · rw [if_neg hp]
          exact ⟨_, rfl⟩
      · by_cases h4 : msg.type = MESSAGE_TERMINATE
        · exact ⟨_, chassis_iteration_terminate c o write_ok msg h4⟩
        · exact ⟨_, chassis_iteration_other c o write_ok msg h1 h2 h3 h4⟩

theorem chassis_loop_users (inputs : List (message × serial_open × (Nat → Bool)))
    (c : ChassisManager) (r : chassis_turn) (h0 : 0 ≤ c.num_users)
    (h : chassis_loop c inputs = some r) :
    0 ≤ r.chmgr.num_users ∧ r.chmgr.num_users ≤ c.num_users + inputs.length := by
  induction inputs generalizing c r with
  | nil =>
    simp only [chassis_loop, Option.some.injEq] at h
    subst h
    simp [h0]
  | cons x rest ih =>
    obtain ⟨msg, o, write_ok⟩ := x
    simp only [chassis_loop] at h
    cases ht : chassis_iteration c o write_ok msg with
    | none => simp [ht] at h
    | some t =>
      have he := (chassis_iteration_effect c o write_ok msg t ht).1
      have hn : 0 ≤ t.chmgr.num_users ∧ t.chmgr.num_users ≤ c.num_users + 1 := by
        rw [he]
        split_ifs with a b <;> omega
      simp only [ht] at h
      by_cases hl : t.loop = true
      · rw [if_pos hl] at h
        cases hr : chassis_loop t.chmgr rest with
        | none => simp [hr] at h
        | some t' =>
          simp only [hr, Option.some.injEq] at h
          subst h
          have := ih t.chmgr t' hn.1 hr
          simp only [List.length_cons, Nat.cast_add, Nat.cast_one]
          constructor
          · exact this.1
          · omega
      · rw [if_neg hl] at h
        simp only [Option.some.injEq] at h
        subst h
        simp only [List.length_cons, Nat.cast_add, Nat.cast_one]
        constructor
        · exact hn.1
        · omega

theorem chassis_loop_defined (inputs : List (message × serial_open × (Nat → Bool)))
    (c : ChassisManager) (h0 : 0 ≤ c.num_users)
    (ht : ∀ x ∈ inputs, chassis_typed x.1 = true)
    (hb : c.num_users + inputs.length < 2 ^ 31) :
    ∃ r, chassis_loop c inputs = some r := by
  induction inputs generalizing c with
  | nil => exact ⟨_, rfl⟩
  | cons x rest ih =>
    obtain ⟨msg, o, write_ok⟩ := x
    simp only [List.length_cons, Nat.cast_add, Nat.cast_one] at hb
    obtain ⟨t, hit⟩ := chassis_iteration_defined c o write_ok msg
      (ht _ (List.mem_cons_self _ _)) (by omega)
    have he := (chassis_iteration_effect c o write_ok msg t hit).1
    have hn : 0 ≤ t.chmgr.num_users ∧ t.chmgr.num_users ≤ c.num_users + 1 := by
      rw [he]
      split_ifs with a b <;> omega
    simp only [chassis_loop, hit]
    by_cases hl : t.loop = true
    · obtain ⟨r, hr⟩ := ih t.chmgr hn.1
        (fun x hx => ht x (List.mem_cons_of_mem _ hx)) (by omega)
      simp [hl, hr]
    · simp [hl]

/-- C23. A turn of the loop of the chassis manager calls `send_stop_chassis`
once for `MESSAGE_TERMINATE` and for a `MESSAGE_USER_DOWN` that finds the
counter at one, where it passes the `message_move_st` with type `MESSAGE_MOVE`
and direction `STOP` to `send_data`, and not at all for any other message;
the loop is left exactly for `MESSAGE_TERMINATE`, after which no further
message is handled. -/
theorem chassis_stop_commands (c : ChassisManager) (o : serial_open) (write_ok : Nat → Bool)
    (msg : message) (rest : List (message × serial_open × (Nat → Bool))) :
    (msg.type = MESSAGE_TERMINATE →
      chassis_iteration c o write_ok msg =
          some { chmgr := (c.send_data o write_ok [7, 0, 0, 0, STOP, 0, 0, 0] 8).1
                 loop := false
                 calls := [chassis_call.send_stop_chassis [7, 0, 0, 0, STOP, 0, 0, 0]] }
        ∧ chassis_loop c ((msg, o, write_ok) :: rest) = chassis_iteration c o write_ok msg)
    ∧ (msg.type = MESSAGE_USER_DOWN → c.num_users = 1 →
        chassis_iteration c o write_ok msg =
          some { chmgr :=
                   (({ c with num_users := 0 } : ChassisManager).send_data o write_ok
                     [7, 0, 0, 0, STOP, 0, 0, 0] 8).1
                 loop := true
                 calls := [chassis_call.send_stop_chassis [7, 0, 0, 0, STOP, 0, 0, 0]] })
    ∧ (∀ t, chassis_iteration c o write_ok msg = some t →
        stop_commands t.calls =
            (if msg.type = MESSAGE_TERMINATE
                ∨ (msg.type = MESSAGE_USER_DOWN ∧ c.num_users = 1) then 1 else 0)
          ∧ (t.loop = false ↔ msg.type = MESSAGE_TERMINATE))
    ∧ (chassis_typed msg = true → c.num_users + 1 < 2 ^ 31 →
        ∃ t, chassis_iteration c o write_ok msg = some t)
    ∧ object_bytes (message.move MESSAGE_MOVE STOP) = [7, 0, 0, 0, STOP, 0, 0, 0] := by
  have hbytes : object_bytes (message.move MESSAGE_MOVE STOP) = [7, 0, 0, 0, STOP, 0, 0, 0] := by
    decide
  refine ⟨?_, ?_, ?_, chassis_iteration_defined c o write_ok msg, hbytes⟩
  · intro h
    have hit := chassis_iteration_terminate c o write_ok msg h
    rw [hbytes] at hit
    refine ⟨hit, ?_⟩
    simp [chassis_loop, hit]
  · intro h h1
    have hit := chassis_iteration_user_down c o write_ok msg h
    have hp : c.num_users > 0 := by omega
    rw [if_pos hp, if_pos h1, hbytes, h1] at hit
    simpa using hit
  · intro t ht
    exact (chassis_iteration_effect c o write_ok msg t ht).2

theorem chassis_stop_commands_witness :
    chassis_iteration { chmgr_sample with num_users := 1 } serial_open_ok (fun _ => true)
        (message.st MESSAGE_USER_DOWN)
      = some { chmgr := { chmgr_sample with written := [7, 0, 0, 0, 0, 0, 0, 0, 58] }
               loop := true
               calls := [chassis_call.send_stop_chassis [7, 0, 0, 0, 0, 0, 0, 0]] } :=
  ((chassis_stop_commands { chmgr_sample with num_users := 1 } serial_open_ok (fun _ => true)
    (message.st MESSAGE_USER_DOWN) []).2.1 rfl rfl).trans (by decide)

/-! ## Reading a frame from the serial line -/

theorem read_loop_frame (pre : List Nat) (rest : List (Option Nat))
    (done todo tail : List Nat) (hpre : delimiter ∉ pre) :
    read_loop (pre.map some ++ some delimiter :: rest) done.length
        ((done.length + todo.length : Nat) : Int) (done ++ todo ++ tail)
      = some { thrown := none
               read_bytes :=
                 done.length + (if pre.length + 1 ≤ todo.length then pre.length + 1
                   else todo.length)
               buf :=
                 done ++ (pre ++ [delimiter]).take todo.length
                   ++ todo.drop (pre.length + 1) ++ tail
               line := rest } := by
  induction pre generalizing done todo with
  | nil =>
    cases todo with
    | nil => simp [read_loop]
    | cons t todo =>
      have hlt : ((done.length : Nat) : Int) < ((done.length + (todo.length + 1) : Nat) : Int) := by
        omega
      simp [read_loop, hlt]
  | cons c pre ih =>
    have hc : c ≠ delimiter := by
      intro e
      apply hpre
      simp [e]
    have hpre' : delimiter ∉ pre := by
      intro e
      apply hpre
      simp [e]
    cases todo with
    | nil =>
      have := ih done [] hpre'
      simp only [List.length_nil, Nat.add_zero, List.append_nil] at this
      simp [read_loop, hc, this]
    | cons t todo =>
      have hlt : ((done.length : Nat) : Int) < ((done.length + (todo.length + 1) : Nat) : Int) := by
        omega
      have := ih (done ++ [c]) todo hpre'
      have hlen : (done ++ [c]).length + todo.length = done.length + (todo.length + 1) := by
        simp
        omega
      rw [hlen] at this
      have hset : (done ++ t :: todo ++ tail).set done.length c
          = done ++ [c] ++ todo ++ tail := by
        simp
      simp only [List.map_cons, List.cons_append, read_loop, List.length_cons, hlt, if_true,
        ne_eq, hc, not_false_eq_true, List.append_eq]
      rw [hset]
      have hl1 : (done ++ [c]).length = done.length + 1 := by simp
      rw [hl1] at this
      rw [this]
      by_cases hle : pre.length + 1 ≤ todo.length
      · have hle' : pre.length + 1 + 1 ≤ todo.length + 1 := by omega
        simp [hle, hle', List.append_assoc]
        omega
      · have hle' : ¬ pre.length + 1 + 1 ≤ todo.length + 1 := by omega
        simp [hle, hle', List.append_assoc]
        omega

/-- C25. With the port open, on a line that delivers the bytes `pre`, free of
`':'` and of read errors, then `':'`, then anything, `read_data` returns
having consumed `pre` and the `':'` and nothing of what follows; with `n` the
number of bytes consumed, it returns the smaller of `n` and `maxlen`, the
buffer starts with that many of the bytes consumed and is unchanged from
there on; and what `send_data` writes for a payload free of `':'` with fewer
than `maxlen` bytes is read back as the payload followed by `':'`. -/
theorem read_data_consumes_one_frame (c : ChassisManager) (o : serial_open)
    (pre : List Nat) (rest : List (Option Nat)) (buf : List Nat) (maxlen : Int)
    (write_ok : Nat → Bool)
    (hport : c.port ≠ port_invalid) (hpre : delimiter ∉ pre)
    (h0 : 0 ≤ maxlen) (hbuf : maxlen ≤ buf.length) :
    c.read_data o (pre.map some ++ some delimiter :: rest) buf maxlen
        = some (c,
            { thrown := none
              read_bytes := if (pre.length + 1 : Int) ≤ maxlen then pre.length + 1
                else maxlen.toNat
              buf :=
                (pre ++ [delimiter]).take
                    (if (pre.length + 1 : Int) ≤ maxlen then pre.length + 1
                      else maxlen.toNat)
                  ++ buf.drop
                    (if (pre.length + 1 : Int) ≤ maxlen then pre.length + 1
                      else maxlen.toNat)
              line := rest })
    ∧ ((pre.length + 1 : Int) ≤ maxlen → (∀ i, i ≤ pre.length → write_ok i = true) →
        c.read_data o
            (((c.send_data o write_ok pre pre.length).1.written.drop c.written.length).map
              some ++ rest) buf maxlen
          = some (c,
              { thrown := none, read_bytes := pre.length + 1
                buf := pre ++ [delimiter] ++ buf.drop (pre.length + 1), line := rest })) := by
  have hp : ¬ port_invalid = c.port := fun e => hport e.symm
  obtain ⟨m, rfl⟩ := Int.eq_ofNat_of_zero_le h0
  have hm : m ≤ buf.length := by exact_mod_cast hbuf
  have hloop := read_loop_frame pre rest [] (buf.take m) (buf.drop m) hpre
  have hlen : (buf.take m).length = m := by simp [hm]
  simp only [List.length_nil, Nat.zero_add, List.nil_append, hlen, List.take_append_drop]
    at hloop
  have hfirst : c.read_data o (pre.map some ++ some delimiter :: rest) buf (m : Int)
      = some (c,
          { thrown := none
            read_bytes := if (pre.length + 1 : Int) ≤ (m : Int) then pre.length + 1
              else (m : Int).toNat
            buf :=
              (pre ++ [delimiter]).take
                  (if (pre.length + 1 : Int) ≤ (m : Int) then pre.length + 1
                    else (m : Int).toNat)
                ++ buf.drop
                  (if (pre.length + 1 : Int) ≤ (m : Int) then pre.length + 1
                    else (m : Int).toNat)
            line := rest }) := by
    simp only [ChassisManager.read_data, if_neg hp, hloop]
    by_cases hle : pre.length + 1 ≤ m
    · have hle' : (pre.length + 1 : Int) ≤ (m : Int) := by exact_mod_cast hle
      have htake : (pre ++ [delimiter]).take m = pre ++ [delimiter] := by
        apply List.take_of_length_le
        simpa using hle
      have hdrop : (buf.take m).drop (pre.length + 1) ++ buf.drop m
          = buf.drop (pre.length + 1) := by
        rw [← List.drop_append_of_le_length (by simpa [hm] using hle), List.take_append_drop]
      have htake' : (pre ++ [delimiter]).take (pre.length + 1) = pre ++ [delimiter] := by
        apply List.take_of_length_le
        simp
      simp only [hle, hle', if_true, htake, htake', List.append_assoc, hdrop]
    · have hle' : ¬ (pre.length + 1 : Int) ≤ (m : Int) := by exact_mod_cast hle
      have hdrop : (buf.take m).drop (pre.length + 1) = [] := by
        apply List.drop_eq_nil_of_le
        simp [hm]
        omega
      simp [hle, hle', hdrop]
  refine ⟨hfirst, ?_⟩
  intro hle hw
  have hsent := send_data_open c o write_ok pre hport hw
  rw [hsent]
  simp only [List.append_assoc, List.drop_left, List.map_append, List.map_cons, List.map_nil,
    List.cons_append, List.nil_append]
  rw [hfirst]
  have htake : (pre ++ [delimiter]).take (pre.length + 1) = pre ++ [delimiter] := by
    apply List.take_of_length_le
    simp
  simp [hle, htake]

theorem read_data_consumes_one_frame_witness :
    chmgr_sample.port ≠ port_invalid ∧ delimiter ∉ [6, 0, 0, 0, 1, 0, 44, 1]
    ∧ chmgr_sample.read_data serial_open_ok
        ([some 6, some 0, some 0, some 0, some 1, some 0, some 44, some 1, some 58,
          some 9, none])
        [170, 170, 170, 170, 170, 170, 170, 170, 170, 170] 8
      = some (chmgr_sample,
          { thrown := none, read_bytes := 8
            buf := [6, 0, 0, 0, 1, 0, 44, 1, 170, 170]
            line := [some 9, none] }) :=
  ⟨by decide, by decide,
    ((read_data_consumes_one_frame chmgr_sample serial_open_ok [6, 0, 0, 0, 1, 0, 44, 1]
      [some 9, none] [170, 170, 170, 170, 170, 170, 170, 170, 170, 170] 8 (fun _ => true)
      (by decide) (by decide) (by decide) (by decide)).1).trans (by decide)⟩

/-! ## Construction of the chassis manager -/

/-- C26, counterexample. When `open` on the serial device fails,
`open_serial_port` throws `RC_CHMGR_PORT_ERROR`, yet the constructor of
`ChassisManager` throws nothing, and `Engine::start` returns no code from its
`catch`: it goes into the dispatch loop with the messages it pops. -/
theorem chmgr_port_error_does_not_stop_start :
    (ChassisManager.init.open_serial_port serial_open_fails).2
        = some return_code_en.RC_CHMGR_PORT_ERROR
    ∧ (ChassisManager.create serial_open_fails true).2.2 = none
    ∧ start engine_empty none none serial_open_fails true none
        [(message.st MESSAGE_HEARTBEAT, true)]
      ≠ Sum.inl return_code_en.RC_CHMGR_PORT_ERROR
    ∧ start engine_empty none none serial_open_fails true none
        [(message.st MESSAGE_HEARTBEAT, true)]
      = Sum.inr (run engine_empty [(message.st MESSAGE_HEARTBEAT, true)]) := by
  refine ⟨by decide, by decide, ?_, rfl⟩
  intro h
  cases h

/-- C26, amended. Whatever the system calls on the serial device do, the
constructor of `ChassisManager` throws exactly when its worker thread cannot
be created, and then `RC_WORKER_THREAD_ERROR`, never `RC_CHMGR_PORT_ERROR`;
when `open_serial_port` throws `RC_CHMGR_PORT_ERROR` the object is constructed
with the port closed and no receive thread; with the other objects
constructed, `Engine::start` enters the dispatch loop if the worker thread was
created and returns `RC_WORKER_THREAD_ERROR` without entering it if not. -/
theorem chmgr_constructor_catches_port_error (o : serial_open) (create_ok : Bool)
    (netcom : Option return_code_en) (e : Engine) (inputs : List (message × Bool)) :
    (ChassisManager.create o create_ok).2.2
        = (if create_ok then none else some return_code_en.RC_WORKER_THREAD_ERROR)
    ∧ (ChassisManager.create o create_ok).2.2 ≠ some return_code_en.RC_CHMGR_PORT_ERROR
    ∧ ((ChassisManager.init.open_serial_port o).2 = some return_code_en.RC_CHMGR_PORT_ERROR →
        (ChassisManager.create o create_ok).1 = ChassisManager.init)
    ∧ start e none none o true none inputs = Sum.inr (run e inputs)
    ∧ start e none none o false netcom inputs
        = Sum.inl return_code_en.RC_WORKER_THREAD_ERROR := by
  refine ⟨?_, ?_, ?_, ?_, ?_⟩
  · cases create_ok <;> simp [ChassisManager.create, Worker.run, Worker.init]
  · cases create_ok <;> simp [ChassisManager.create, Worker.run, Worker.init]
  · intro h
    have hport := ((open_serial_port_cases ChassisManager.init o).2.2 _ h).2.2 rfl
    have hkeep := open_serial_port_cases ChassisManager.init o
    simp only [ChassisManager.create]
    revert h hport
    unfold ChassisManager.open_serial_port ChassisManager.close_serial_port
    by_cases h1 : o.open_fd = port_invalid
    · simp [ChassisManager.init, h1]
    · have h1' : ¬ port_invalid = o.open_fd := fun e => h1 e.symm
      have h1n : ¬ (-1 : Int) = o.open_fd := h1'
      cases o.fcntl_ok <;> cases o.tcgetattr_ok <;> cases o.tcsetattr_ok <;>
        cases o.thread_ok <;> simp [ChassisManager.init, h1', h1n]
  · simp [start, start_objects, ChassisManager.create, Worker.run, Worker.init]
  · simp [start, start_objects, ChassisManager.create, Worker.run, Worker.init]

theorem chmgr_constructor_catches_port_error_witness :
    (ChassisManager.init.open_serial_port
        { open_fd := 3, fcntl_ok := true, tcgetattr_ok := false, tcsetattr_ok := true
          thread_ok := true }).2 = some return_code_en.RC_CHMGR_PORT_ERROR
    ∧ (ChassisManager.create
        { open_fd := 3, fcntl_ok := true, tcgetattr_ok := false, tcsetattr_ok := true
          thread_ok := true } true).1 = ChassisManager.init :=
  ⟨by decide,
    (chmgr_constructor_catches_port_error
      { open_fd := 3, fcntl_ok := true, tcgetattr_ok := false, tcsetattr_ok := true
        thread_ok := true } true none engine_empty []).2.2.1 (by decide)⟩

/-! ## Frames from the chassis -/

/-- C29, defect. For the serial frame `1 0 0 0 ':'` the receive
thread pushes a message whose type is `MESSAGE_TERMINATE`, the rest being
what the frame and the fresh allocation held, and the dispatch loop of the
engine leaves on that message; for the frame that is a lone `':'` three of
the four bytes of the type are those of the fresh allocation. -/
theorem serial_frame_sets_message_type :
    receive_thread_turn chmgr_sample serial_open_ok MessageQueue.init
        [some 1, some 0, some 0, some 0, some 58] (List.replicate 8 170)
      = some (chmgr_sample,
          { msgs := [message.sensor MESSAGE_TERMINATE 43578 43690], more := false }, [])
    ∧ dispatch engine_sample true (message.sensor MESSAGE_TERMINATE 43578 43690)
      = some { engine := engine_sample, loop := false, msg_forwarded := false
               notified := [] }
    ∧ receive_thread_turn chmgr_sample serial_open_ok MessageQueue.init
        [some 58] (List.replicate 8 170)
      = some (chmgr_sample,
          { msgs := [message.sensor (58 + 170 * 2 ^ 8 + 170 * 2 ^ 16 + 170 * 2 ^ 24) 43690 43690]
            more := false }, []) := by
  refine ⟨?_, ?_, ?_⟩
  · decide
  · rfl
  · decide

/-! ## Records shorter than their type -/

/-- C30, defect. Two buffers that agree on the eight bytes
received, a `MESSAGE_NETCOM_CONNECT` header for client 7, and differ in the
bytes after them, are answered differently by `connect_uplink`, which accepts
the one and turns down the other; and two buffers that agree on the four
bytes received, the type `MESSAGE_MOVE`, make `proc_control_message` push
moves of different directions. -/
theorem short_record_outcome_follows_stale_bytes :
    (connect_record 7 (List.replicate 512 171)).take 8
        = (connect_record 7 (List.replicate 512 170)).take 8
    ∧ (connect_uplink netcom_sample 9 (connect_record 7 (List.replicate 512 171)) 8
        (List.replicate 512 1) true).engine_queue.msgs
        = [message.netcom MESSAGE_NETCOM_CLIENT_ALIVE 7 100]
    ∧ (connect_uplink netcom_sample 9 (connect_record 7 (List.replicate 512 170)) 8
        (List.replicate 512 1) true).engine_queue.msgs = []
    ∧ (store_u32 (htonl MESSAGE_MOVE) ++ store_u32 (htonl 1)).take 4
        = (store_u32 (htonl MESSAGE_MOVE) ++ store_u32 (htonl 2)).take 4
    ∧ (proc_control_message netcom_sample
        { sd := 7, ssl := 1, otp := List.replicate 512 171, uplink := 100 }
        (store_u32 (htonl MESSAGE_MOVE) ++ store_u32 (htonl 1)) 4 0).engine_queue.msgs
        = [message.move MESSAGE_MOVE 1]
    ∧ (proc_control_message netcom_sample
        { sd := 7, ssl := 1, otp := List.replicate 512 171, uplink := 100 }
        (store_u32 (htonl MESSAGE_MOVE) ++ store_u32 (htonl 2)) 4 0).engine_queue.msgs
        = [message.move MESSAGE_MOVE 2] := by
  refine ⟨by decide, ?_, ?_, by decide, by decide, by decide⟩
  · rw [connect_uplink_success netcom_sample 9 (connect_record 7 (List.replicate 512 171)) 8
      (List.replicate 512 1)
      { sd := 7, ssl := 1, otp := List.replicate 512 171, uplink := 100 }
      (by decide) (by decide) (by decide) (by decide)]
    rfl
  · decide

end sentry
